import Mathlib

/-!
# Ranked-choice voting tally engine: a shallow embedding of `rcv_funcs.c`

The C program keeps, for every candidate, a singly linked list of votes
(`candidate_votes[i]`), a vote count and a status character.  The embedding
below follows the source function by function.

Modelling conventions.

* A C array of `MAX_CANDIDATES` cells is a total map `Int → α`; every read or
  write of a cell checks the index against `0 ≤ i < MAX_CANDIDATES` and
  yields `Fault.out_of_bounds` otherwise (the C behaviour there is undefined).
* `MAX_CANDIDATES` is declared in `rcv.h`; it is a parameter of every
  function that uses it.  `NO_CANDIDATE` is `-1`, as the source comments say.
* A linked list of votes is a `List vote_t`; the head of the C list is the
  head of the Lean list.  Pointers are never `NULL` in the model, so the
  `NULL` guards at the top of the C functions have no counterpart.
* `int` is an unbounded integer.
* Printing and logging change no state and are left out.
* `for (i = 0; i < n; i++)` loops whose bound is not changed by the body are
  recursions over the number of remaining iterations.  `while` loops carry a
  fuel argument and report `Fault.timeout` when it runs out.
-/

namespace RCV

/-- Value of the `NO_CANDIDATE` marker (`-1` in the source comments). -/
def NO_CANDIDATE : Int := -1

/-- Candidate status characters; `other` stands for any character that is none
of the three named constants. -/
inductive cand_status where
  | CAND_ACTIVE
  | CAND_MINVOTES
  | CAND_DROPPED
  | other (raw : Int)
  deriving DecidableEq

/-- Result codes of `tally_condition`. -/
inductive tally_cond where
  | TALLY_ERROR
  | TALLY_WINNER
  | TALLY_TIE
  | TALLY_CONTINUE
  deriving DecidableEq

/-- Ways in which a run of the C code does not return normally. -/
inductive Fault where
  | out_of_bounds
  | timeout
  deriving DecidableEq

/-- One vote: `id`, cursor `pos` and the `candidate_order[]` array.  The `next`
pointer is the tail of the list that holds the vote. -/
structure vote_t where
  id : Int
  pos : Int
  candidate_order : Int → Int

/-- The tally: candidate table, per-candidate vote lists and the invalid list.
Candidate names only feed the printing functions and are left out. -/
structure tally_t where
  candidate_count : Int
  candidate_status : Int → cand_status
  candidate_vote_counts : Int → Int
  candidate_votes : Int → List vote_t
  invalid_vote_count : Int
  invalid_votes : List vote_t

/-- Array cell assignment `a[i] = x`. -/
def arr_set {α : Type} (a : Int → α) (i : Int) (x : α) : Int → α :=
  fun j => if j = i then x else a j

/-- Array given by its first cells, the remaining cells holding `d`. -/
def arr_of {α : Type} (l : List α) (d : α) : Int → α :=
  fun j => if j < 0 then d else l.getD j.toNat d

/-- Body of the `while (vote->pos < MAX_CANDIDATES)` loop of
`vote_next_candidate`; returns the function result and the final `pos`. -/
def vote_next_scan (MAX_CANDIDATES : Int) (candidate_status : Int → cand_status)
    (candidate_order : Int → Int) : Nat → Int → Except Fault (Int × Int)
  | 0, _ => .error .timeout
  | fuel + 1, pos =>
    if pos < MAX_CANDIDATES then
      if pos < 0 then .error .out_of_bounds
      else
        let candidate := candidate_order pos
        if candidate = NO_CANDIDATE ∨ candidate ≥ MAX_CANDIDATES then
          .ok (NO_CANDIDATE, pos)
        else if candidate < 0 then .error .out_of_bounds
        else if candidate_status candidate = .CAND_ACTIVE then
          .ok (candidate, pos)
        else
          vote_next_scan MAX_CANDIDATES candidate_status candidate_order fuel (pos + 1)
    else .ok (NO_CANDIDATE, pos)

/-- The function `vote_next_candidate`: the returned candidate and the vote with its
updated cursor.  The loop adds one to `pos` per iteration, so
`MAX_CANDIDATES - pos + 1` units of fuel always suffice. -/
def vote_next_candidate (MAX_CANDIDATES : Int) (vote : vote_t)
    (candidate_status : Int → cand_status) : Except Fault (Int × vote_t) :=
  match vote_next_scan MAX_CANDIDATES candidate_status vote.candidate_order
      ((MAX_CANDIDATES - vote.pos).toNat + 1) vote.pos with
  | .error e => .error e
  | .ok (c, p) => .ok (c, { vote with pos := p })

/-- Index check for an array of `MAX_CANDIDATES` cells. -/
def in_bounds (MAX_CANDIDATES : Int) (i : Int) : Prop := 0 ≤ i ∧ i < MAX_CANDIDATES

instance (MAX_CANDIDATES i : Int) : Decidable (in_bounds MAX_CANDIDATES i) := by
  unfold in_bounds
  exact inferInstance

/-- First loop of `tally_set_minvote_candidates`: the running `min_votes`,
which starts at the sentinel `-1`. -/
def minvote_scan (MAX_CANDIDATES : Int) (tally : tally_t) : Nat → Int → Int → Except Fault Int
  | 0, _, min_votes => .ok min_votes
  | n + 1, i, min_votes =>
    if ¬ in_bounds MAX_CANDIDATES i then .error .out_of_bounds
    else if tally.candidate_status i ≠ .CAND_DROPPED then
      if min_votes = -1 ∨ tally.candidate_vote_counts i < min_votes then
        minvote_scan MAX_CANDIDATES tally n (i + 1) (tally.candidate_vote_counts i)
      else minvote_scan MAX_CANDIDATES tally n (i + 1) min_votes
    else minvote_scan MAX_CANDIDATES tally n (i + 1) min_votes

/-- Second loop of `tally_set_minvote_candidates`: mark the `CAND_ACTIVE`
candidates whose count is `min_votes`. -/
def minvote_mark (MAX_CANDIDATES : Int) (min_votes : Int) : Nat → Int → tally_t → Except Fault tally_t
  | 0, _, tally => .ok tally
  | n + 1, i, tally =>
    if ¬ in_bounds MAX_CANDIDATES i then .error .out_of_bounds
    else if tally.candidate_status i = .CAND_ACTIVE ∧ tally.candidate_vote_counts i = min_votes then
      minvote_mark MAX_CANDIDATES min_votes n (i + 1)
        { tally with candidate_status := arr_set tally.candidate_status i .CAND_MINVOTES }
    else minvote_mark MAX_CANDIDATES min_votes n (i + 1) tally

/-- The function `tally_set_minvote_candidates`. -/
def tally_set_minvote_candidates (MAX_CANDIDATES : Int) (tally : tally_t) : Except Fault tally_t :=
  if tally.candidate_count = 0 then .ok tally
  else
    match minvote_scan MAX_CANDIDATES tally tally.candidate_count.toNat 0 (-1) with
    | .error e => .error e
    | .ok min_votes =>
      if min_votes = -1 then .ok tally
      else minvote_mark MAX_CANDIDATES min_votes tally.candidate_count.toNat 0 tally

/-- Counting loop of `tally_condition`: `none` is the `default:` branch that returns
`TALLY_ERROR` at once, otherwise the pair `(active_count, minvote_count)`. -/
def tally_condition_count (MAX_CANDIDATES : Int) (tally : tally_t) :
    Nat → Int → Int → Int → Except Fault (Option (Int × Int))
  | 0, _, active_count, minvote_count => .ok (some (active_count, minvote_count))
  | n + 1, i, active_count, minvote_count =>
    if ¬ in_bounds MAX_CANDIDATES i then .error .out_of_bounds
    else
      match tally.candidate_status i with
      | .CAND_ACTIVE =>
        tally_condition_count MAX_CANDIDATES tally n (i + 1) (active_count + 1) minvote_count
      | .CAND_MINVOTES =>
        tally_condition_count MAX_CANDIDATES tally n (i + 1) active_count (minvote_count + 1)
      | .CAND_DROPPED =>
        tally_condition_count MAX_CANDIDATES tally n (i + 1) active_count minvote_count
      | .other _ => .ok none

/-- The function `tally_condition`. -/
def tally_condition (MAX_CANDIDATES : Int) (tally : tally_t) : Except Fault tally_cond :=
  match tally_condition_count MAX_CANDIDATES tally tally.candidate_count.toNat 0 0 0 with
  | .error e => .error e
  | .ok none => .ok .TALLY_ERROR
  | .ok (some (active_count, minvote_count)) =>
    if active_count = 1 then .ok .TALLY_WINNER
    else if active_count > 1 then .ok .TALLY_CONTINUE
    else if active_count = 0 ∧ minvote_count > 1 then .ok .TALLY_TIE
    else .ok .TALLY_ERROR

/-- The function `tally_add_vote`: prepend the vote to the list of the candidate at its cursor
and add one to that candidate's count.  The source has no branch for `NO_CANDIDATE`. -/
def tally_add_vote (MAX_CANDIDATES : Int) (tally : tally_t) (vote : vote_t) : Except Fault tally_t :=
  if ¬ in_bounds MAX_CANDIDATES vote.pos then .error .out_of_bounds
  else
    let candidate_index := vote.candidate_order vote.pos
    if ¬ in_bounds MAX_CANDIDATES candidate_index then .error .out_of_bounds
    else
      .ok { tally with
        candidate_votes :=
          arr_set tally.candidate_votes candidate_index (vote :: tally.candidate_votes candidate_index)
        candidate_vote_counts :=
          arr_set tally.candidate_vote_counts candidate_index
            (tally.candidate_vote_counts candidate_index + 1) }

/-- The function `tally_transfer_first_vote`. -/
def tally_transfer_first_vote (MAX_CANDIDATES : Int) (tally : tally_t) (candidate_index : Int) :
    Except Fault tally_t :=
  if candidate_index ≥ tally.candidate_count then .ok tally
  else if ¬ in_bounds MAX_CANDIDATES candidate_index then .error .out_of_bounds
  else
    match tally.candidate_votes candidate_index with
    | [] => .ok tally
    | vote_to_transfer :: next =>
      let tally1 : tally_t := { tally with
        candidate_votes := arr_set tally.candidate_votes candidate_index next
        candidate_vote_counts :=
          arr_set tally.candidate_vote_counts candidate_index
            (tally.candidate_vote_counts candidate_index - 1) }
      match vote_next_candidate MAX_CANDIDATES
          { vote_to_transfer with pos := vote_to_transfer.pos + 1 } tally1.candidate_status with
      | .error e => .error e
      | .ok (next_candidate, vote) =>
        if next_candidate = NO_CANDIDATE then
          .ok { tally1 with
            candidate_votes :=
              arr_set tally1.candidate_votes candidate_index
                (vote :: tally1.candidate_votes candidate_index)
            candidate_vote_counts :=
              arr_set tally1.candidate_vote_counts candidate_index
                (tally1.candidate_vote_counts candidate_index + 1) }
        else if ¬ in_bounds MAX_CANDIDATES next_candidate then .error .out_of_bounds
        else
          .ok { tally1 with
            candidate_votes :=
              arr_set tally1.candidate_votes next_candidate
                (vote :: tally1.candidate_votes next_candidate)
            candidate_vote_counts :=
              arr_set tally1.candidate_vote_counts next_candidate
                (tally1.candidate_vote_counts next_candidate + 1) }

/-- The drain loop `while (tally->candidate_votes[i] != NULL) tally_transfer_first_vote(tally, i);`
of `tally_drop_minvote_candidates`. -/
def drain_votes (MAX_CANDIDATES : Int) : Nat → tally_t → Int → Except Fault tally_t
  | 0, tally, i =>
    match tally.candidate_votes i with
    | [] => .ok tally
    | _ :: _ => .error .timeout
  | fuel + 1, tally, i =>
    match tally.candidate_votes i with
    | [] => .ok tally
    | _ :: _ =>
      match tally_transfer_first_vote MAX_CANDIDATES tally i with
      | .error e => .error e
      | .ok tally1 => drain_votes MAX_CANDIDATES fuel tally1 i

/-- The `for` loop of `tally_drop_minvote_candidates`; `fuel` bounds each drain loop. -/
def drop_loop (MAX_CANDIDATES : Int) (fuel : Nat) : Nat → Int → tally_t → Except Fault tally_t
  | 0, _, tally => .ok tally
  | n + 1, i, tally =>
    if ¬ in_bounds MAX_CANDIDATES i then .error .out_of_bounds
    else if tally.candidate_status i = .CAND_MINVOTES then
      match drain_votes MAX_CANDIDATES fuel tally i with
      | .error e => .error e
      | .ok tally1 =>
        drop_loop MAX_CANDIDATES fuel n (i + 1)
          { tally1 with candidate_status := arr_set tally1.candidate_status i .CAND_DROPPED }
    else drop_loop MAX_CANDIDATES fuel n (i + 1) tally

/-- The function `tally_drop_minvote_candidates`. -/
def tally_drop_minvote_candidates (MAX_CANDIDATES : Int) (fuel : Nat) (tally : tally_t) :
    Except Fault tally_t :=
  drop_loop MAX_CANDIDATES fuel tally.candidate_count.toNat 0 tally

/-- The `while (1)` round loop of `tally_election`.  The first numeric argument bounds the
number of rounds, `fuel` bounds each drain loop; the result is the final tally, the
terminal condition and the number of the last round. -/
def election_rounds (MAX_CANDIDATES : Int) (fuel : Nat) :
    Nat → Nat → tally_t → Except Fault (tally_t × tally_cond × Nat)
  | 0, _, _ => .error .timeout
  | k + 1, round, tally =>
    match tally_drop_minvote_candidates MAX_CANDIDATES fuel tally with
    | .error e => .error e
    | .ok tally1 =>
      match tally_set_minvote_candidates MAX_CANDIDATES tally1 with
      | .error e => .error e
      | .ok tally2 =>
        match tally_condition MAX_CANDIDATES tally2 with
        | .error e => .error e
        | .ok condition =>
          if condition ≠ .TALLY_CONTINUE then .ok (tally2, condition, round)
          else election_rounds MAX_CANDIDATES fuel k (round + 1) tally2

/-- The function `tally_election`, with `fuel` bounding the rounds and every drain loop. -/
def tally_election (MAX_CANDIDATES : Int) (fuel : Nat) (tally : tally_t) :
    Except Fault (tally_t × tally_cond × Nat) :=
  election_rounds MAX_CANDIDATES fuel fuel 1 tally

/-- Number of candidates among the first `candidate_count` whose status is `s`. -/
def num_with_status (tally : tally_t) (s : cand_status) : Nat :=
  (List.range tally.candidate_count.toNat).countP
    (fun (j : Nat) => decide (tally.candidate_status (j : Int) = s))

/-- The value `m` is what the first loop of `tally_set_minvote_candidates` holds after the
candidates below `k`: the sentinel `-1` when all of them are Dropped, otherwise the least
vote count of a non-Dropped one. -/
def min_votes_upto (tally : tally_t) (k : Int) (m : Int) : Prop :=
  (m = -1 ∧ ∀ j, 0 ≤ j → j < k → tally.candidate_status j = .CAND_DROPPED) ∨
  ((∃ j, 0 ≤ j ∧ j < k ∧ tally.candidate_status j ≠ .CAND_DROPPED ∧
      tally.candidate_vote_counts j = m) ∧
    ∀ j, 0 ≤ j → j < k → tally.candidate_status j ≠ .CAND_DROPPED →
      m ≤ tally.candidate_vote_counts j)

/-! ## Concrete votes and tallies -/

/-- Two candidates: candidate 0 is already MinVotes and holds votes 1 and 2 (`0 1`),
candidate 1 is Active and holds vote 3 (`1 0`). -/
def stale_minvotes_tally : tally_t :=
  { candidate_count := 2
    candidate_status := arr_of [.CAND_MINVOTES, .CAND_ACTIVE] .CAND_DROPPED
    candidate_vote_counts := arr_of [2, 1] 0
    candidate_votes :=
      arr_of [[{ id := 2, pos := 0, candidate_order := arr_of [0, 1] NO_CANDIDATE },
               { id := 1, pos := 0, candidate_order := arr_of [0, 1] NO_CANDIDATE }],
              [{ id := 3, pos := 0, candidate_order := arr_of [1, 0] NO_CANDIDATE }]] []
    invalid_vote_count := 0
    invalid_votes := [] }

/-- The tally of the example in the comment of `tally_set_minvote_candidates`: statuses
`{DROPPED, ACTIVE, ACTIVE, ACTIVE}` and vote counts `{0, 4, 2, 2}`.  The comment does not
list the votes, and the functions applied to this tally do not read them. -/
def doc_minvote_tally : tally_t :=
  { candidate_count := 4
    candidate_status := arr_of [.CAND_DROPPED, .CAND_ACTIVE, .CAND_ACTIVE, .CAND_ACTIVE] .CAND_DROPPED
    candidate_vote_counts := arr_of [0, 4, 2, 2] 0
    candidate_votes := fun _ => []
    invalid_vote_count := 0
    invalid_votes := [] }

/-- Status table `{DROPPED, DROPPED, DROPPED, ACTIVE}` of the example in the comment of
`vote_next_candidate`. -/
def doc_status : Int → cand_status :=
  arr_of [.CAND_DROPPED, .CAND_DROPPED, .CAND_DROPPED, .CAND_ACTIVE] .CAND_DROPPED

/-- The vote `{.pos=1, .candidate_order={2, 0, 3, 1, NO_CANDIDATE}}` of the same example. -/
def doc_vote : vote_t :=
  { id := 1, pos := 1, candidate_order := arr_of [2, 0, 3, 1] NO_CANDIDATE }

/-- Vote with the given id and preferences, cursor at the first preference, as
`tally_from_file` builds it (cells not read from the file hold `NO_CANDIDATE`). -/
def mk_vote (id : Int) (prefs : List Int) : vote_t :=
  { id := id, pos := 0, candidate_order := arr_of prefs NO_CANDIDATE }

/-- Three Active candidates; votes 1 and 2 are `0 1 2`, votes 3 and 4 are `1 0 2`, and vote 5
is `2 -1 -1`, the truncated ballot of candidate 2.  This is the tally `tally_from_file`
builds from those five ballots (each list has the newest vote first). -/
def truncated_tally : tally_t :=
  { candidate_count := 3
    candidate_status := arr_of [.CAND_ACTIVE, .CAND_ACTIVE, .CAND_ACTIVE] .CAND_DROPPED
    candidate_vote_counts := arr_of [2, 2, 1] 0
    candidate_votes :=
      arr_of [[mk_vote 2 [0, 1, 2], mk_vote 1 [0, 1, 2]],
              [mk_vote 4 [1, 0, 2], mk_vote 3 [1, 0, 2]],
              [mk_vote 5 [2, -1, -1]]] []
    invalid_vote_count := 0
    invalid_votes := [] }

/-- The tally `truncated_tally` after round 1: candidate 2, who has the fewest votes, is
MinVotes. -/
def truncated_marked : tally_t :=
  { truncated_tally with
    candidate_status := arr_set truncated_tally.candidate_status 2 .CAND_MINVOTES }

/-- The tally `truncated_tally` with candidate 1 marked MinVotes: both votes of candidate 1
have candidate 0, who is Active, as their next preference. -/
def drop_example_tally : tally_t :=
  { truncated_tally with
    candidate_status := arr_of [.CAND_ACTIVE, .CAND_MINVOTES, .CAND_ACTIVE] .CAND_DROPPED }

/-- Two Active candidates and no votes yet (Scenario B before the ballot is added). -/
def scenario_b_tally : tally_t :=
  { candidate_count := 2
    candidate_status := arr_of [.CAND_ACTIVE, .CAND_ACTIVE] .CAND_DROPPED
    candidate_vote_counts := fun _ => 0
    candidate_votes := fun _ => []
    invalid_vote_count := 0
    invalid_votes := [] }

/-- The ballot `-1 0` of Scenario B, cursor at its first preference. -/
def scenario_b_vote : vote_t := mk_vote 1 [-1, 0]

/-- Count consistency: the count stored for each of the first `candidate_count` candidates
is the length of its vote list. -/
def count_consistent (tally : tally_t) : Prop :=
  ∀ j, 0 ≤ j → j < tally.candidate_count →
    tally.candidate_vote_counts j = (tally.candidate_votes j).length

/-- Ids of the votes held by the first `candidate_count` candidates, list after list. -/
def candidate_ballot_ids (tally : tally_t) : List Int :=
  (List.range tally.candidate_count.toNat).flatMap
    (fun (j : Nat) => (tally.candidate_votes (j : Int)).map (fun v => v.id))

/-- Ids of all the votes of a tally: those of the candidates, then the invalid list. -/
def ballot_ids (tally : tally_t) : List Int :=
  candidate_ballot_ids tally ++ tally.invalid_votes.map (fun v => v.id)

/-- Sum of the list lengths of the first `candidate_count` candidates. -/
def bucket_total (tally : tally_t) : Nat :=
  ((List.range tally.candidate_count.toNat).map
    (fun (j : Nat) => (tally.candidate_votes (j : Int)).length)).sum

/-- Tally after `n` iterations of the body of the round loop of `tally_election` (drop the
MinVotes candidates, then mark the new ones); the test of the condition between two
iterations does not change the tally. -/
def rounds_state (MAX_CANDIDATES : Int) (fuel : Nat) : Nat → tally_t → Except Fault tally_t
  | 0, tally => .ok tally
  | n + 1, tally =>
    match tally_drop_minvote_candidates MAX_CANDIDATES fuel tally with
    | .error e => .error e
    | .ok tally1 =>
      match tally_set_minvote_candidates MAX_CANDIDATES tally1 with
      | .error e => .error e
      | .ok tally2 => rounds_state MAX_CANDIDATES fuel n tally2

/-- A status `s'` is reachable from `s` along `Active → MinVotes → Dropped`: it is `s` itself,
or `s` is Active and `s'` is MinVotes or Dropped, or `s` is MinVotes and `s'` is Dropped. -/
def status_moved (s s' : cand_status) : Prop :=
  s' = s ∨ (s = .CAND_ACTIVE ∧ (s' = .CAND_MINVOTES ∨ s' = .CAND_DROPPED)) ∨
    (s = .CAND_MINVOTES ∧ s' = .CAND_DROPPED)

/-- The vote-reading loop of `tally_from_file` over the complete ballots of the file, each a
group of `candidate_count` integers: vote ids count up from `vote_id`, the cursor starts at
0, and the cells after the integers read keep the `NO_CANDIDATE` of `vote_make_empty`. -/
def read_votes (MAX_CANDIDATES : Int) : tally_t → Int → List (List Int) → Except Fault tally_t
  | tally, _, [] => .ok tally
  | tally, vote_id, prefs :: more =>
    match tally_add_vote MAX_CANDIDATES tally (mk_vote vote_id prefs) with
    | .error e => .error e
    | .ok tally1 => read_votes MAX_CANDIDATES tally1 (vote_id + 1) more

/-- The function `tally_from_file` on a file already split into its candidate count and its
complete ballots (names are left out): every cell starts Dropped with no votes, the first
`candidate_count` cells are made Active, then the votes are added in file order. -/
def tally_from_file (MAX_CANDIDATES : Int) (candidate_count : Int)
    (ballots : List (List Int)) : Except Fault tally_t :=
  if candidate_count > MAX_CANDIDATES then .error .out_of_bounds
  else
    read_votes MAX_CANDIDATES
      { candidate_count := candidate_count
        candidate_status :=
          fun i => if 0 ≤ i ∧ i < candidate_count then .CAND_ACTIVE else .CAND_DROPPED
        candidate_vote_counts := fun _ => 0
        candidate_votes := fun _ => []
        invalid_vote_count := 0
        invalid_votes := [] }
      1 ballots

/-- The six ballots of Scenario A, in file order. -/
def scenario_a_ballots : List (List Int) :=
  [[0, 3, 2, 1], [1, 0, 2, 3], [2, 1, 0, 3], [2, 1, 0, 3], [1, 0, 2, 3], [0, 2, 1, 3]]

/-- Vote counts of the first four candidates. -/
def counts4 (tally : tally_t) : List Int :=
  [tally.candidate_vote_counts 0, tally.candidate_vote_counts 1,
   tally.candidate_vote_counts 2, tally.candidate_vote_counts 3]

/-- Statuses of the first four candidates. -/
def statuses4 (tally : tally_t) : List cand_status :=
  [tally.candidate_status 0, tally.candidate_status 1,
   tally.candidate_status 2, tally.candidate_status 3]

/-- Id and cursor of every vote of the first four candidates, list by list. -/
def votes4 (tally : tally_t) : List (List (Int × Int)) :=
  [(tally.candidate_votes 0).map (fun v => (v.id, v.pos)),
   (tally.candidate_votes 1).map (fun v => (v.id, v.pos)),
   (tally.candidate_votes 2).map (fun v => (v.id, v.pos)),
   (tally.candidate_votes 3).map (fun v => (v.id, v.pos))]
/-- Scenario A, round 1: the tally when the table is printed, after
`tally_drop_minvote_candidates`. -/
def scenario_a_snapshot1 (MAX_CANDIDATES : Int) (fuel : Nat) : Except Fault tally_t :=
  tally_from_file MAX_CANDIDATES 4 scenario_a_ballots >>=
    tally_drop_minvote_candidates MAX_CANDIDATES fuel

/-- Scenario A, end of round 1: after `tally_set_minvote_candidates`. -/
def scenario_a_marked1 (MAX_CANDIDATES : Int) (fuel : Nat) : Except Fault tally_t :=
  scenario_a_snapshot1 MAX_CANDIDATES fuel >>= tally_set_minvote_candidates MAX_CANDIDATES

/-- Scenario A, round 2: the tally when the table is printed. -/
def scenario_a_snapshot2 (MAX_CANDIDATES : Int) (fuel : Nat) : Except Fault tally_t :=
  scenario_a_marked1 MAX_CANDIDATES fuel >>= tally_drop_minvote_candidates MAX_CANDIDATES fuel

/-- Scenario A: the whole run, `tally_from_file` then `tally_election`. -/
def scenario_a_election (MAX_CANDIDATES : Int) (fuel : Nat) :
    Except Fault (tally_t × tally_cond × Nat) :=
  tally_from_file MAX_CANDIDATES 4 scenario_a_ballots >>= tally_election MAX_CANDIDATES fuel

/-- Two candidates without votes: candidate 0 is Active, the status of candidate 1 is a
character that is none of the three status constants. -/
def bad_status_tally : tally_t :=
  { candidate_count := 2
    candidate_status := arr_of [.CAND_ACTIVE, .other 63] .CAND_DROPPED
    candidate_vote_counts := fun _ => 0
    candidate_votes := fun _ => []
    invalid_vote_count := 0
    invalid_votes := [] }

/-- Status table of a two-candidate election as `tally_from_file` sets it up: cells 0 and 1
Active, every other cell Dropped. -/
def two_candidate_status : Int → cand_status :=
  arr_of [.CAND_ACTIVE, .CAND_ACTIVE] .CAND_DROPPED

/-- Three candidates: candidate 0 is Active with votes 1 (`0 2 1`) and 2 (`0 1 2`),
candidates 1 and 2 are MinVotes with one vote each, vote 3 (`1 2 0`) and vote 4 (`2 1 0`). -/
def two_minvotes_tally : tally_t :=
  { candidate_count := 3
    candidate_status := arr_of [.CAND_ACTIVE, .CAND_MINVOTES, .CAND_MINVOTES] .CAND_DROPPED
    candidate_vote_counts := arr_of [2, 1, 1] 0
    candidate_votes :=
      arr_of [[mk_vote 2 [0, 1, 2], mk_vote 1 [0, 2, 1]],
              [mk_vote 3 [1, 2, 0]],
              [mk_vote 4 [2, 1, 0]]] []
    invalid_vote_count := 0
    invalid_votes := [] }

/-- Three candidates: candidate 1 is Dropped and holds no vote, candidate 0 is Active with
votes 1 and 2 (`0 1 2`), candidate 2 is Active with vote 3 (`2 0 1`). -/
def one_dropped_tally : tally_t :=
  { candidate_count := 3
    candidate_status := arr_of [.CAND_ACTIVE, .CAND_DROPPED, .CAND_ACTIVE] .CAND_DROPPED
    candidate_vote_counts := arr_of [2, 0, 1] 0
    candidate_votes :=
      arr_of [[mk_vote 2 [0, 1, 2], mk_vote 1 [0, 1, 2]], [], [mk_vote 3 [2, 0, 1]]] []
    invalid_vote_count := 0
    invalid_votes := [] }

/-- One Active candidate holding votes 1 and 2 (both `0`). -/
def single_candidate_tally : tally_t :=
  { candidate_count := 1
    candidate_status := arr_of [.CAND_ACTIVE] .CAND_DROPPED
    candidate_vote_counts := arr_of [2] 0
    candidate_votes := arr_of [[mk_vote 2 [0], mk_vote 1 [0]]] []
    invalid_vote_count := 0
    invalid_votes := [] }

/-- Four candidates: 0 and 3 are Dropped without votes, 1 and 2 are Active with two votes
each (votes 1, 3 hold `1 2 0 3`, votes 2, 4 hold `2 1 0 3`). -/
def two_tied_tally : tally_t :=
  { candidate_count := 4
    candidate_status :=
      arr_of [.CAND_DROPPED, .CAND_ACTIVE, .CAND_ACTIVE, .CAND_DROPPED] .CAND_DROPPED
    candidate_vote_counts := arr_of [0, 2, 2, 0] 0
    candidate_votes :=
      arr_of [[], [mk_vote 3 [1, 2, 0, 3], mk_vote 1 [1, 2, 0, 3]],
              [mk_vote 4 [2, 1, 0, 3], mk_vote 2 [2, 1, 0, 3]], []] []
    invalid_vote_count := 0
    invalid_votes := [] }

/-- Three candidates: candidate 0 is already MinVotes and holds vote 1 (`0 1 2`), candidate 1
is Active and holds vote 2 (`1 0 2`), candidate 2 is Active with no vote. -/
def stale_minvotes_zero_tally : tally_t :=
  { candidate_count := 3
    candidate_status := arr_of [.CAND_MINVOTES, .CAND_ACTIVE, .CAND_ACTIVE] .CAND_DROPPED
    candidate_vote_counts := arr_of [1, 1, 0] 0
    candidate_votes := arr_of [[mk_vote 1 [0, 1, 2]], [mk_vote 2 [1, 0, 2]], []] []
    invalid_vote_count := 0
    invalid_votes := [] }

/-- Three Active candidates: candidates 0 and 1 hold one vote each (`0 1 2` and `1 0 2`),
candidate 2 holds none. -/
def zero_votes_tally : tally_t :=
  { candidate_count := 3
    candidate_status := arr_of [.CAND_ACTIVE, .CAND_ACTIVE, .CAND_ACTIVE] .CAND_DROPPED
    candidate_vote_counts := arr_of [1, 1, 0] 0
    candidate_votes := arr_of [[mk_vote 1 [0, 1, 2]], [mk_vote 2 [1, 0, 2]], []] []
    invalid_vote_count := 0
    invalid_votes := [] }

/-- The vote `v` in the list of candidate `j` ranks each of the `N` candidates: its cursor is
on `j`, its first `N` cells hold candidate ids, every candidate occurs among them, and every
candidate before the cursor is no longer Active. -/
def ranked (N : Int) (status : Int → cand_status) (j : Int) (v : vote_t) : Prop :=
  0 ≤ v.pos ∧ v.pos < N ∧ v.candidate_order v.pos = j ∧
  (∀ q, 0 ≤ q → q < N → 0 ≤ v.candidate_order q ∧ v.candidate_order q < N) ∧
  (∀ c, 0 ≤ c → c < N → ∃ q, 0 ≤ q ∧ q < N ∧ v.candidate_order q = c) ∧
  (∀ q, 0 ≤ q → q < v.pos → status (v.candidate_order q) ≠ .CAND_ACTIVE)

/-- Every vote held by a candidate ranks all the candidates (see `ranked`). -/
def well_ranked (tally : tally_t) : Prop :=
  ∀ j, 0 ≤ j → j < tally.candidate_count → ∀ v ∈ tally.candidate_votes j,
    ranked tally.candidate_count tally.candidate_status j v

/-- Every candidate's status is Active, MinVotes or Dropped. -/
def valid_statuses (tally : tally_t) : Prop :=
  ∀ j, 0 ≤ j → j < tally.candidate_count →
    tally.candidate_status j = .CAND_ACTIVE ∨
    tally.candidate_status j = .CAND_MINVOTES ∨
    tally.candidate_status j = .CAND_DROPPED

/-- Two ballots of a two-candidate file: the first preference of the first ballot, 2, is not a
candidate of the election but is below `MAX_CANDIDATES`. -/
def beyond_count_ballots : List (List Int) := [[2, 0], [0, 1]]

/-! ## Theorems -/

theorem arr_set_same {α : Type} (a : Int → α) (i : Int) (x : α) : arr_set a i x i = x := by
  simp [arr_set]

theorem arr_set_other {α : Type} (a : Int → α) (i j : Int) (x : α) (h : j ≠ i) :
    arr_set a i x j = a j := by
  simp [arr_set, h]

/-- The scan of `vote_next_candidate` from a non-negative cursor over preferences that are
candidate ids or the marker: it stops at the first Active preference, at the marker, or at
the end of the array, having skipped only non-Active candidates. -/
theorem vote_next_scan_spec (MAX_CANDIDATES : Int) (status : Int → cand_status)
    (order : Int → Int) (fuel : Nat) (pos : Int)
    (hpos : 0 ≤ pos) (hfuel : (MAX_CANDIDATES - pos).toNat < fuel)
    (hwf : ∀ j, pos ≤ j → j < MAX_CANDIDATES →
      order j = NO_CANDIDATE ∨ (0 ≤ order j ∧ order j < MAX_CANDIDATES)) :
    ∃ c p, vote_next_scan MAX_CANDIDATES status order fuel pos = .ok (c, p) ∧ pos ≤ p ∧
      (∀ j, pos ≤ j → j < p →
        j < MAX_CANDIDATES ∧ order j ≠ NO_CANDIDATE ∧ status (order j) ≠ .CAND_ACTIVE) ∧
      ((c ≠ NO_CANDIDATE ∧ p < MAX_CANDIDATES ∧ order p = c ∧ status c = .CAND_ACTIVE) ∨
       (c = NO_CANDIDATE ∧ (MAX_CANDIDATES ≤ p ∨ order p = NO_CANDIDATE))) := by
  induction fuel generalizing pos with
  | zero => omega
  | succ n ih =>
    unfold vote_next_scan
    by_cases h1 : pos < MAX_CANDIDATES
    · simp only [h1, if_true, if_neg (not_lt.mpr hpos)]
      by_cases h2 : order pos = NO_CANDIDATE ∨ order pos ≥ MAX_CANDIDATES
      · simp only [h2, if_true]
        refine ⟨NO_CANDIDATE, pos, rfl, le_refl _, ?_, ?_⟩
        · intro j h3 h4; omega
        · right
          refine ⟨rfl, Or.inr ?_⟩
          rcases hwf pos (le_refl _) h1 with h | h
          · exact h
          · rcases h2 with h2 | h2
            · exact h2
            · omega
      · simp only [h2, if_false]
        have hv : 0 ≤ order pos ∧ order pos < MAX_CANDIDATES := by
          rcases hwf pos (le_refl _) h1 with h | h
          · exact absurd (Or.inl h) h2
          · exact h
        simp only [if_neg (not_lt.mpr hv.1)]
        by_cases h3 : status (order pos) = .CAND_ACTIVE
        · simp only [h3, if_true]
          refine ⟨order pos, pos, rfl, le_refl _, ?_, ?_⟩
          · intro j h4 h5; omega
          · left
            exact ⟨fun h => h2 (Or.inl h), h1, rfl, h3⟩
        · simp only [h3, if_false]
          obtain ⟨c, p, hr, hle, hskip, hend⟩ :=
            ih (pos + 1) (by omega) (by omega)
              (fun j hj1 hj2 => hwf j (by omega) hj2)
          refine ⟨c, p, hr, by omega, ?_, hend⟩
          intro j hj1 hj2
          by_cases hj : j = pos
          · subst hj
            exact ⟨h1, fun h => h2 (Or.inl h), h3⟩
          · exact hskip j (by omega) hj2
    · simp only [h1, if_false]
      refine ⟨NO_CANDIDATE, pos, rfl, le_refl _, ?_, ?_⟩
      · intro j h3 h4; omega
      · right; exact ⟨rfl, Or.inl (by omega)⟩

/-- C1: from a non-negative cursor, over preferences that are candidate ids or the
`NO_CANDIDATE` marker, `vote_next_candidate` returns the first preference at or after the
cursor whose candidate is Active, having skipped only preferences of non-Active (Dropped,
MinVotes) candidates, and leaves the cursor on the returned preference; when the marker or
the end of the array comes first it returns `NO_CANDIDATE`. -/
theorem vote_next_candidate_first_active (MAX_CANDIDATES : Int) (vote : vote_t)
    (status : Int → cand_status) (hpos : 0 ≤ vote.pos)
    (hwf : ∀ j, vote.pos ≤ j → j < MAX_CANDIDATES →
      vote.candidate_order j = NO_CANDIDATE ∨
        (0 ≤ vote.candidate_order j ∧ vote.candidate_order j < MAX_CANDIDATES)) :
    ∃ c p, vote_next_candidate MAX_CANDIDATES vote status = .ok (c, { vote with pos := p }) ∧
      vote.pos ≤ p ∧
      (∀ j, vote.pos ≤ j → j < p →
        j < MAX_CANDIDATES ∧ vote.candidate_order j ≠ NO_CANDIDATE ∧
          status (vote.candidate_order j) ≠ .CAND_ACTIVE) ∧
      ((c ≠ NO_CANDIDATE ∧ p < MAX_CANDIDATES ∧ vote.candidate_order p = c ∧
          status c = .CAND_ACTIVE) ∨
       (c = NO_CANDIDATE ∧ (MAX_CANDIDATES ≤ p ∨ vote.candidate_order p = NO_CANDIDATE))) := by
  obtain ⟨c, p, hr, hrest⟩ :=
    vote_next_scan_spec MAX_CANDIDATES status vote.candidate_order
      ((MAX_CANDIDATES - vote.pos).toNat + 1) vote.pos hpos (Nat.lt_succ_self _) hwf
  exact ⟨c, p, by simp [vote_next_candidate, hr], hrest⟩

/-- Witness for C1 on the example of the source comment (with eight array cells): the
hypotheses hold there and the call returns some candidate with the cursor moved forward. -/
theorem vote_next_candidate_first_active_witness :
    0 ≤ doc_vote.pos ∧
    ∃ c p, vote_next_candidate 8 doc_vote doc_status = .ok (c, { doc_vote with pos := p }) ∧
      doc_vote.pos ≤ p := by
  refine ⟨by decide, ?_⟩
  obtain ⟨c, p, h1, h2, _⟩ :=
    vote_next_candidate_first_active 8 doc_vote doc_status (by decide)
      (by
        intro j h1 h2
        have h3 : (1 : Int) ≤ j := h1
        interval_cases j <;> decide)
  exact ⟨c, p, h1, h2⟩

/-- The first loop of `tally_set_minvote_candidates` extends `min_votes_upto` from `i` to
`i + n` when the non-Dropped candidates have non-negative counts. -/
theorem minvote_scan_spec (MAX_CANDIDATES : Int) (tally : tally_t) (n : Nat) (i m : Int)
    (hi : 0 ≤ i) (hmax : i + n ≤ MAX_CANDIDATES)
    (hnn : ∀ j, 0 ≤ j → j < i + n → tally.candidate_status j ≠ .CAND_DROPPED →
      0 ≤ tally.candidate_vote_counts j)
    (hinv : min_votes_upto tally i m) :
    ∃ m', minvote_scan MAX_CANDIDATES tally n i m = .ok m' ∧
      min_votes_upto tally (i + n) m' := by
  induction n generalizing i m with
  | zero => exact ⟨m, rfl, by simpa using hinv⟩
  | succ n ih =>
    have hb : in_bounds MAX_CANDIDATES i := ⟨hi, by push_cast at hmax; omega⟩
    have hstep : ∀ m1, min_votes_upto tally (i + 1) m1 →
        ∃ m', minvote_scan MAX_CANDIDATES tally n (i + 1) m1 = .ok m' ∧
          min_votes_upto tally (i + (n + 1 : Nat)) m' := by
      intro m1 h1
      obtain ⟨m', hr, hm⟩ := ih (i + 1) m1 (by omega) (by push_cast at hmax ⊢; omega)
        (fun j hj1 hj2 hj3 => hnn j hj1 (by push_cast at hj2 ⊢; omega) hj3) h1
      refine ⟨m', hr, ?_⟩
      have e : i + ((n + 1 : Nat) : Int) = i + 1 + (n : Int) := by push_cast; ring
      rw [e]; exact hm
    unfold minvote_scan
    simp only [hb, not_true_eq_false, if_false]
    by_cases hd : tally.candidate_status i = .CAND_DROPPED
    · simp only [hd, ne_eq, not_true_eq_false, if_false]
      apply hstep
      rcases hinv with ⟨hm, hall⟩ | ⟨⟨j0, h1, h2, h3, h4⟩, hall⟩
      · left
        refine ⟨hm, fun j hj1 hj2 => ?_⟩
        by_cases hji : j = i
        · rw [hji]; exact hd
        · exact hall j hj1 (by omega)
      · right
        refine ⟨⟨j0, h1, by omega, h3, h4⟩, fun j hj1 hj2 hj3 => ?_⟩
        by_cases hji : j = i
        · rw [hji] at hj3; exact absurd hd hj3
        · exact hall j hj1 (by omega) hj3
    · have hci : 0 ≤ tally.candidate_vote_counts i :=
        hnn i hi (by push_cast; omega) hd
      simp only [ne_eq, hd, not_false_eq_true, if_true]
      by_cases hlt : m = -1 ∨ tally.candidate_vote_counts i < m
      · simp only [hlt, if_true]
        apply hstep
        right
        refine ⟨⟨i, hi, by omega, hd, rfl⟩, fun j hj1 hj2 hj3 => ?_⟩
        by_cases hji : j = i
        · rw [hji]
        · rcases hinv with ⟨_, hall⟩ | ⟨⟨j0, h1, h2, h3, h4⟩, hall⟩
          · exact absurd (hall j hj1 (by omega)) hj3
          · have hm0 : 0 ≤ m := by
              rw [← h4]; exact hnn j0 h1 (by push_cast; omega) h3
            have := hall j hj1 (by omega) hj3
            rcases hlt with hlt | hlt
            · omega
            · omega
      · simp only [hlt, if_false]
        apply hstep
        rcases hinv with ⟨hm, _⟩ | ⟨⟨j0, h1, h2, h3, h4⟩, hall⟩
        · exact absurd (Or.inl hm) hlt
        · right
          refine ⟨⟨j0, h1, by omega, h3, h4⟩, fun j hj1 hj2 hj3 => ?_⟩
          by_cases hji : j = i
          · rw [hji]
            have : ¬ tally.candidate_vote_counts i < m := fun h => hlt (Or.inr h)
            omega
          · exact hall j hj1 (by omega) hj3

/-- The second loop of `tally_set_minvote_candidates` changes statuses only: it turns into
MinVotes exactly the Active candidates of `i .. i + n - 1` whose count is `m`. -/
theorem minvote_mark_spec (MAX_CANDIDATES : Int) (m : Int) (n : Nat) (i : Int) (tally : tally_t)
    (hi : 0 ≤ i) (hmax : i + n ≤ MAX_CANDIDATES) :
    ∃ t', minvote_mark MAX_CANDIDATES m n i tally = .ok t' ∧
      t'.candidate_count = tally.candidate_count ∧
      t'.candidate_vote_counts = tally.candidate_vote_counts ∧
      t'.candidate_votes = tally.candidate_votes ∧
      t'.invalid_vote_count = tally.invalid_vote_count ∧
      t'.invalid_votes = tally.invalid_votes ∧
      ∀ j, t'.candidate_status j =
        if i ≤ j ∧ j < i + n ∧ tally.candidate_status j = .CAND_ACTIVE ∧
            tally.candidate_vote_counts j = m
        then .CAND_MINVOTES else tally.candidate_status j := by
  induction n generalizing i tally with
  | zero =>
    refine ⟨tally, rfl, rfl, rfl, rfl, rfl, rfl, fun j => ?_⟩
    have : ¬ (i ≤ j ∧ j < i + ((0 : Nat) : Int) ∧ tally.candidate_status j = .CAND_ACTIVE ∧
        tally.candidate_vote_counts j = m) := by
      intro h; have := h.1; have := h.2.1; omega
    rw [if_neg this]
  | succ n ih =>
    have hb : in_bounds MAX_CANDIDATES i := ⟨hi, by push_cast at hmax; omega⟩
    have hrange : ∀ j, j ≠ i →
        ((i + 1 ≤ j ∧ j < i + 1 + (n : Int) ∧ tally.candidate_status j = .CAND_ACTIVE ∧
          tally.candidate_vote_counts j = m) ↔
        (i ≤ j ∧ j < i + ((n + 1 : Nat) : Int) ∧ tally.candidate_status j = .CAND_ACTIVE ∧
          tally.candidate_vote_counts j = m)) := by
      intro j hji
      constructor
      · rintro ⟨a, b, c⟩; exact ⟨by omega, by push_cast; omega, c⟩
      · rintro ⟨a, b, c⟩; exact ⟨by omega, by push_cast at b; omega, c⟩
    have hlast : i < i + ((n + 1 : Nat) : Int) := by push_cast; omega
    unfold minvote_mark
    simp only [hb, not_true_eq_false, if_false]
    by_cases hc : tally.candidate_status i = .CAND_ACTIVE ∧ tally.candidate_vote_counts i = m
    · rw [if_pos hc]
      obtain ⟨t', hr, h1, h2, h3, h4, h5, h6⟩ :=
        ih (i + 1) { tally with candidate_status := arr_set tally.candidate_status i .CAND_MINVOTES }
          (by omega) (by push_cast at hmax ⊢; omega)
      dsimp only at h1 h2 h3 h4 h5 h6
      refine ⟨t', hr, h1, h2, h3, h4, h5, fun j => ?_⟩
      rw [h6 j]
      by_cases hji : j = i
      · subst hji
        have h7 : ¬ (j + 1 ≤ j) := by omega
        simp [arr_set_same, h7, hlast, hc.1, hc.2]
      · rw [arr_set_other _ _ _ _ hji]
        simp only [hrange j hji]
    · rw [if_neg hc]
      obtain ⟨t', hr, h1, h2, h3, h4, h5, h6⟩ :=
        ih (i + 1) tally (by omega) (by push_cast at hmax ⊢; omega)
      refine ⟨t', hr, h1, h2, h3, h4, h5, fun j => ?_⟩
      rw [h6 j]
      by_cases hji : j = i
      · subst hji
        have h7 : ¬ (j + 1 ≤ j) := by omega
        have h8 : ¬ (tally.candidate_status j = .CAND_ACTIVE ∧
            tally.candidate_vote_counts j = m) := hc
        have h9 : ¬ (j ≤ j ∧ j < j + ((n + 1 : Nat) : Int) ∧
            tally.candidate_status j = .CAND_ACTIVE ∧ tally.candidate_vote_counts j = m) :=
          fun h => hc h.2.2
        rw [if_neg h9, if_neg (fun h => h7 h.1)]
      · simp only [hrange j hji]

/-- What `tally_set_minvote_candidates` does on a tally with at most `MAX_CANDIDATES`
candidates whose non-Dropped candidates have non-negative counts: it returns, changes only
statuses, and turns into MinVotes exactly the Active candidates whose count is the least
count of the non-Dropped candidates. -/
theorem tally_set_minvote_candidates_post (MAX_CANDIDATES : Int) (tally : tally_t)
    (hcount : tally.candidate_count ≤ MAX_CANDIDATES)
    (hnn : ∀ j, 0 ≤ j → j < tally.candidate_count →
      tally.candidate_status j ≠ .CAND_DROPPED → 0 ≤ tally.candidate_vote_counts j) :
    ∃ t', tally_set_minvote_candidates MAX_CANDIDATES tally = .ok t' ∧
      t'.candidate_count = tally.candidate_count ∧
      t'.candidate_vote_counts = tally.candidate_vote_counts ∧
      t'.candidate_votes = tally.candidate_votes ∧
      t'.invalid_vote_count = tally.invalid_vote_count ∧
      t'.invalid_votes = tally.invalid_votes ∧
      (∀ i, 0 ≤ i → i < tally.candidate_count → tally.candidate_status i = .CAND_ACTIVE →
        (t'.candidate_status i = .CAND_MINVOTES ↔
          ∀ j, 0 ≤ j → j < tally.candidate_count →
            tally.candidate_status j ≠ .CAND_DROPPED →
            tally.candidate_vote_counts i ≤ tally.candidate_vote_counts j)) ∧
      (∀ i, tally.candidate_status i ≠ .CAND_ACTIVE ∨ i < 0 ∨ tally.candidate_count ≤ i →
        t'.candidate_status i = tally.candidate_status i) ∧
      (∀ i, t'.candidate_status i = .CAND_MINVOTES ∨
        t'.candidate_status i = tally.candidate_status i) ∧
      ((∀ j, 0 ≤ j → j < tally.candidate_count →
        tally.candidate_status j = .CAND_DROPPED) → t' = tally) := by
  have hsame : ∃ t', (Except.ok tally : Except Fault tally_t) = .ok t' ∧
      t'.candidate_count = tally.candidate_count ∧
      t'.candidate_vote_counts = tally.candidate_vote_counts ∧
      t'.candidate_votes = tally.candidate_votes ∧
      t'.invalid_vote_count = tally.invalid_vote_count ∧
      t'.invalid_votes = tally.invalid_votes ∧
      (∀ i, tally.candidate_status i ≠ .CAND_ACTIVE ∨ i < 0 ∨ tally.candidate_count ≤ i →
        t'.candidate_status i = tally.candidate_status i) ∧
      (∀ i, t'.candidate_status i = .CAND_MINVOTES ∨
        t'.candidate_status i = tally.candidate_status i) ∧
      ((∀ j, 0 ≤ j → j < tally.candidate_count →
        tally.candidate_status j = .CAND_DROPPED) → t' = tally) ∧ t' = tally :=
    ⟨tally, rfl, rfl, rfl, rfl, rfl, rfl, fun _ _ => rfl, fun _ => Or.inr rfl, fun _ => rfl, rfl⟩
  by_cases hle : tally.candidate_count ≤ 0
  · have hres : tally_set_minvote_candidates MAX_CANDIDATES tally = .ok tally := by
      have ht : tally.candidate_count.toNat = 0 := by omega
      unfold tally_set_minvote_candidates
      by_cases h0 : tally.candidate_count = 0
      · rw [if_pos h0]
      · rw [if_neg h0, ht]
        rfl
    rw [hres]
    obtain ⟨t', e, h1, h2, h3, h4, h5, h6, h7, h8, h9⟩ := hsame
    refine ⟨t', e, h1, h2, h3, h4, h5, ?_, h6, h7, h8⟩
    intro i hi1 hi2; omega
  · have h0 : ¬ tally.candidate_count = 0 := by omega
    unfold tally_set_minvote_candidates
    rw [if_neg h0]
    obtain ⟨m, hscan, hm⟩ := minvote_scan_spec MAX_CANDIDATES tally
      tally.candidate_count.toNat 0 (-1) (le_refl _) (by omega)
      (fun j hj1 hj2 hj3 => hnn j hj1 (by omega) hj3)
      (Or.inl ⟨rfl, fun j hj1 hj2 => by omega⟩)
    rw [hscan]
    dsimp only
    rcases hm with ⟨hm1, hall⟩ | ⟨⟨j0, hj1, hj2, hj3, hj4⟩, hall⟩
    · rw [if_pos hm1]
      obtain ⟨t', e, h1, h2, h3, h4, h5, h6, h7, h8, h9⟩ := hsame
      refine ⟨t', e, h1, h2, h3, h4, h5, ?_, h6, h7, h8⟩
      intro i hi1 hi2 hi3
      have := hall i hi1 (by omega)
      rw [hi3] at this
      exact absurd this (by decide)
    · have hm0 : 0 ≤ m := by
        rw [← hj4]; exact hnn j0 hj1 (by omega) hj3
      have hm1 : ¬ m = -1 := by omega
      rw [if_neg hm1]
      obtain ⟨t', hr, h1, h2, h3, h4, h5, h6⟩ := minvote_mark_spec MAX_CANDIDATES m
        tally.candidate_count.toNat 0 tally (le_refl _) (by omega)
      refine ⟨t', hr, h1, h2, h3, h4, h5, ?_, ?_, ?_, ?_⟩
      · intro i hi1 hi2 hi3
        rw [h6 i]
        have hin : (0 : Int) ≤ i ∧ i < 0 + (tally.candidate_count.toNat : Int) :=
          ⟨hi1, by omega⟩
        constructor
        · intro hM j hj1' hj2' hj3'
          by_cases hc : tally.candidate_vote_counts i = m
          · rw [hc]; exact hall j hj1' (by omega) hj3'
          · rw [if_neg (fun h => hc h.2.2.2), hi3] at hM
            exact absurd hM (by decide)
        · intro hmin
          have h1' := hmin j0 hj1 (by omega) hj3
          have h2' := hall i hi1 (by omega) (by rw [hi3]; decide)
          have hc : tally.candidate_vote_counts i = m := by omega
          rw [if_pos ⟨hin.1, hin.2, hi3, hc⟩]
      · intro i hi
        rw [h6 i]
        apply if_neg
        rintro ⟨a, b, c, _⟩
        rcases hi with hi | hi | hi
        · exact hi c
        · omega
        · omega
      · intro i
        rw [h6 i]
        split_ifs
        · exact Or.inl rfl
        · exact Or.inr rfl
      · intro hd
        exact absurd (hd j0 hj1 (by omega)) hj3


/-- C2 (amended): for a tally with at most `MAX_CANDIDATES` candidates whose non-Dropped
candidates have non-negative counts, `tally_set_minvote_candidates` returns; vote counts,
vote lists and the invalid list are unchanged; a candidate that was Active is MinVotes
afterwards exactly when its count is the least count of the non-Dropped candidates; a
candidate that was not Active keeps its status (one already MinVotes stays MinVotes
whatever its count); and when every candidate is Dropped the tally is unchanged. -/
theorem tally_set_minvote_candidates_spec (MAX_CANDIDATES : Int) (tally : tally_t)
    (hcount : tally.candidate_count ≤ MAX_CANDIDATES)
    (hnn : ∀ j, 0 ≤ j → j < tally.candidate_count →
      tally.candidate_status j ≠ .CAND_DROPPED → 0 ≤ tally.candidate_vote_counts j) :
    ∃ t', tally_set_minvote_candidates MAX_CANDIDATES tally = .ok t' ∧
      t'.candidate_count = tally.candidate_count ∧
      t'.candidate_vote_counts = tally.candidate_vote_counts ∧
      t'.candidate_votes = tally.candidate_votes ∧
      t'.invalid_vote_count = tally.invalid_vote_count ∧
      t'.invalid_votes = tally.invalid_votes ∧
      (∀ i, 0 ≤ i → i < tally.candidate_count → tally.candidate_status i = .CAND_ACTIVE →
        (t'.candidate_status i = .CAND_MINVOTES ↔
          ∀ j, 0 ≤ j → j < tally.candidate_count →
            tally.candidate_status j ≠ .CAND_DROPPED →
            tally.candidate_vote_counts i ≤ tally.candidate_vote_counts j)) ∧
      (∀ i, tally.candidate_status i ≠ .CAND_ACTIVE ∨ i < 0 ∨ tally.candidate_count ≤ i →
        t'.candidate_status i = tally.candidate_status i) ∧
      (∀ i, t'.candidate_status i = .CAND_MINVOTES ∨
        t'.candidate_status i = tally.candidate_status i) ∧
      ((∀ j, 0 ≤ j → j < tally.candidate_count →
        tally.candidate_status j = .CAND_DROPPED) → t' = tally) :=
  tally_set_minvote_candidates_post MAX_CANDIDATES tally hcount hnn

/-- Witness for C2 on the example of the source comment (statuses D A A A, counts 0 4 2 2,
eight array cells): the hypotheses hold and the call returns with the counts unchanged. -/
theorem tally_set_minvote_candidates_spec_witness :
    doc_minvote_tally.candidate_count ≤ 8 ∧
    ∃ t', tally_set_minvote_candidates 8 doc_minvote_tally = .ok t' ∧
      t'.candidate_vote_counts = doc_minvote_tally.candidate_vote_counts := by
  refine ⟨by decide, ?_⟩
  obtain ⟨t', h, _, h2, _⟩ := tally_set_minvote_candidates_spec 8 doc_minvote_tally (by decide)
    (by
      intro j h1 h2 _
      have h3 : j < 4 := h2
      interval_cases j <;> decide)
  exact ⟨t', h, h2⟩

/-- C2 (counterexample): with candidate 0 already MinVotes holding 2 votes and candidate 1
Active holding 1 vote, candidate 0 is still MinVotes after `tally_set_minvote_candidates`
although its count is not the minimum over the non-Dropped candidates. -/
theorem tally_set_minvote_candidates_keeps_stale_minvotes :
    ∃ t', tally_set_minvote_candidates 8 stale_minvotes_tally = .ok t' ∧
      t'.candidate_status 0 = .CAND_MINVOTES ∧
      stale_minvotes_tally.candidate_status 0 ≠ .CAND_DROPPED ∧
      ¬ (∀ j, 0 ≤ j → j < stale_minvotes_tally.candidate_count →
        stale_minvotes_tally.candidate_status j ≠ .CAND_DROPPED →
        stale_minvotes_tally.candidate_vote_counts 0 ≤
          stale_minvotes_tally.candidate_vote_counts j) := by
  refine ⟨_, rfl, by decide, by decide, fun h => ?_⟩
  exact absurd (h 1 (by decide) (by decide) (by decide)) (by decide)

/-- The counting loop of `tally_condition` over statuses that are all Active, MinVotes or
Dropped adds the numbers of Active and MinVotes candidates to its two counters. -/
theorem tally_condition_count_spec (MAX_CANDIDATES : Int) (tally : tally_t) (n k : Nat)
    (a m : Int) (hmax : n = 0 ∨ (k : Int) + n ≤ MAX_CANDIDATES)
    (hst : ∀ j : Nat, k ≤ j → j < k + n →
      tally.candidate_status (j : Int) = .CAND_ACTIVE ∨
      tally.candidate_status (j : Int) = .CAND_MINVOTES ∨
      tally.candidate_status (j : Int) = .CAND_DROPPED) :
    tally_condition_count MAX_CANDIDATES tally n (k : Int) a m =
      .ok (some
        (a + ((List.range' k n).countP
            (fun (j : Nat) => decide (tally.candidate_status (j : Int) = .CAND_ACTIVE)) : Nat),
         m + ((List.range' k n).countP
            (fun (j : Nat) => decide (tally.candidate_status (j : Int) = .CAND_MINVOTES)) : Nat))) := by
  induction n generalizing k a m with
  | zero => simp [tally_condition_count]
  | succ n ih =>
    have hmax' : (k : Int) + ((n + 1 : Nat) : Int) ≤ MAX_CANDIDATES := by
      rcases hmax with h | h
      · omega
      · exact h
    have hb : in_bounds MAX_CANDIDATES (k : Int) := ⟨by omega, by push_cast at hmax'; omega⟩
    have hih := fun a m => ih (k + 1) a m (Or.inr (by push_cast at hmax' ⊢; omega))
      (fun j hj1 hj2 => hst j (by omega) (by omega))
    have hcast : ((k : Int) + 1) = ((k + 1 : Nat) : Int) := by push_cast; rfl
    unfold tally_condition_count
    simp only [hb, not_true_eq_false, if_false]
    rw [hcast, List.range'_succ, List.countP_cons, List.countP_cons]
    rcases hst k (le_refl _) (by omega) with h | h | h
    · simp only [h]
      rw [hih]
      simp only [decide_True, if_true, reduceCtorEq, decide_False, if_false]
      congr 3
      · push_cast; ring
    · simp only [h]
      rw [hih]
      simp only [decide_True, if_true, reduceCtorEq, decide_False, if_false]
      congr 3
      · push_cast; ring
    · simp only [h]
      rw [hih]
      simp only [decide_True, if_true, reduceCtorEq, decide_False, if_false]
      congr 3

/-- The value of `tally_condition` on a tally with at most `MAX_CANDIDATES` candidates whose
statuses are all Active, MinVotes or Dropped, as a function of the numbers of Active and of
MinVotes candidates. -/
theorem tally_condition_eq (MAX_CANDIDATES : Int) (tally : tally_t)
    (hcount : tally.candidate_count ≤ MAX_CANDIDATES)
    (hst : ∀ i, 0 ≤ i → i < tally.candidate_count →
      tally.candidate_status i = .CAND_ACTIVE ∨
      tally.candidate_status i = .CAND_MINVOTES ∨
      tally.candidate_status i = .CAND_DROPPED) :
    tally_condition MAX_CANDIDATES tally =
      .ok (if num_with_status tally .CAND_ACTIVE = 1 then .TALLY_WINNER
        else if 2 ≤ num_with_status tally .CAND_ACTIVE then .TALLY_CONTINUE
        else if 2 ≤ num_with_status tally .CAND_MINVOTES then .TALLY_TIE
        else .TALLY_ERROR) := by
  have h := tally_condition_count_spec MAX_CANDIDATES tally tally.candidate_count.toNat 0 0 0
    (by omega) (fun j _ hj2 => hst j (by omega) (by omega))
  simp only [Nat.cast_zero, zero_add, ← List.range_eq_range'] at h
  unfold tally_condition
  rw [h]
  dsimp only
  unfold num_with_status
  generalize (List.range tally.candidate_count.toNat).countP
    (fun (j : Nat) => decide (tally.candidate_status (j : Int) = .CAND_ACTIVE)) = a
  generalize (List.range tally.candidate_count.toNat).countP
    (fun (j : Nat) => decide (tally.candidate_status (j : Int) = .CAND_MINVOTES)) = m
  by_cases h1 : a = 1
  · simp [h1]
  · by_cases h2 : 2 ≤ a
    · have h3 : (a : Int) > 1 := by omega
      have h4 : ¬ (a : Int) = 1 := by omega
      simp [h1, h2, h3, h4]
    · have h0 : a = 0 := by omega
      subst h0
      by_cases h5 : 2 ≤ m
      · have h6 : (m : Int) > 1 := by omega
        simp [h5, h6]
      · have h6 : ¬ (m : Int) > 1 := by omega
        simp [h5, h6]


/-- C3: for a tally with at most `MAX_CANDIDATES` candidates whose statuses are all Active,
MinVotes or Dropped, `tally_condition` is Winner with exactly one Active candidate, Continue
with two or more, Tie with none Active and two or more MinVotes, and Error otherwise; the
result is a function of the two numbers alone. -/
theorem tally_condition_spec (MAX_CANDIDATES : Int) (tally : tally_t)
    (hcount : tally.candidate_count ≤ MAX_CANDIDATES)
    (hst : ∀ i, 0 ≤ i → i < tally.candidate_count →
      tally.candidate_status i = .CAND_ACTIVE ∨
      tally.candidate_status i = .CAND_MINVOTES ∨
      tally.candidate_status i = .CAND_DROPPED) :
    tally_condition MAX_CANDIDATES tally =
      .ok (if num_with_status tally .CAND_ACTIVE = 1 then .TALLY_WINNER
        else if 2 ≤ num_with_status tally .CAND_ACTIVE then .TALLY_CONTINUE
        else if 2 ≤ num_with_status tally .CAND_MINVOTES then .TALLY_TIE
        else .TALLY_ERROR) :=
  tally_condition_eq MAX_CANDIDATES tally hcount hst

/-- Witness for C3 on the tally with statuses D A A A: three Active candidates give
Continue. -/
theorem tally_condition_spec_witness :
    doc_minvote_tally.candidate_count ≤ 8 ∧
    tally_condition 8 doc_minvote_tally = .ok .TALLY_CONTINUE := by
  refine ⟨by decide, ?_⟩
  have h := tally_condition_spec 8 doc_minvote_tally (by decide)
    (by
      intro i h1 h2
      have h3 : i < 4 := h2
      interval_cases i <;> decide)
  rw [h]
  rfl

/-- The scan of `vote_next_candidate` stops at position `k` when `k` holds an Active candidate
and every position from the cursor up to `k` holds a non-Active candidate. -/
theorem vote_next_scan_finds (MAX_CANDIDATES : Int) (status : Int → cand_status)
    (order : Int → Int) (fuel : Nat) (pos k Y : Int)
    (hpos : 0 ≤ pos) (hk1 : pos ≤ k) (hk2 : k < MAX_CANDIDATES)
    (hfuel : (MAX_CANDIDATES - pos).toNat < fuel)
    (hY : order k = Y) (hY0 : 0 ≤ Y) (hYm : Y < MAX_CANDIDATES)
    (hYa : status Y = .CAND_ACTIVE)
    (hskip : ∀ j, pos ≤ j → j < k →
      0 ≤ order j ∧ order j < MAX_CANDIDATES ∧ status (order j) ≠ .CAND_ACTIVE) :
    vote_next_scan MAX_CANDIDATES status order fuel pos = .ok (Y, k) := by
  induction fuel generalizing pos with
  | zero => omega
  | succ n ih =>
    unfold vote_next_scan
    have h1 : pos < MAX_CANDIDATES := by omega
    rw [if_pos h1, if_neg (not_lt.mpr hpos)]
    dsimp only
    by_cases hpk : pos = k
    · subst hpk
      have h2 : ¬ (order pos = NO_CANDIDATE ∨ order pos ≥ MAX_CANDIDATES) := by
        rw [hY]; unfold NO_CANDIDATE; omega
      rw [if_neg h2, if_neg (by rw [hY]; omega), hY, if_pos hYa]
    · obtain ⟨a, b, c⟩ := hskip pos (le_refl _) (by omega)
      have h2 : ¬ (order pos = NO_CANDIDATE ∨ order pos ≥ MAX_CANDIDATES) := by
        unfold NO_CANDIDATE; omega
      rw [if_neg h2, if_neg (by omega), if_neg c]
      exact ih (pos + 1) (by omega) (by omega) (by omega)
        (fun j hj1 hj2 => hskip j (by omega) hj2)

/-- Result of `tally_transfer_first_vote` when the first vote of candidate `X` has, after its
cursor, a first Active preference `Y` at position `k`: the vote goes, with cursor `k`, from
the front of the list of `X` to the front of the list of `Y`. -/
theorem tally_transfer_first_vote_moved (MAX_CANDIDATES : Int) (tally : tally_t)
    (X Y k : Int) (v : vote_t) (rest : List vote_t)
    (hX0 : 0 ≤ X) (hXc : X < tally.candidate_count) (hXm : X < MAX_CANDIDATES)
    (hbucket : tally.candidate_votes X = v :: rest)
    (hpos : 0 ≤ v.pos) (hk1 : v.pos < k) (hk2 : k < MAX_CANDIDATES)
    (hY : v.candidate_order k = Y) (hY0 : 0 ≤ Y) (hYm : Y < MAX_CANDIDATES)
    (hYa : tally.candidate_status Y = .CAND_ACTIVE)
    (hskip : ∀ j, v.pos < j → j < k →
      0 ≤ v.candidate_order j ∧ v.candidate_order j < MAX_CANDIDATES ∧
        tally.candidate_status (v.candidate_order j) ≠ .CAND_ACTIVE) :
    ∃ t', tally_transfer_first_vote MAX_CANDIDATES tally X = .ok t' ∧
      t'.candidate_votes Y =
        { v with pos := k } :: (if Y = X then rest else tally.candidate_votes Y) ∧
      t'.candidate_vote_counts Y =
        (if Y = X then tally.candidate_vote_counts X - 1
          else tally.candidate_vote_counts Y) + 1 ∧
      (Y ≠ X → t'.candidate_votes X = rest ∧
        t'.candidate_vote_counts X = tally.candidate_vote_counts X - 1) ∧
      (∀ j, j ≠ X → j ≠ Y → t'.candidate_votes j = tally.candidate_votes j ∧
        t'.candidate_vote_counts j = tally.candidate_vote_counts j) ∧
      t'.candidate_status = tally.candidate_status ∧
      t'.candidate_count = tally.candidate_count ∧
      t'.invalid_vote_count = tally.invalid_vote_count ∧
      t'.invalid_votes = tally.invalid_votes := by
  have hscan : vote_next_candidate MAX_CANDIDATES { v with pos := v.pos + 1 }
      tally.candidate_status = .ok (Y, { v with pos := k }) := by
    unfold vote_next_candidate
    dsimp only
    rw [vote_next_scan_finds MAX_CANDIDATES tally.candidate_status v.candidate_order _
      (v.pos + 1) k Y (by omega) (by omega) hk2 (Nat.lt_succ_self _) hY hY0 hYm hYa
      (fun j hj1 hj2 => hskip j (by omega) hj2)]
  have hYn : ¬ Y = NO_CANDIDATE := by unfold NO_CANDIDATE; omega
  have hYb : in_bounds MAX_CANDIDATES Y := ⟨hY0, hYm⟩
  have hXb : in_bounds MAX_CANDIDATES X := ⟨hX0, hXm⟩
  unfold tally_transfer_first_vote
  rw [if_neg (by omega), if_neg (not_not.mpr hXb), hbucket]
  dsimp only
  rw [hscan]
  dsimp only
  rw [if_neg hYn, if_neg (not_not.mpr hYb)]
  refine ⟨_, rfl, ?_, ?_, ?_, ?_, rfl, rfl, rfl, rfl⟩
  · dsimp only
    rw [arr_set_same]
    by_cases hYX : Y = X
    · rw [if_pos hYX, hYX, arr_set_same]
    · rw [if_neg hYX, arr_set_other _ _ _ _ hYX]
  · dsimp only
    rw [arr_set_same]
    by_cases hYX : Y = X
    · rw [if_pos hYX, hYX, arr_set_same]
    · rw [if_neg hYX, arr_set_other _ _ _ _ hYX]
  · intro hYX
    dsimp only
    rw [arr_set_other _ _ _ _ (Ne.symm hYX), arr_set_same,
      arr_set_other _ _ _ _ (Ne.symm hYX), arr_set_same]
    exact ⟨rfl, rfl⟩
  · intro j hjX hjY
    dsimp only
    rw [arr_set_other _ _ _ _ hjY, arr_set_other _ _ _ _ hjX,
      arr_set_other _ _ _ _ hjY, arr_set_other _ _ _ _ hjX]
    exact ⟨rfl, rfl⟩


/-- C4: when the first vote of candidate `X` has, after its cursor, a first Active preference
`Y` at position `k`, `tally_transfer_first_vote` takes the vote off the front of the list of
`X`, takes one from the count of `X`, puts the vote with cursor `k` at the front of the list
of `Y`, adds one to the count of `Y`, and changes nothing else. -/
theorem tally_transfer_first_vote_moves (MAX_CANDIDATES : Int) (tally : tally_t)
    (X Y k : Int) (v : vote_t) (rest : List vote_t)
    (hX0 : 0 ≤ X) (hXc : X < tally.candidate_count) (hXm : X < MAX_CANDIDATES)
    (hbucket : tally.candidate_votes X = v :: rest)
    (hpos : 0 ≤ v.pos) (hk1 : v.pos < k) (hk2 : k < MAX_CANDIDATES)
    (hY : v.candidate_order k = Y) (hY0 : 0 ≤ Y) (hYm : Y < MAX_CANDIDATES)
    (hYa : tally.candidate_status Y = .CAND_ACTIVE)
    (hskip : ∀ j, v.pos < j → j < k →
      0 ≤ v.candidate_order j ∧ v.candidate_order j < MAX_CANDIDATES ∧
        tally.candidate_status (v.candidate_order j) ≠ .CAND_ACTIVE) :
    ∃ t', tally_transfer_first_vote MAX_CANDIDATES tally X = .ok t' ∧
      t'.candidate_votes Y =
        { v with pos := k } :: (if Y = X then rest else tally.candidate_votes Y) ∧
      t'.candidate_vote_counts Y =
        (if Y = X then tally.candidate_vote_counts X - 1
          else tally.candidate_vote_counts Y) + 1 ∧
      (Y ≠ X → t'.candidate_votes X = rest ∧
        t'.candidate_vote_counts X = tally.candidate_vote_counts X - 1) ∧
      (∀ j, j ≠ X → j ≠ Y → t'.candidate_votes j = tally.candidate_votes j ∧
        t'.candidate_vote_counts j = tally.candidate_vote_counts j) ∧
      t'.candidate_status = tally.candidate_status ∧
      t'.candidate_count = tally.candidate_count ∧
      t'.invalid_vote_count = tally.invalid_vote_count ∧
      t'.invalid_votes = tally.invalid_votes :=
  tally_transfer_first_vote_moved MAX_CANDIDATES tally X Y k v rest hX0 hXc hXm hbucket hpos hk1 hk2 hY hY0 hYm hYa hskip

/-- Witness for C4: in `truncated_tally` the first vote of candidate 0 is `0 1 2` with id 2;
its next preference, candidate 1 at position 1, is Active, so the vote moves to the front of
the list of candidate 1. -/
theorem tally_transfer_first_vote_moves_witness :
    truncated_tally.candidate_status 1 = .CAND_ACTIVE ∧
    ∃ t', tally_transfer_first_vote 8 truncated_tally 0 = .ok t' ∧
      (t'.candidate_votes 1).map (fun v => (v.id, v.pos)) = [(2, 1), (4, 0), (3, 0)] ∧
      t'.candidate_vote_counts 1 = 3 ∧
      (t'.candidate_votes 0).map (fun v => (v.id, v.pos)) = [(1, 0)] ∧
      t'.candidate_vote_counts 0 = 1 := by
  refine ⟨rfl, ?_⟩
  obtain ⟨t', h, h1, h2, h3, _⟩ :=
    tally_transfer_first_vote_moves 8 truncated_tally 0 1 1 (mk_vote 2 [0, 1, 2])
      [mk_vote 1 [0, 1, 2]] (by decide) (by decide) (by decide) rfl (by decide) (by decide)
      (by decide) rfl (by decide) (by decide) rfl
      (by
        intro j h1 h2
        have h3 : (0 : Int) < j := h1
        omega)
  have h4 := h3 (by decide)
  refine ⟨t', h, ?_, ?_, ?_, ?_⟩
  · rw [h1]; rfl
  · rw [h2]; rfl
  · rw [h4.1]; rfl
  · rw [h4.2]; rfl

/-- The `NO_CANDIDATE` branch of `tally_transfer_first_vote`: the vote goes back to the front
of the list it was taken from and the count is restored. -/
theorem tally_transfer_first_vote_put_back (MAX_CANDIDATES : Int)
    (tally : tally_t) (X : Int) (v v' : vote_t) (rest : List vote_t)
    (hX0 : 0 ≤ X) (hXc : X < tally.candidate_count) (hXm : X < MAX_CANDIDATES)
    (hbucket : tally.candidate_votes X = v :: rest)
    (hnext : vote_next_candidate MAX_CANDIDATES { v with pos := v.pos + 1 }
      tally.candidate_status = .ok (NO_CANDIDATE, v')) :
    ∃ t', tally_transfer_first_vote MAX_CANDIDATES tally X = .ok t' ∧
      t'.candidate_votes X = v' :: rest ∧
      t'.candidate_vote_counts X = tally.candidate_vote_counts X ∧
      (∀ j, j ≠ X → t'.candidate_votes j = tally.candidate_votes j ∧
        t'.candidate_vote_counts j = tally.candidate_vote_counts j) ∧
      t'.candidate_status = tally.candidate_status ∧
      t'.candidate_count = tally.candidate_count ∧
      t'.invalid_vote_count = tally.invalid_vote_count ∧
      t'.invalid_votes = tally.invalid_votes := by
  have hXb : in_bounds MAX_CANDIDATES X := ⟨hX0, hXm⟩
  unfold tally_transfer_first_vote
  rw [if_neg (by omega), if_neg (not_not.mpr hXb), hbucket]
  dsimp only
  rw [hnext]
  dsimp only
  rw [if_pos rfl]
  refine ⟨_, rfl, ?_, ?_, ?_, rfl, rfl, rfl, rfl⟩
  · dsimp only
    rw [arr_set_same, arr_set_same]
  · dsimp only
    rw [arr_set_same, arr_set_same]
    omega
  · intro j hj
    dsimp only
    rw [arr_set_other _ _ _ _ hj, arr_set_other _ _ _ _ hj,
      arr_set_other _ _ _ _ hj, arr_set_other _ _ _ _ hj]
    exact ⟨rfl, rfl⟩

/-- C5 (what the code does): when `vote_next_candidate` finds no Active candidate for the
first vote of candidate `X`, `tally_transfer_first_vote` puts the vote back at the front of
the list of `X` and restores the count of `X`; the invalid list and `invalid_vote_count` are
not touched. -/
theorem tally_transfer_first_vote_no_candidate_puts_back (MAX_CANDIDATES : Int)
    (tally : tally_t) (X : Int) (v v' : vote_t) (rest : List vote_t)
    (hX0 : 0 ≤ X) (hXc : X < tally.candidate_count) (hXm : X < MAX_CANDIDATES)
    (hbucket : tally.candidate_votes X = v :: rest)
    (hnext : vote_next_candidate MAX_CANDIDATES { v with pos := v.pos + 1 }
      tally.candidate_status = .ok (NO_CANDIDATE, v')) :
    ∃ t', tally_transfer_first_vote MAX_CANDIDATES tally X = .ok t' ∧
      t'.candidate_votes X = v' :: rest ∧
      t'.candidate_vote_counts X = tally.candidate_vote_counts X ∧
      (∀ j, j ≠ X → t'.candidate_votes j = tally.candidate_votes j ∧
        t'.candidate_vote_counts j = tally.candidate_vote_counts j) ∧
      t'.candidate_status = tally.candidate_status ∧
      t'.candidate_count = tally.candidate_count ∧
      t'.invalid_vote_count = tally.invalid_vote_count ∧
      t'.invalid_votes = tally.invalid_votes :=
  tally_transfer_first_vote_put_back MAX_CANDIDATES tally X v v' rest hX0 hXc hXm hbucket hnext

/-- Witness for C5: in `truncated_tally` the only vote of candidate 2 is `2 -1 -1`; after the
transfer it is still the only vote of candidate 2, with cursor 1, the count of candidate 2 is
still 1 and `invalid_vote_count` is still 0. -/
theorem tally_transfer_first_vote_no_candidate_puts_back_witness :
    ∃ t', tally_transfer_first_vote 8 truncated_tally 2 = .ok t' ∧
      (t'.candidate_votes 2).map (fun v => (v.id, v.pos)) = [(5, 1)] ∧
      t'.candidate_vote_counts 2 = 1 ∧
      t'.invalid_vote_count = 0 ∧
      t'.invalid_votes.length = 0 := by
  obtain ⟨t', h, h1, h2, _, _, _, h3, h4⟩ :=
    tally_transfer_first_vote_no_candidate_puts_back 8 truncated_tally 2
      (mk_vote 5 [2, -1, -1]) { mk_vote 5 [2, -1, -1] with pos := 1 } []
      (by decide) (by decide) (by decide) rfl rfl
  refine ⟨t', h, ?_, ?_, ?_, ?_⟩
  · rw [h1]; rfl
  · rw [h2]; rfl
  · rw [h3]; rfl
  · rw [h4]; rfl

/-- C6: on a candidate index within the array whose vote list is empty,
`tally_transfer_first_vote` returns the tally it was given. -/
theorem tally_transfer_first_vote_empty_bucket (MAX_CANDIDATES : Int) (tally : tally_t)
    (X : Int) (hX0 : 0 ≤ X) (hXm : X < MAX_CANDIDATES)
    (hempty : tally.candidate_votes X = []) :
    tally_transfer_first_vote MAX_CANDIDATES tally X = .ok tally := by
  have hXb : in_bounds MAX_CANDIDATES X := ⟨hX0, hXm⟩
  unfold tally_transfer_first_vote
  by_cases h : X ≥ tally.candidate_count
  · rw [if_pos h]
  · rw [if_neg h, if_neg (not_not.mpr hXb), hempty]

/-- Witness for C6: candidate 1 of the two-candidate tally without votes. -/
theorem tally_transfer_first_vote_empty_bucket_witness :
    scenario_b_tally.candidate_votes 1 = [] ∧
    tally_transfer_first_vote 8 scenario_b_tally 1 = .ok scenario_b_tally :=
  ⟨rfl, tally_transfer_first_vote_empty_bucket 8 scenario_b_tally 1 (by decide) (by decide) rfl⟩

/-- C7: when the cursor of the vote is inside the array and the preference there is a
candidate index `c`, `tally_add_vote` puts the vote (its cursor untouched) in front of the
previous list of `c`, adds one to the count of `c`, and changes nothing else. -/
theorem tally_add_vote_prepends (MAX_CANDIDATES : Int) (tally : tally_t) (vote : vote_t)
    (c : Int) (hpos0 : 0 ≤ vote.pos) (hposm : vote.pos < MAX_CANDIDATES)
    (hc : vote.candidate_order vote.pos = c) (hc0 : 0 ≤ c) (hcm : c < MAX_CANDIDATES) :
    ∃ t', tally_add_vote MAX_CANDIDATES tally vote = .ok t' ∧
      t'.candidate_votes c = vote :: tally.candidate_votes c ∧
      t'.candidate_vote_counts c = tally.candidate_vote_counts c + 1 ∧
      (∀ j, j ≠ c → t'.candidate_votes j = tally.candidate_votes j ∧
        t'.candidate_vote_counts j = tally.candidate_vote_counts j) ∧
      t'.candidate_status = tally.candidate_status ∧
      t'.candidate_count = tally.candidate_count ∧
      t'.invalid_vote_count = tally.invalid_vote_count ∧
      t'.invalid_votes = tally.invalid_votes := by
  have hpb : in_bounds MAX_CANDIDATES vote.pos := ⟨hpos0, hposm⟩
  have hcb : in_bounds MAX_CANDIDATES (vote.candidate_order vote.pos) := by
    rw [hc]; exact ⟨hc0, hcm⟩
  unfold tally_add_vote
  rw [if_neg (not_not.mpr hpb)]
  dsimp only
  rw [if_neg (not_not.mpr hcb), hc]
  refine ⟨_, rfl, ?_, ?_, ?_, rfl, rfl, rfl, rfl⟩
  · dsimp only
    rw [arr_set_same]
  · dsimp only
    rw [arr_set_same]
  · intro j hj
    dsimp only
    rw [arr_set_other _ _ _ _ hj, arr_set_other _ _ _ _ hj]
    exact ⟨rfl, rfl⟩

/-- Witness for C7: adding the vote `1 0 2` with id 6 to `truncated_tally` puts it in front
of the two votes of candidate 1 and makes the count of candidate 1 three. -/
theorem tally_add_vote_prepends_witness :
    ∃ t', tally_add_vote 8 truncated_tally (mk_vote 6 [1, 0, 2]) = .ok t' ∧
      (t'.candidate_votes 1).map (fun v => (v.id, v.pos)) = [(6, 0), (4, 0), (3, 0)] ∧
      t'.candidate_vote_counts 1 = 3 := by
  obtain ⟨t', h, h1, h2, _⟩ :=
    tally_add_vote_prepends 8 truncated_tally (mk_vote 6 [1, 0, 2]) 1
      (by decide) (by decide) rfl (by decide) (by decide)
  refine ⟨t', h, ?_, ?_⟩
  · rw [h1]; rfl
  · rw [h2]; rfl

/-- C8 (what the code does): when the preference at the cursor is `NO_CANDIDATE`,
`tally_add_vote` has no branch for the invalid list; it indexes `candidate_votes[]` and
`candidate_vote_counts[]` out of bounds. -/
theorem tally_add_vote_no_candidate_out_of_bounds (MAX_CANDIDATES : Int) (tally : tally_t)
    (vote : vote_t) (h : vote.candidate_order vote.pos = NO_CANDIDATE) :
    tally_add_vote MAX_CANDIDATES tally vote = .error .out_of_bounds := by
  unfold tally_add_vote
  by_cases hp : in_bounds MAX_CANDIDATES vote.pos
  · rw [if_neg (not_not.mpr hp)]
    dsimp only
    rw [h]
    have hb : ¬ in_bounds MAX_CANDIDATES NO_CANDIDATE := by
      unfold in_bounds NO_CANDIDATE
      omega
    rw [if_pos hb]
  · rw [if_pos hp]

/-- Witness for C8: Scenario B, the single ballot `-1 0` with two candidates. -/
theorem tally_add_vote_no_candidate_out_of_bounds_witness :
    scenario_b_vote.candidate_order scenario_b_vote.pos = NO_CANDIDATE ∧
    tally_add_vote 8 scenario_b_tally scenario_b_vote = .error .out_of_bounds :=
  ⟨rfl, tally_add_vote_no_candidate_out_of_bounds 8 scenario_b_tally scenario_b_vote rfl⟩

/-- A candidate returned by the scan of `vote_next_candidate` is the marker or an Active
candidate. -/
theorem vote_next_scan_active (MAX_CANDIDATES : Int) (status : Int → cand_status)
    (order : Int → Int) (fuel : Nat) (pos c p : Int)
    (h : vote_next_scan MAX_CANDIDATES status order fuel pos = .ok (c, p)) :
    c = NO_CANDIDATE ∨ status c = .CAND_ACTIVE := by
  induction fuel generalizing pos with
  | zero => simp [vote_next_scan] at h
  | succ n ih =>
    unfold vote_next_scan at h
    dsimp only at h
    split_ifs at h
    all_goals first
      | exact ih (pos + 1) h
      | (simp only [Except.ok.injEq, Prod.mk.injEq] at h; exact Or.inl h.1.symm)
      | (simp only [Except.ok.injEq, Prod.mk.injEq] at h; right; rw [← h.1]; assumption)

/-- A candidate returned by `vote_next_candidate` is the marker or an Active candidate. -/
theorem vote_next_candidate_active (MAX_CANDIDATES : Int) (vote vote' : vote_t)
    (status : Int → cand_status) (c : Int)
    (h : vote_next_candidate MAX_CANDIDATES vote status = .ok (c, vote')) :
    c = NO_CANDIDATE ∨ status c = .CAND_ACTIVE := by
  unfold vote_next_candidate at h
  split at h
  · simp at h
  · rename_i c' p' hs
    simp only [Except.ok.injEq, Prod.mk.injEq] at h
    rw [← h.1]
    exact vote_next_scan_active MAX_CANDIDATES status vote.candidate_order _ _ _ _ hs

/-- Frame of `tally_transfer_first_vote`: statuses and the candidate count are unchanged, for
every candidate the difference between count and list length is unchanged, and the list of a
non-Active candidate other than the one transferred from is unchanged. -/
theorem tally_transfer_first_vote_frame (MAX_CANDIDATES : Int) (tally t' : tally_t) (X : Int)
    (h : tally_transfer_first_vote MAX_CANDIDATES tally X = .ok t') :
    t'.candidate_status = tally.candidate_status ∧
    t'.candidate_count = tally.candidate_count ∧
    (∀ j, t'.candidate_vote_counts j - (t'.candidate_votes j).length =
      tally.candidate_vote_counts j - (tally.candidate_votes j).length) ∧
    (∀ j, j ≠ X → tally.candidate_status j ≠ .CAND_ACTIVE →
      t'.candidate_votes j = tally.candidate_votes j) := by
  unfold tally_transfer_first_vote at h
  split_ifs at h with h1 h2
  · simp only [Except.ok.injEq] at h
    subst h
    exact ⟨rfl, rfl, fun _ => rfl, fun _ _ _ => rfl⟩
  · split at h
    · simp only [Except.ok.injEq] at h
      subst h
      exact ⟨rfl, rfl, fun _ => rfl, fun _ _ _ => rfl⟩
    · rename_i v rest hb
      dsimp only at h
      split at h
      · simp at h
      · rename_i c v' hn
        have hact := vote_next_candidate_active _ _ _ _ _ hn
        split_ifs at h with h3 h4
        · simp only [Except.ok.injEq] at h
          subst h
          refine ⟨rfl, rfl, fun j => ?_, fun j hj _ => ?_⟩
          · dsimp only
            by_cases hj : j = X
            · subst hj
              simp only [arr_set_same, hb, List.length_cons]
              push_cast; ring
            · simp only [arr_set_other _ _ _ _ hj]
          · dsimp only
            simp only [arr_set_other _ _ _ _ hj]
        · simp only [Except.ok.injEq] at h
          subst h
          have hca : tally.candidate_status c = .CAND_ACTIVE := by
            rcases hact with hh | hh
            · exact absurd hh h3
            · exact hh
          refine ⟨rfl, rfl, fun j => ?_, fun j hj hs => ?_⟩
          · dsimp only
            by_cases hjc : j = c
            · subst hjc
              by_cases hjX : j = X
              · subst hjX
                simp only [arr_set_same, hb, List.length_cons]
                push_cast; ring
              · simp only [arr_set_same, arr_set_other _ _ _ _ hjX, List.length_cons]
                push_cast; ring
            · by_cases hjX : j = X
              · subst hjX
                simp only [arr_set_same, arr_set_other _ _ _ _ hjc, hb, List.length_cons]
                push_cast; ring
              · simp only [arr_set_other _ _ _ _ hjc, arr_set_other _ _ _ _ hjX]
          · dsimp only
            have hjc : j ≠ c := fun e => hs (e ▸ hca)
            simp only [arr_set_other _ _ _ _ hjc, arr_set_other _ _ _ _ hj]

/-- When the drain loop returns, the list of the drained candidate is empty; the frame of
`tally_transfer_first_vote` carries over to the whole loop. -/
theorem drain_votes_spec (MAX_CANDIDATES : Int) (fuel : Nat) (tally t' : tally_t) (i : Int)
    (h : drain_votes MAX_CANDIDATES fuel tally i = .ok t') :
    t'.candidate_votes i = [] ∧
    t'.candidate_status = tally.candidate_status ∧
    t'.candidate_count = tally.candidate_count ∧
    (∀ j, t'.candidate_vote_counts j - (t'.candidate_votes j).length =
      tally.candidate_vote_counts j - (tally.candidate_votes j).length) ∧
    (∀ j, j ≠ i → tally.candidate_status j ≠ .CAND_ACTIVE →
      t'.candidate_votes j = tally.candidate_votes j) := by
  induction fuel generalizing tally with
  | zero =>
    unfold drain_votes at h
    split at h
    · rename_i hb
      simp only [Except.ok.injEq] at h
      subst h
      exact ⟨hb, rfl, rfl, fun _ => rfl, fun _ _ _ => rfl⟩
    · simp at h
  | succ n ih =>
    unfold drain_votes at h
    split at h
    · rename_i hb
      simp only [Except.ok.injEq] at h
      subst h
      exact ⟨hb, rfl, rfl, fun _ => rfl, fun _ _ _ => rfl⟩
    · split at h
      · simp at h
      · rename_i t1 ht
        obtain ⟨a1, a2, a3, a4⟩ := tally_transfer_first_vote_frame _ _ _ _ ht
        obtain ⟨b0, b1, b2, b3, b4⟩ := ih t1 h
        refine ⟨b0, b1.trans a1, b2.trans a2, fun j => (b3 j).trans (a3 j), fun j hj hs => ?_⟩
        rw [b4 j hj (by rw [a1]; exact hs), a4 j hj hs]

/-- The `for` loop of `tally_drop_minvote_candidates` over candidates `i .. i + n - 1`: each
MinVotes candidate of that range ends Dropped with an empty list, every other status is
kept, non-Active candidates outside the processed set keep their lists, and the difference
between count and list length is kept for everybody. -/
theorem drop_loop_spec (MAX_CANDIDATES : Int) (fuel n : Nat) (i : Int) (tally t' : tally_t)
    (h : drop_loop MAX_CANDIDATES fuel n i tally = .ok t') :
    t'.candidate_count = tally.candidate_count ∧
    (∀ j, t'.candidate_vote_counts j - (t'.candidate_votes j).length =
      tally.candidate_vote_counts j - (tally.candidate_votes j).length) ∧
    (∀ j, i ≤ j → j < i + n → tally.candidate_status j = .CAND_MINVOTES →
      t'.candidate_status j = .CAND_DROPPED ∧ t'.candidate_votes j = []) ∧
    (∀ j, ¬ (i ≤ j ∧ j < i + n ∧ tally.candidate_status j = .CAND_MINVOTES) →
      t'.candidate_status j = tally.candidate_status j) ∧
    (∀ j, ¬ (i ≤ j ∧ j < i + n ∧ tally.candidate_status j = .CAND_MINVOTES) →
      tally.candidate_status j ≠ .CAND_ACTIVE →
      t'.candidate_votes j = tally.candidate_votes j) := by
  induction n generalizing i tally with
  | zero =>
    simp only [drop_loop, Except.ok.injEq] at h
    subst h
    exact ⟨rfl, fun _ => rfl, fun j h1 h2 => by simp at h2; omega, fun _ _ => rfl,
      fun _ _ _ => rfl⟩
  | succ n ih =>
    unfold drop_loop at h
    split_ifs at h with hb hm
    · split at h
      · simp at h
      · rename_i t1 hd
        obtain ⟨d0, d1, d2, d3, d4⟩ := drain_votes_spec _ _ _ _ _ hd
        obtain ⟨a1, a2, a3, a4, a5⟩ := ih (i + 1) _ h
        dsimp only at a1 a2 a3 a4 a5
        have hst : ∀ j, j ≠ i →
            arr_set t1.candidate_status i .CAND_DROPPED j = tally.candidate_status j := by
          intro j hj
          rw [arr_set_other _ _ _ _ hj, d1]
        have hnot : ¬ (i + 1 ≤ i ∧ i < i + 1 + (n : Int) ∧
            arr_set t1.candidate_status i .CAND_DROPPED i = .CAND_MINVOTES) :=
          fun hh => by have := hh.1; omega
        refine ⟨a1.trans d2, fun j => (a2 j).trans (d3 j), ?_, ?_, ?_⟩
        · intro j hj1 hj2 hj3
          by_cases hji : j = i
          · subst hji
            refine ⟨?_, ?_⟩
            · rw [a4 j hnot, arr_set_same]
            · rw [a5 j hnot (by rw [arr_set_same]; decide), d0]
          · exact a3 j (by omega) (by push_cast at hj2; omega) (by rw [hst j hji]; exact hj3)
        · intro j hj
          have hji : j ≠ i := by
            intro e; subst e
            exact hj ⟨le_refl _, by push_cast; omega, hm⟩
          rw [a4 j (fun hh => hj ⟨by omega, by push_cast; omega, by rw [← hst j hji]; exact hh.2.2⟩),
            hst j hji]
        · intro j hj hs
          have hji : j ≠ i := by
            intro e; subst e
            exact hj ⟨le_refl _, by push_cast; omega, hm⟩
          rw [a5 j (fun hh => hj ⟨by omega, by push_cast; omega, by rw [← hst j hji]; exact hh.2.2⟩)
            (by rw [hst j hji]; exact hs), d4 j hji hs]
    · obtain ⟨a1, a2, a3, a4, a5⟩ := ih (i + 1) _ h
      refine ⟨a1, a2, ?_, ?_, ?_⟩
      · intro j hj1 hj2 hj3
        have hji : j ≠ i := fun e => hm (e ▸ hj3)
        exact a3 j (by omega) (by push_cast at hj2; omega) hj3
      · intro j hj
        exact a4 j (fun hh => hj ⟨by omega, by push_cast; omega, hh.2.2⟩)
      · intro j hj hs
        exact a5 j (fun hh => hj ⟨by omega, by push_cast; omega, hh.2.2⟩) hs

/-- C9: when `tally_drop_minvote_candidates` returns on a tally whose MinVotes candidates have
a count equal to the length of their vote list, every candidate that was MinVotes is Dropped
with an empty list and count 0, no candidate is MinVotes, and every candidate that was Active
or Dropped keeps its status. -/
theorem tally_drop_minvote_candidates_spec (MAX_CANDIDATES : Int) (fuel : Nat)
    (tally t' : tally_t)
    (h : tally_drop_minvote_candidates MAX_CANDIDATES fuel tally = .ok t')
    (hcons : ∀ i, 0 ≤ i → i < tally.candidate_count →
      tally.candidate_status i = .CAND_MINVOTES →
      tally.candidate_vote_counts i = (tally.candidate_votes i).length) :
    (∀ i, 0 ≤ i → i < tally.candidate_count → tally.candidate_status i = .CAND_MINVOTES →
      t'.candidate_status i = .CAND_DROPPED ∧ t'.candidate_votes i = [] ∧
        t'.candidate_vote_counts i = 0) ∧
    (∀ i, 0 ≤ i → i < tally.candidate_count → t'.candidate_status i ≠ .CAND_MINVOTES) ∧
    (∀ i, tally.candidate_status i = .CAND_ACTIVE ∨ tally.candidate_status i = .CAND_DROPPED →
      t'.candidate_status i = tally.candidate_status i) := by
  unfold tally_drop_minvote_candidates at h
  obtain ⟨_, a2, a3, a4, _⟩ := drop_loop_spec _ _ _ _ _ _ h
  refine ⟨?_, ?_, ?_⟩
  · intro i hi1 hi2 hi3
    obtain ⟨b1, b2⟩ := a3 i (by omega) (by omega) hi3
    refine ⟨b1, b2, ?_⟩
    have hd := a2 i
    rw [b2, hcons i hi1 hi2 hi3] at hd
    simpa using hd
  · intro i hi1 hi2
    by_cases hm : tally.candidate_status i = .CAND_MINVOTES
    · rw [(a3 i (by omega) (by omega) hm).1]; decide
    · rw [a4 i (fun hh => hm hh.2.2)]; exact hm
  · intro i hi
    apply a4
    rintro ⟨_, _, hm⟩
    rcases hi with hi | hi <;> rw [hi] at hm <;> exact absurd hm (by decide)

/-- Witness for C9: on `drop_example_tally`, where candidate 1 is MinVotes with two votes whose
next preference is the Active candidate 0, the call returns with candidate 1 Dropped, its
list empty and its count 0. -/
theorem tally_drop_minvote_candidates_spec_witness :
    ∃ t', tally_drop_minvote_candidates 8 2 drop_example_tally = .ok t' ∧
      t'.candidate_status 1 = .CAND_DROPPED ∧ t'.candidate_votes 1 = [] ∧
      t'.candidate_vote_counts 1 = 0 := by
  have hr : ∃ t', tally_drop_minvote_candidates 8 2 drop_example_tally = .ok t' := ⟨_, rfl⟩
  obtain ⟨t', ht⟩ := hr
  have h := tally_drop_minvote_candidates_spec 8 2 drop_example_tally t' ht
    (by
      intro i h1 h2
      have h3 : i < 3 := h2
      interval_cases i <;> decide)
  exact ⟨t', ht, (h.1 1 (by decide) (by decide) rfl)⟩

/-- With the cursor on a `NO_CANDIDATE` cell, or past the end of the array,
`vote_next_candidate` returns `NO_CANDIDATE` and leaves the vote as it is. -/
theorem vote_next_candidate_marker (MAX_CANDIDATES : Int) (vote : vote_t)
    (status : Int → cand_status) (hpos : 0 ≤ vote.pos)
    (hm : vote.candidate_order vote.pos = NO_CANDIDATE) :
    vote_next_candidate MAX_CANDIDATES vote status = .ok (NO_CANDIDATE, vote) := by
  unfold vote_next_candidate vote_next_scan
  by_cases h1 : vote.pos < MAX_CANDIDATES
  · simp [h1, not_lt.mpr hpos, hm]
  · simp [h1]

/-- The drain loop never returns on a candidate whose first vote has only `NO_CANDIDATE`
cells after its cursor: every transfer puts that vote back in front. -/
theorem drain_votes_stuck (MAX_CANDIDATES : Int) (fuel : Nat) (tally : tally_t) (X : Int)
    (v : vote_t) (rest : List vote_t)
    (hX0 : 0 ≤ X) (hXc : X < tally.candidate_count) (hXm : X < MAX_CANDIDATES)
    (hbucket : tally.candidate_votes X = v :: rest) (hpos : 0 ≤ v.pos)
    (hm : ∀ j, v.pos < j → v.candidate_order j = NO_CANDIDATE) :
    drain_votes MAX_CANDIDATES fuel tally X = .error .timeout := by
  induction fuel generalizing tally v with
  | zero =>
    unfold drain_votes
    rw [hbucket]
  | succ n ih =>
    obtain ⟨t1, ht, hb1, _, _, _, hc1, _⟩ :=
      tally_transfer_first_vote_put_back MAX_CANDIDATES tally X v { v with pos := v.pos + 1 }
        rest hX0 hXc hXm hbucket
        (vote_next_candidate_marker MAX_CANDIDATES { v with pos := v.pos + 1 } _
          (by dsimp only; omega) (hm (v.pos + 1) (by omega)))
    unfold drain_votes
    rw [hbucket]
    dsimp only
    rw [ht]
    dsimp only
    exact ih t1 { v with pos := v.pos + 1 } (by rw [hc1]; exact hXc) hb1
      (by dsimp only; omega) (fun j hj => hm j (by dsimp only at hj; omega))

/-- Round 1 on `truncated_tally` drops nobody. -/
theorem truncated_round1_drop (MAX_CANDIDATES : Int) (fuel : Nat) (hmax : 3 ≤ MAX_CANDIDATES) :
    tally_drop_minvote_candidates MAX_CANDIDATES fuel truncated_tally = .ok truncated_tally := by
  have h0 : (0 : Int) < MAX_CANDIDATES := by omega
  have h1 : (1 : Int) < MAX_CANDIDATES := by omega
  have h2 : (2 : Int) < MAX_CANDIDATES := by omega
  simp [tally_drop_minvote_candidates, drop_loop, in_bounds, truncated_tally, arr_of, h0, h1, h2]

/-- Round 1 on `truncated_tally` marks candidate 2, who has one vote against two. -/
theorem truncated_round1_set (MAX_CANDIDATES : Int) (hmax : 3 ≤ MAX_CANDIDATES) :
    tally_set_minvote_candidates MAX_CANDIDATES truncated_tally = .ok truncated_marked := by
  have h0 : (0 : Int) < MAX_CANDIDATES := by omega
  have h1 : (1 : Int) < MAX_CANDIDATES := by omega
  have h2 : (2 : Int) < MAX_CANDIDATES := by omega
  simp [tally_set_minvote_candidates, minvote_scan, minvote_mark, in_bounds, truncated_marked,
    truncated_tally, arr_of, h0, h1, h2]

/-- Round 1 on `truncated_tally` ends with two Active candidates: Continue. -/
theorem truncated_round1_condition (MAX_CANDIDATES : Int) (hmax : 3 ≤ MAX_CANDIDATES) :
    tally_condition MAX_CANDIDATES truncated_marked = .ok .TALLY_CONTINUE := by
  have h0 : (0 : Int) < MAX_CANDIDATES := by omega
  have h1 : (1 : Int) < MAX_CANDIDATES := by omega
  have h2 : (2 : Int) < MAX_CANDIDATES := by omega
  simp [tally_condition, tally_condition_count, in_bounds, truncated_marked, truncated_tally,
    arr_of, arr_set, h0, h1, h2]

/-- Round 2 on `truncated_tally`: draining candidate 2 never ends. -/
theorem truncated_round2_drop (MAX_CANDIDATES : Int) (fuel : Nat) (hmax : 3 ≤ MAX_CANDIDATES) :
    tally_drop_minvote_candidates MAX_CANDIDATES fuel truncated_marked = .error .timeout := by
  have h0 : (0 : Int) < MAX_CANDIDATES := by omega
  have h1 : (1 : Int) < MAX_CANDIDATES := by omega
  have h2 : (2 : Int) < MAX_CANDIDATES := by omega
  have hd : drain_votes MAX_CANDIDATES fuel truncated_marked 2 = .error .timeout :=
    drain_votes_stuck MAX_CANDIDATES fuel truncated_marked 2 (mk_vote 5 [2, -1, -1]) []
      (by decide) (by decide) h2 rfl (by decide)
      (by
        intro j hj
        have hj' : (0 : Int) < j := hj
        have e : (mk_vote 5 [2, -1, -1]).candidate_order j =
            [(2 : Int), -1, -1].getD j.toNat NO_CANDIDATE := by
          simp [mk_vote, arr_of, not_lt.mpr (le_of_lt hj')]
        rw [e]
        obtain ⟨k, hk⟩ : ∃ k : Nat, j.toNat = k + 1 := ⟨j.toNat - 1, by omega⟩
        rw [hk]
        match k with
        | 0 => rfl
        | 1 => rfl
        | (k + 2) => rfl)
  have s0 : truncated_marked.candidate_status 0 = .CAND_ACTIVE := rfl
  have s1 : truncated_marked.candidate_status 1 = .CAND_ACTIVE := rfl
  have s2 : truncated_marked.candidate_status 2 = .CAND_MINVOTES := rfl
  have hc : truncated_marked.candidate_count.toNat = 3 := rfl
  unfold tally_drop_minvote_candidates
  rw [hc]
  simp [drop_loop, in_bounds, h0, h1, h2, s0, s1, s2, hd]

/-- C10 (what the code does): on `truncated_tally`, whose candidate 2 holds the truncated
ballot `2 -1 -1`, `tally_election` does not return whatever the fuel: round 1 marks candidate
2 MinVotes and continues, and in round 2 the drain loop of candidate 2 puts the ballot back
into the list of candidate 2 on every transfer, so the list never becomes empty. -/
theorem tally_election_truncated_ballot_never_returns (MAX_CANDIDATES : Int)
    (hmax : 3 ≤ MAX_CANDIDATES) (fuel : Nat) :
    tally_election MAX_CANDIDATES fuel truncated_tally = .error .timeout := by
  unfold tally_election
  match fuel with
  | 0 => rfl
  | 1 =>
    unfold election_rounds
    rw [truncated_round1_drop _ _ hmax]
    dsimp only
    rw [truncated_round1_set _ hmax]
    dsimp only
    rw [truncated_round1_condition _ hmax]
    rfl
  | (n + 2) =>
    unfold election_rounds
    rw [truncated_round1_drop _ _ hmax]
    dsimp only
    rw [truncated_round1_set _ hmax]
    dsimp only
    rw [truncated_round1_condition _ hmax]
    dsimp only
    rw [if_neg (by decide)]
    unfold election_rounds
    rw [truncated_round2_drop _ _ hmax]

/-- Witness for C10 with eight array cells: a thousand units of fuel do not suffice. -/
theorem tally_election_truncated_ballot_never_returns_witness :
    (3 : Int) ≤ 8 ∧ tally_election 8 1000 truncated_tally = .error .timeout :=
  ⟨by decide, tally_election_truncated_ballot_never_returns 8 (by decide) 1000⟩

/-- Frame of `tally_add_vote`: statuses and the candidate count are unchanged and, for every
candidate, so is the difference between count and list length. -/
theorem tally_add_vote_frame (MAX_CANDIDATES : Int) (tally t' : tally_t) (vote : vote_t)
    (h : tally_add_vote MAX_CANDIDATES tally vote = .ok t') :
    t'.candidate_status = tally.candidate_status ∧
    t'.candidate_count = tally.candidate_count ∧
    t'.invalid_vote_count = tally.invalid_vote_count ∧
    t'.invalid_votes = tally.invalid_votes ∧
    (∀ j, t'.candidate_vote_counts j - (t'.candidate_votes j).length =
      tally.candidate_vote_counts j - (tally.candidate_votes j).length) := by
  unfold tally_add_vote at h
  split_ifs at h
  dsimp only at h
  split_ifs at h
  simp only [Except.ok.injEq] at h
  subst h
  refine ⟨rfl, rfl, rfl, rfl, fun j => ?_⟩
  dsimp only
  by_cases hj : j = vote.candidate_order vote.pos
  · subst hj
    simp only [arr_set_same, List.length_cons]
    push_cast; ring
  · simp only [arr_set_other _ _ _ _ hj]

/-- Frame of the marking loop of `tally_set_minvote_candidates`: only statuses change, and a
status changes only from Active to MinVotes, at an index the loop visits. -/
theorem minvote_mark_frame (MAX_CANDIDATES : Int) (m : Int) (n : Nat) (i : Int)
    (tally t' : tally_t) (h : minvote_mark MAX_CANDIDATES m n i tally = .ok t') :
    t'.candidate_count = tally.candidate_count ∧
    t'.candidate_vote_counts = tally.candidate_vote_counts ∧
    t'.candidate_votes = tally.candidate_votes ∧
    t'.invalid_vote_count = tally.invalid_vote_count ∧
    t'.invalid_votes = tally.invalid_votes ∧
    ∀ j, t'.candidate_status j = tally.candidate_status j ∨
      (i ≤ j ∧ j < i + n ∧ tally.candidate_status j = .CAND_ACTIVE ∧
        t'.candidate_status j = .CAND_MINVOTES) := by
  induction n generalizing i tally with
  | zero =>
    simp only [minvote_mark, Except.ok.injEq] at h
    subst h
    exact ⟨rfl, rfl, rfl, rfl, rfl, fun _ => Or.inl rfl⟩
  | succ n ih =>
    unfold minvote_mark at h
    split_ifs at h with hb hc
    · obtain ⟨a1, a2, a3, a4, a5, a6⟩ := ih (i + 1) _ h
      refine ⟨a1, a2, a3, a4, a5, fun j => ?_⟩
      dsimp only at a6
      by_cases hji : j = i
      · subst hji
        right
        rcases a6 j with hj | hj
        · rw [arr_set_same] at hj
          exact ⟨le_refl _, by push_cast; omega, hc.1, hj⟩
        · have := hj.1; omega
      · rcases a6 j with hj | hj
        · rw [arr_set_other _ _ _ _ hji] at hj
          exact Or.inl hj
        · rw [arr_set_other _ _ _ _ hji] at hj
          exact Or.inr ⟨by omega, by push_cast; omega, hj.2.2.1, hj.2.2.2⟩
    · obtain ⟨a1, a2, a3, a4, a5, a6⟩ := ih (i + 1) _ h
      refine ⟨a1, a2, a3, a4, a5, fun j => ?_⟩
      rcases a6 j with hj | hj
      · exact Or.inl hj
      · exact Or.inr ⟨by omega, by push_cast; omega, hj.2.2.1, hj.2.2.2⟩

/-- Frame of `tally_set_minvote_candidates`: only statuses change, and a status changes only
from Active to MinVotes, at one of the first `candidate_count` candidates. -/
theorem tally_set_minvote_candidates_frame (MAX_CANDIDATES : Int) (tally t' : tally_t)
    (h : tally_set_minvote_candidates MAX_CANDIDATES tally = .ok t') :
    t'.candidate_count = tally.candidate_count ∧
    t'.candidate_vote_counts = tally.candidate_vote_counts ∧
    t'.candidate_votes = tally.candidate_votes ∧
    t'.invalid_vote_count = tally.invalid_vote_count ∧
    t'.invalid_votes = tally.invalid_votes ∧
    ∀ j, t'.candidate_status j = tally.candidate_status j ∨
      (0 ≤ j ∧ j < tally.candidate_count ∧ tally.candidate_status j = .CAND_ACTIVE ∧
        t'.candidate_status j = .CAND_MINVOTES) := by
  unfold tally_set_minvote_candidates at h
  split_ifs at h with h0
  · simp only [Except.ok.injEq] at h
    subst h
    exact ⟨rfl, rfl, rfl, rfl, rfl, fun _ => Or.inl rfl⟩
  · split at h
    · simp at h
    · split_ifs at h with h1
      · simp only [Except.ok.injEq] at h
        subst h
        exact ⟨rfl, rfl, rfl, rfl, rfl, fun _ => Or.inl rfl⟩
      · obtain ⟨a1, a2, a3, a4, a5, a6⟩ := minvote_mark_frame _ _ _ _ _ _ h
        refine ⟨a1, a2, a3, a4, a5, fun j => ?_⟩
        rcases a6 j with hj | hj
        · exact Or.inl hj
        · exact Or.inr ⟨by omega, by omega, hj.2.2.1, hj.2.2.2⟩

/-- The scan of `vote_next_candidate` never runs out of fuel when it is given more fuel than
there are cells left. -/
theorem vote_next_scan_no_timeout (MAX_CANDIDATES : Int) (status : Int → cand_status)
    (order : Int → Int) (fuel : Nat) (pos : Int)
    (hfuel : (MAX_CANDIDATES - pos).toNat < fuel) :
    vote_next_scan MAX_CANDIDATES status order fuel pos ≠ .error .timeout := by
  induction fuel generalizing pos with
  | zero => omega
  | succ n ih =>
    unfold vote_next_scan
    dsimp only
    split_ifs with h1
    all_goals first
      | exact ih (pos + 1) (by omega)
      | simp

/-- The function `vote_next_candidate` never runs out of fuel. -/
theorem vote_next_candidate_no_timeout (MAX_CANDIDATES : Int) (vote : vote_t)
    (status : Int → cand_status) :
    vote_next_candidate MAX_CANDIDATES vote status ≠ .error .timeout := by
  have h := vote_next_scan_no_timeout MAX_CANDIDATES status vote.candidate_order
    ((MAX_CANDIDATES - vote.pos).toNat + 1) vote.pos (Nat.lt_succ_self _)
  unfold vote_next_candidate
  split
  · rename_i e he
    intro hh
    simp only [Except.error.injEq] at hh
    rw [hh] at he
    exact h he
  · simp

/-- The function `tally_transfer_first_vote` never runs out of fuel: when it does not return,
an array index was out of bounds. -/
theorem tally_transfer_first_vote_no_timeout (MAX_CANDIDATES : Int) (tally : tally_t)
    (X : Int) : tally_transfer_first_vote MAX_CANDIDATES tally X ≠ .error .timeout := by
  intro hh
  unfold tally_transfer_first_vote at hh
  split_ifs at hh
  · split at hh
    · simp at hh
    · dsimp only at hh
      split at hh
      · rename_i e he
        simp only [Except.error.injEq] at hh
        rw [hh] at he
        exact vote_next_candidate_no_timeout _ _ _ he
      · split_ifs at hh
        simp at hh
  · simp at hh

/-- The loops of `tally_set_minvote_candidates` are bounded: the only way not to return is an
index out of bounds. -/
theorem tally_set_minvote_candidates_no_timeout (MAX_CANDIDATES : Int) (tally : tally_t) :
    tally_set_minvote_candidates MAX_CANDIDATES tally ≠ .error .timeout := by
  have hscan : ∀ (n : Nat) (i m : Int),
      minvote_scan MAX_CANDIDATES tally n i m ≠ .error .timeout := by
    intro n
    induction n with
    | zero => intro i m; simp [minvote_scan]
    | succ n ih =>
      intro i m
      unfold minvote_scan
      split_ifs
      all_goals first
        | exact ih _ _
        | simp
  have hmark : ∀ (n : Nat) (m i : Int) (t : tally_t),
      minvote_mark MAX_CANDIDATES m n i t ≠ .error .timeout := by
    intro n
    induction n with
    | zero => intro m i t; simp [minvote_mark]
    | succ n ih =>
      intro m i t
      unfold minvote_mark
      split_ifs
      all_goals first
        | exact ih _ _ _
        | simp
  intro hh
  unfold tally_set_minvote_candidates at hh
  split_ifs at hh
  split at hh
  · rename_i e he
    simp only [Except.error.injEq] at hh
    rw [hh] at he
    exact hscan _ _ _ he
  · split_ifs at hh
    exact hmark _ _ _ _ hh

/-- C11: count consistency is kept by every engine operation.  On a tally in which each
candidate's count is the length of its vote list, whenever `tally_add_vote`,
`tally_transfer_first_vote`, `tally_set_minvote_candidates` or
`tally_drop_minvote_candidates` returns, the same holds of the tally it returns; the first
three never run out of fuel. -/
theorem count_consistent_preserved (MAX_CANDIDATES : Int) (fuel : Nat) (tally : tally_t)
    (h : count_consistent tally) :
    (∀ vote t', tally_add_vote MAX_CANDIDATES tally vote = .ok t' → count_consistent t') ∧
    (∀ X t', tally_transfer_first_vote MAX_CANDIDATES tally X = .ok t' →
      count_consistent t') ∧
    (∀ t', tally_set_minvote_candidates MAX_CANDIDATES tally = .ok t' →
      count_consistent t') ∧
    (∀ t', tally_drop_minvote_candidates MAX_CANDIDATES fuel tally = .ok t' →
      count_consistent t') ∧
    (∀ vote, tally_add_vote MAX_CANDIDATES tally vote ≠ .error .timeout) ∧
    (∀ X, tally_transfer_first_vote MAX_CANDIDATES tally X ≠ .error .timeout) ∧
    tally_set_minvote_candidates MAX_CANDIDATES tally ≠ .error .timeout := by
  have key : ∀ t' : tally_t, t'.candidate_count = tally.candidate_count →
      (∀ j, t'.candidate_vote_counts j - (t'.candidate_votes j).length =
        tally.candidate_vote_counts j - (tally.candidate_votes j).length) →
      count_consistent t' := by
    intro t' hc hd j hj1 hj2
    have h1 := h j hj1 (by rw [← hc]; exact hj2)
    have h2 := hd j
    omega
  refine ⟨?_, ?_, ?_, ?_, ?_, ?_, ?_⟩
  · intro vote t' ht
    obtain ⟨_, a2, _, _, a5⟩ := tally_add_vote_frame _ _ _ _ ht
    exact key t' a2 a5
  · intro X t' ht
    obtain ⟨_, a2, a3, _⟩ := tally_transfer_first_vote_frame _ _ _ _ ht
    exact key t' a2 a3
  · intro t' ht
    obtain ⟨a1, a2, a3, _⟩ := tally_set_minvote_candidates_frame _ _ _ ht
    exact key t' a1 (fun j => by rw [a2, a3])
  · intro t' ht
    unfold tally_drop_minvote_candidates at ht
    obtain ⟨a1, a2, _⟩ := drop_loop_spec _ _ _ _ _ _ ht
    exact key t' a1 a2
  · intro vote hh
    unfold tally_add_vote at hh
    dsimp only at hh
    split_ifs at hh <;> simp at hh
  · exact fun X => tally_transfer_first_vote_no_timeout _ _ X
  · exact tally_set_minvote_candidates_no_timeout _ _

/-- Witness for C11: `truncated_tally` is count-consistent, and so is the tally returned by
transferring the first vote of candidate 0. -/
theorem count_consistent_preserved_witness :
    count_consistent truncated_tally ∧
    ∃ t', tally_transfer_first_vote 8 truncated_tally 0 = .ok t' ∧ count_consistent t' := by
  have h0 : count_consistent truncated_tally := by
    intro j h1 h2
    have h3 : j < 3 := h2
    interval_cases j <;> rfl
  exact ⟨h0, _, rfl, (count_consistent_preserved 8 0 truncated_tally h0).2.1 0 _ rfl⟩

/-- A sum over a finite set is unchanged when two terms change but keep their sum. -/
theorem sum_eq_of_move {M : Type} [AddCommMonoid M] (s : Finset Nat) (F G : Nat → M)
    (x y : Nat) (hx : x ∈ s) (hy : y ∈ s) (hxy : x ≠ y)
    (hsum : G x + G y = F x + F y)
    (hrest : ∀ j, j ≠ x → j ≠ y → G j = F j) :
    ∑ j in s, G j = ∑ j in s, F j := by
  have hy' : y ∈ s.erase x := Finset.mem_erase.mpr ⟨Ne.symm hxy, hy⟩
  rw [← Finset.add_sum_erase s G hx, ← Finset.add_sum_erase (s.erase x) G hy',
    ← Finset.add_sum_erase s F hx, ← Finset.add_sum_erase (s.erase x) F hy',
    ← add_assoc, ← add_assoc, hsum]
  congr 1
  apply Finset.sum_congr rfl
  intro j hj
  simp only [Finset.mem_erase] at hj
  exact hrest j hj.2.1 hj.1

/-- The concatenation of `f 0, ..., f (n - 1)`, as a multiset, is the sum of the pieces. -/
theorem coe_flatMap_range (n : Nat) (f : Nat → List Int) :
    (((List.range n).flatMap f : List Int) : Multiset Int) =
      ∑ j in Finset.range n, (f j : Multiset Int) := by
  induction n with
  | zero => simp
  | succ n ih =>
    rw [Finset.sum_range_succ, ← ih, List.range_succ, List.flatMap_append]
    simp

/-- Moving the head of piece `x` to the front of piece `y` permutes the concatenation. -/
theorem flatMap_range_move (n : Nat) (f g : Nat → List Int) (x y : Nat)
    (hx : x < n) (hy : y < n) (hxy : x ≠ y) (a : Int) (r : List Int)
    (hfx : f x = a :: r) (hgx : g x = r) (hgy : g y = a :: f y)
    (hrest : ∀ j, j ≠ x → j ≠ y → g j = f j) :
    ((List.range n).flatMap g).Perm ((List.range n).flatMap f) := by
  apply Multiset.coe_eq_coe.mp
  rw [coe_flatMap_range, coe_flatMap_range]
  apply sum_eq_of_move (Finset.range n) _ _ x y (Finset.mem_range.mpr hx)
    (Finset.mem_range.mpr hy) hxy
  · rw [hfx, hgx, hgy, ← Multiset.cons_coe, ← Multiset.cons_coe, Multiset.add_cons,
      Multiset.cons_add]
  · intro j h1 h2
    rw [hrest j h1 h2]

/-- The scan of `vote_next_candidate` never moves the cursor backwards. -/
theorem vote_next_scan_mono (MAX_CANDIDATES : Int) (status : Int → cand_status)
    (order : Int → Int) (fuel : Nat) (pos c p : Int)
    (h : vote_next_scan MAX_CANDIDATES status order fuel pos = .ok (c, p)) : pos ≤ p := by
  induction fuel generalizing pos with
  | zero => simp [vote_next_scan] at h
  | succ n ih =>
    unfold vote_next_scan at h
    dsimp only at h
    split_ifs at h
    all_goals first
      | exact le_trans (by omega) (ih (pos + 1) h)
      | (simp only [Except.ok.injEq, Prod.mk.injEq] at h; omega)

/-- The function `vote_next_candidate` changes nothing of the vote but the cursor, which it
never moves backwards. -/
theorem vote_next_candidate_same_vote (MAX_CANDIDATES : Int) (vote vote' : vote_t)
    (status : Int → cand_status) (c : Int)
    (h : vote_next_candidate MAX_CANDIDATES vote status = .ok (c, vote')) :
    vote'.id = vote.id ∧ vote'.candidate_order = vote.candidate_order ∧
      vote.pos ≤ vote'.pos := by
  unfold vote_next_candidate at h
  split at h
  · simp at h
  · rename_i c' p' hs
    simp only [Except.ok.injEq, Prod.mk.injEq] at h
    rw [← h.2]
    exact ⟨rfl, rfl, vote_next_scan_mono _ _ _ _ _ _ _ hs⟩

/-- Shape of a returning `tally_transfer_first_vote`: the invalid list and its count are not
touched, and either no list changes, or the first vote of candidate `X` (same id and
preferences, cursor moved forward) goes to the front of the list of `Y`, where `Y` is `X`
itself or an Active candidate. -/
theorem tally_transfer_first_vote_shape (MAX_CANDIDATES : Int) (tally t' : tally_t) (X : Int)
    (h : tally_transfer_first_vote MAX_CANDIDATES tally X = .ok t') :
    t'.invalid_vote_count = tally.invalid_vote_count ∧
    t'.invalid_votes = tally.invalid_votes ∧
    (t' = tally ∨
      ∃ v rest v' Y, 0 ≤ X ∧ X < tally.candidate_count ∧
        tally.candidate_votes X = v :: rest ∧
        v'.id = v.id ∧ v'.candidate_order = v.candidate_order ∧ v.pos < v'.pos ∧
        (Y = X ∨ (0 ≤ Y ∧ tally.candidate_status Y = .CAND_ACTIVE)) ∧
        t'.candidate_votes =
          arr_set (arr_set tally.candidate_votes X rest) Y
            (v' :: arr_set tally.candidate_votes X rest Y)) := by
  unfold tally_transfer_first_vote at h
  split_ifs at h with h1 h2
  · simp only [Except.ok.injEq] at h
    subst h
    exact ⟨rfl, rfl, Or.inl rfl⟩
  · split at h
    · simp only [Except.ok.injEq] at h
      subst h
      exact ⟨rfl, rfl, Or.inl rfl⟩
    · rename_i v rest hb
      dsimp only at h
      split at h
      · simp at h
      · rename_i c v' hn
        have hact := vote_next_candidate_active _ _ _ _ _ hn
        obtain ⟨e1, e2, e3⟩ := vote_next_candidate_same_vote _ _ _ _ _ hn
        dsimp only at e1 e2 e3
        split_ifs at h with h3 h4
        · simp only [Except.ok.injEq] at h
          subst h
          exact ⟨rfl, rfl, Or.inr ⟨v, rest, v', X, h2.1, by omega, hb, e1, e2, by omega,
            Or.inl rfl, rfl⟩⟩
        · simp only [Except.ok.injEq] at h
          subst h
          have hca : tally.candidate_status c = .CAND_ACTIVE := by
            rcases hact with hh | hh
            · exact absurd hh h3
            · exact hh
          exact ⟨rfl, rfl, Or.inr ⟨v, rest, v', c, h2.1, by omega, hb, e1, e2, by omega,
            Or.inr ⟨h4.1, hca⟩, rfl⟩⟩

/-- When no cell at or beyond `candidate_count` is Active, a returning
`tally_transfer_first_vote` permutes the ids held by the candidates. -/
theorem tally_transfer_first_vote_ids (MAX_CANDIDATES : Int) (tally t' : tally_t) (X : Int)
    (h : tally_transfer_first_vote MAX_CANDIDATES tally X = .ok t')
    (hout : ∀ j, tally.candidate_count ≤ j → tally.candidate_status j ≠ .CAND_ACTIVE) :
    (candidate_ballot_ids t').Perm (candidate_ballot_ids tally) := by
  obtain ⟨_, hcount, _, _⟩ := tally_transfer_first_vote_frame _ _ _ _ h
  obtain ⟨_, _, hshape⟩ := tally_transfer_first_vote_shape _ _ _ _ h
  rcases hshape with hsame | ⟨v, rest, v', Y, hX0, hXc, hb, hid, _, _, hY, hvotes⟩
  · rw [hsame]
  · unfold candidate_ballot_ids
    rw [hcount, hvotes]
    have hxX : ((X.toNat : Nat) : Int) = X := Int.toNat_of_nonneg hX0
    rcases hY with hYX | ⟨hY0, hYa⟩
    · subst hYX
      have hfun : (fun (j : Nat) =>
          (arr_set (arr_set tally.candidate_votes Y rest) Y
            (v' :: arr_set tally.candidate_votes Y rest Y) (j : Int)).map (fun v => v.id)) =
          (fun (j : Nat) => (tally.candidate_votes (j : Int)).map (fun v => v.id)) := by
        funext j
        by_cases hj : (j : Int) = Y
        · rw [hj, arr_set_same, arr_set_same, hb, List.map_cons, List.map_cons, hid]
        · rw [arr_set_other _ _ _ _ hj, arr_set_other _ _ _ _ hj]
      rw [hfun]
    · by_cases hYX : Y = X
      · subst hYX
        have hfun : (fun (j : Nat) =>
            (arr_set (arr_set tally.candidate_votes Y rest) Y
              (v' :: arr_set tally.candidate_votes Y rest Y) (j : Int)).map (fun v => v.id)) =
            (fun (j : Nat) => (tally.candidate_votes (j : Int)).map (fun v => v.id)) := by
          funext j
          by_cases hj : (j : Int) = Y
          · rw [hj, arr_set_same, arr_set_same, hb, List.map_cons, List.map_cons, hid]
          · rw [arr_set_other _ _ _ _ hj, arr_set_other _ _ _ _ hj]
        rw [hfun]
      · have hYc : Y < tally.candidate_count := by
          by_contra hh
          exact hout Y (by omega) hYa
        have hyY : ((Y.toNat : Nat) : Int) = Y := Int.toNat_of_nonneg hY0
        apply flatMap_range_move tally.candidate_count.toNat _ _ X.toNat Y.toNat
          (by omega) (by omega) (by omega) v.id (rest.map (fun v => v.id))
        · dsimp only
          rw [hxX, hb, List.map_cons]
        · dsimp only
          rw [hxX, arr_set_other _ _ _ _ (Ne.symm hYX), arr_set_same]
        · dsimp only
          rw [hyY, arr_set_same, arr_set_other _ _ _ _ hYX, List.map_cons, hid]
        · intro j hj1 hj2
          dsimp only
          have h1 : (j : Int) ≠ X := by omega
          have h2 : (j : Int) ≠ Y := by omega
          rw [arr_set_other _ _ _ _ h2, arr_set_other _ _ _ _ h1]

/-- The sum of the list lengths is the number of ids held by the candidates. -/
theorem bucket_total_eq_length (tally : tally_t) :
    bucket_total tally = (candidate_ballot_ids tally).length := by
  unfold bucket_total candidate_ballot_ids
  rw [List.length_flatMap]
  congr 1
  apply List.map_congr_left
  intro j _
  simp

/-- Cells of `arr_of` beyond the listed ones hold the default. -/
theorem arr_of_default {α : Type} (l : List α) (d : α) (j : Int) (h : (l.length : Int) ≤ j) :
    arr_of l d j = d := by
  unfold arr_of
  split_ifs
  · rfl
  · exact List.getD_eq_default _ _ (by omega)

/-- The drain loop, when it returns, permutes the ids held by the candidates and leaves the
invalid list and its count alone. -/
theorem drain_votes_ids (MAX_CANDIDATES : Int) (fuel : Nat) (tally t' : tally_t) (i : Int)
    (h : drain_votes MAX_CANDIDATES fuel tally i = .ok t')
    (hout : ∀ j, tally.candidate_count ≤ j → tally.candidate_status j ≠ .CAND_ACTIVE) :
    (candidate_ballot_ids t').Perm (candidate_ballot_ids tally) ∧
    t'.invalid_vote_count = tally.invalid_vote_count ∧
    t'.invalid_votes = tally.invalid_votes := by
  induction fuel generalizing tally with
  | zero =>
    unfold drain_votes at h
    split at h
    · simp only [Except.ok.injEq] at h
      subst h
      exact ⟨List.Perm.refl _, rfl, rfl⟩
    · simp at h
  | succ n ih =>
    unfold drain_votes at h
    split at h
    · simp only [Except.ok.injEq] at h
      subst h
      exact ⟨List.Perm.refl _, rfl, rfl⟩
    · split at h
      · simp at h
      · rename_i t1 ht
        obtain ⟨a1, a2, _, _⟩ := tally_transfer_first_vote_frame _ _ _ _ ht
        obtain ⟨b1, b2, _⟩ := tally_transfer_first_vote_shape _ _ _ _ ht
        have hp := tally_transfer_first_vote_ids _ _ _ _ ht hout
        obtain ⟨c1, c2, c3⟩ := ih t1 h (by rw [a1, a2]; exact hout)
        exact ⟨c1.trans hp, c2.trans b1, c3.trans b2⟩

/-- The `for` loop of `tally_drop_minvote_candidates`, when it returns, permutes the ids held
by the candidates, leaves the invalid list and its count alone, and makes no cell Active. -/
theorem drop_loop_ids (MAX_CANDIDATES : Int) (fuel n : Nat) (i : Int) (tally t' : tally_t)
    (h : drop_loop MAX_CANDIDATES fuel n i tally = .ok t')
    (hout : ∀ j, tally.candidate_count ≤ j → tally.candidate_status j ≠ .CAND_ACTIVE) :
    (candidate_ballot_ids t').Perm (candidate_ballot_ids tally) ∧
    t'.invalid_vote_count = tally.invalid_vote_count ∧
    t'.invalid_votes = tally.invalid_votes ∧
    (∀ j, t'.candidate_status j = .CAND_ACTIVE → tally.candidate_status j = .CAND_ACTIVE) := by
  induction n generalizing i tally with
  | zero =>
    simp only [drop_loop, Except.ok.injEq] at h
    subst h
    exact ⟨List.Perm.refl _, rfl, rfl, fun _ hj => hj⟩
  | succ n ih =>
    unfold drop_loop at h
    split_ifs at h with hb hm
    · split at h
      · simp at h
      · rename_i t1 hd
        obtain ⟨_, d1, d2, _, _⟩ := drain_votes_spec _ _ _ _ _ hd
        obtain ⟨e1, e2, e3⟩ := drain_votes_ids _ _ _ _ _ hd hout
        have hact : ∀ j, arr_set t1.candidate_status i .CAND_DROPPED j = .CAND_ACTIVE →
            tally.candidate_status j = .CAND_ACTIVE := by
          intro j hj
          by_cases hji : j = i
          · rw [hji, arr_set_same] at hj
            exact absurd hj (by decide)
          · rw [arr_set_other _ _ _ _ hji, d1] at hj
            exact hj
        obtain ⟨c1, c2, c3, c4⟩ := ih (i + 1) _ h
          (fun j hj hh => hout j (by rw [← d2]; exact hj) (hact j hh))
        exact ⟨c1.trans e1, c2.trans e2, c3.trans e3, fun j hj => hact j (c4 j hj)⟩
    · exact ih (i + 1) _ h hout

/-- One iteration of the round loop keeps the ids held by the candidates (up to order), the
invalid list and its count, the candidate count, and makes no cell Active. -/
theorem rounds_state_ids (MAX_CANDIDATES : Int) (fuel n : Nat) (tally t' : tally_t)
    (h : rounds_state MAX_CANDIDATES fuel n tally = .ok t')
    (hout : ∀ j, tally.candidate_count ≤ j → tally.candidate_status j ≠ .CAND_ACTIVE) :
    (candidate_ballot_ids t').Perm (candidate_ballot_ids tally) ∧
    t'.invalid_vote_count = tally.invalid_vote_count ∧
    t'.invalid_votes = tally.invalid_votes ∧
    t'.candidate_count = tally.candidate_count ∧
    (∀ j, t'.candidate_status j = .CAND_ACTIVE → tally.candidate_status j = .CAND_ACTIVE) := by
  induction n generalizing tally with
  | zero =>
    simp only [rounds_state, Except.ok.injEq] at h
    subst h
    exact ⟨List.Perm.refl _, rfl, rfl, rfl, fun _ hj => hj⟩
  | succ n ih =>
    unfold rounds_state at h
    split at h
    · simp at h
    · rename_i t1 h1
      split at h
      · simp at h
      · rename_i t2 h2
        unfold tally_drop_minvote_candidates at h1
        obtain ⟨a1, a2, a3, a4⟩ := drop_loop_ids _ _ _ _ _ _ h1 hout
        obtain ⟨a5, _⟩ := drop_loop_spec _ _ _ _ _ _ h1
        obtain ⟨b1, b2, b3, b4, b5, b6⟩ := tally_set_minvote_candidates_frame _ _ _ h2
        have hact : ∀ j, t2.candidate_status j = .CAND_ACTIVE →
            tally.candidate_status j = .CAND_ACTIVE := by
          intro j hj
          rcases b6 j with hh | hh
          · exact a4 j (by rw [← hh]; exact hj)
          · rw [hh.2.2.2] at hj
            exact absurd hj (by decide)
        have hids : candidate_ballot_ids t2 = candidate_ballot_ids t1 := by
          unfold candidate_ballot_ids
          rw [b1, b3]
        obtain ⟨c1, c2, c3, c4, c5⟩ := ih t2 h
          (fun j hj hh => hout j (by rw [← a5, ← b1]; exact hj) (hact j hh))
        exact ⟨c1.trans (hids ▸ a1), c2.trans (b4.trans a2), c3.trans (b5.trans a3),
          c4.trans (b1.trans a5), fun j hj => hact j (c5 j hj)⟩

/-- A returning `tally_election` ends in the state reached by its rounds: if it stops in round
`r`, having started at round number `round`, the final tally is `rounds_state` after
`r - round + 1` iterations. -/
theorem election_rounds_state (MAX_CANDIDATES : Int) (fuel k round : Nat)
    (tally t' : tally_t) (c : tally_cond) (r : Nat)
    (h : election_rounds MAX_CANDIDATES fuel k round tally = .ok (t', c, r)) :
    ∃ n, rounds_state MAX_CANDIDATES fuel (n + 1) tally = .ok t' ∧ r = round + n := by
  induction k generalizing round tally with
  | zero => simp [election_rounds] at h
  | succ k ih =>
    unfold election_rounds at h
    split at h
    · simp at h
    · rename_i t1 h1
      split at h
      · simp at h
      · rename_i t2 h2
        split at h
        · simp at h
        · rename_i cond h3
          split_ifs at h with hc
          · simp only [Except.ok.injEq, Prod.mk.injEq] at h
            refine ⟨0, ?_, by omega⟩
            unfold rounds_state
            rw [h1]
            dsimp only
            rw [h2]
            dsimp only
            rw [← h.1]
            rfl
          · obtain ⟨n, hn, hr⟩ := ih (round + 1) t2 h
            refine ⟨n + 1, ?_, by omega⟩
            unfold rounds_state
            rw [h1]
            dsimp only
            rw [h2]
            exact hn

/-- For a tally in which no cell at or beyond `candidate_count` is Active and whose list
lengths plus `invalid_vote_count` add up to `k`, the same sum is `k` after any number of
rounds of the loop of `tally_election`, in the snapshot taken inside each round (after the
MinVotes candidates are dropped), and in the final tally when `tally_election` returns. -/
theorem partition_preserved (MAX_CANDIDATES : Int) (fuel : Nat) (tally : tally_t)
    (k : Int)
    (hout : ∀ j, tally.candidate_count ≤ j → tally.candidate_status j ≠ .CAND_ACTIVE)
    (hk : (bucket_total tally : Int) + tally.invalid_vote_count = k) :
    (∀ n t', rounds_state MAX_CANDIDATES fuel n tally = .ok t' →
      (bucket_total t' : Int) + t'.invalid_vote_count = k) ∧
    (∀ n t1 t2, rounds_state MAX_CANDIDATES fuel n tally = .ok t1 →
      tally_drop_minvote_candidates MAX_CANDIDATES fuel t1 = .ok t2 →
      (bucket_total t2 : Int) + t2.invalid_vote_count = k) ∧
    (∀ t' c r, tally_election MAX_CANDIDATES fuel tally = .ok (t', c, r) →
      (bucket_total t' : Int) + t'.invalid_vote_count = k) := by
  have hrounds : ∀ n t', rounds_state MAX_CANDIDATES fuel n tally = .ok t' →
      (bucket_total t' : Int) + t'.invalid_vote_count = k := by
    intro n t' h
    obtain ⟨a1, a2, _⟩ := rounds_state_ids _ _ _ _ _ h hout
    rw [bucket_total_eq_length, a1.length_eq, ← bucket_total_eq_length, a2]
    exact hk
  refine ⟨hrounds, ?_, ?_⟩
  · intro n t1 t2 h1 h2
    obtain ⟨_, _, _, a4, a5⟩ := rounds_state_ids _ _ _ _ _ h1 hout
    unfold tally_drop_minvote_candidates at h2
    obtain ⟨b1, b2, _⟩ := drop_loop_ids _ _ _ _ _ _ h2
      (fun j hj hh => hout j (by rw [← a4]; exact hj) (a5 j hh))
    rw [bucket_total_eq_length, b1.length_eq, ← bucket_total_eq_length, b2]
    exact hrounds n t1 h1
  · intro t' c r h
    unfold tally_election at h
    obtain ⟨n, hn, _⟩ := election_rounds_state _ _ _ _ _ _ _ _ h
    exact hrounds (n + 1) t' hn

/-- C13: `tally_transfer_first_vote` neither loses nor duplicates a ballot.  On a tally in
which every ballot id occurs exactly once over all the lists (candidates and invalid) and
every cell at or beyond `candidate_count` is Dropped, the call never runs out of fuel, and
when it returns the ids are the same up to order, so each id still occurs exactly once and
the number of ballots over all the lists is unchanged. -/
theorem tally_transfer_first_vote_conserves (MAX_CANDIDATES : Int) (tally : tally_t) (X : Int)
    (hnodup : (ballot_ids tally).Nodup)
    (hdropped : ∀ j, tally.candidate_count ≤ j → tally.candidate_status j = .CAND_DROPPED) :
    tally_transfer_first_vote MAX_CANDIDATES tally X ≠ .error .timeout ∧
    ∀ t', tally_transfer_first_vote MAX_CANDIDATES tally X = .ok t' →
      (ballot_ids t').Nodup ∧
      (ballot_ids t').Perm (ballot_ids tally) ∧
      bucket_total t' + t'.invalid_votes.length =
        bucket_total tally + tally.invalid_votes.length := by
  refine ⟨tally_transfer_first_vote_no_timeout _ _ _, fun t' h => ?_⟩
  have hout : ∀ j, tally.candidate_count ≤ j → tally.candidate_status j ≠ .CAND_ACTIVE := by
    intro j hj
    rw [hdropped j hj]
    decide
  have hp := tally_transfer_first_vote_ids _ _ _ _ h hout
  obtain ⟨_, hinv, _⟩ := tally_transfer_first_vote_shape _ _ _ _ h
  have hperm : (ballot_ids t').Perm (ballot_ids tally) := by
    unfold ballot_ids
    rw [hinv]
    exact hp.append_right _
  refine ⟨hperm.nodup_iff.mpr hnodup, hperm, ?_⟩
  rw [bucket_total_eq_length, bucket_total_eq_length, hp.length_eq, hinv]

/-- Witness for C13: the five ballot ids of `truncated_tally` are distinct, and they still
are after the first vote of candidate 0 is transferred. -/
theorem tally_transfer_first_vote_conserves_witness :
    (ballot_ids truncated_tally).Nodup ∧
    ∃ t', tally_transfer_first_vote 8 truncated_tally 0 = .ok t' ∧
      (ballot_ids t').Nodup ∧ bucket_total t' + t'.invalid_votes.length = 5 := by
  have hnodup : (ballot_ids truncated_tally).Nodup := by decide
  have hdropped : ∀ j, truncated_tally.candidate_count ≤ j →
      truncated_tally.candidate_status j = .CAND_DROPPED := by
    intro j hj
    have h3 : (3 : Int) ≤ j := hj
    exact arr_of_default _ _ j (by simpa using h3)
  have h := (tally_transfer_first_vote_conserves 8 truncated_tally 0 hnodup hdropped).2 _ rfl
  exact ⟨hnodup, _, rfl, h.1, h.2.2⟩

/-- Moves along `Active → MinVotes → Dropped` compose. -/
theorem status_moved_trans (a b c : cand_status) (h1 : status_moved a b)
    (h2 : status_moved b c) : status_moved a c := by
  unfold status_moved at *
  rcases h1 with h1 | ⟨h1, h1' | h1'⟩ | ⟨h1, h1'⟩ <;>
    rcases h2 with h2 | ⟨h2, h2' | h2'⟩ | ⟨h2, h2'⟩ <;> simp_all

/-- Statuses after `tally_drop_minvote_candidates`: each one is what it was, or went from
MinVotes to Dropped. -/
theorem tally_drop_minvote_candidates_status (MAX_CANDIDATES : Int) (fuel : Nat)
    (tally t' : tally_t)
    (h : tally_drop_minvote_candidates MAX_CANDIDATES fuel tally = .ok t') (j : Int) :
    t'.candidate_status j = tally.candidate_status j ∨
      (tally.candidate_status j = .CAND_MINVOTES ∧ t'.candidate_status j = .CAND_DROPPED) := by
  unfold tally_drop_minvote_candidates at h
  obtain ⟨_, _, a3, a4, _⟩ := drop_loop_spec _ _ _ _ _ _ h
  by_cases hj : 0 ≤ j ∧ j < 0 + (tally.candidate_count.toNat : Int) ∧
      tally.candidate_status j = .CAND_MINVOTES
  · exact Or.inr ⟨hj.2.2, (a3 j hj.1 hj.2.1 hj.2.2).1⟩
  · exact Or.inl (a4 j hj)

/-- Statuses after any number of rounds have only moved along
`Active → MinVotes → Dropped`. -/
theorem rounds_state_status (MAX_CANDIDATES : Int) (fuel n : Nat) (tally t' : tally_t)
    (h : rounds_state MAX_CANDIDATES fuel n tally = .ok t') (j : Int) :
    status_moved (tally.candidate_status j) (t'.candidate_status j) := by
  induction n generalizing tally with
  | zero =>
    simp only [rounds_state, Except.ok.injEq] at h
    subst h
    exact Or.inl rfl
  | succ n ih =>
    unfold rounds_state at h
    split at h
    · simp at h
    · rename_i t1 h1
      split at h
      · simp at h
      · rename_i t2 h2
        have s1 : status_moved (tally.candidate_status j) (t1.candidate_status j) := by
          rcases tally_drop_minvote_candidates_status _ _ _ _ h1 j with hh | hh
          · exact Or.inl hh
          · exact Or.inr (Or.inr hh)
        have s2 : status_moved (t1.candidate_status j) (t2.candidate_status j) := by
          obtain ⟨_, _, _, _, _, b6⟩ := tally_set_minvote_candidates_frame _ _ _ h2
          rcases b6 j with hh | hh
          · exact Or.inl hh
          · exact Or.inr (Or.inl ⟨hh.2.2.1, Or.inl hh.2.2.2⟩)
        exact status_moved_trans _ _ _ (status_moved_trans _ _ _ s1 s2) (ih t2 h)

/-- C14: monotonic elimination.  Whenever `tally_set_minvote_candidates`,
`tally_drop_minvote_candidates` or `tally_transfer_first_vote` returns, and after any number
of rounds of `tally_election` as well as in its final tally, every status is what it was or
has moved along `Active → MinVotes → Dropped`; in particular a candidate that was Dropped is
still Dropped. -/
theorem dropped_stays_dropped (MAX_CANDIDATES : Int) (fuel : Nat) (tally : tally_t) :
    (∀ t', tally_set_minvote_candidates MAX_CANDIDATES tally = .ok t' →
      ∀ j, status_moved (tally.candidate_status j) (t'.candidate_status j) ∧
        (tally.candidate_status j = .CAND_DROPPED → t'.candidate_status j = .CAND_DROPPED)) ∧
    (∀ t', tally_drop_minvote_candidates MAX_CANDIDATES fuel tally = .ok t' →
      ∀ j, status_moved (tally.candidate_status j) (t'.candidate_status j) ∧
        (tally.candidate_status j = .CAND_DROPPED → t'.candidate_status j = .CAND_DROPPED)) ∧
    (∀ X t', tally_transfer_first_vote MAX_CANDIDATES tally X = .ok t' →
      ∀ j, status_moved (tally.candidate_status j) (t'.candidate_status j) ∧
        (tally.candidate_status j = .CAND_DROPPED → t'.candidate_status j = .CAND_DROPPED)) ∧
    (∀ n t', rounds_state MAX_CANDIDATES fuel n tally = .ok t' →
      ∀ j, status_moved (tally.candidate_status j) (t'.candidate_status j) ∧
        (tally.candidate_status j = .CAND_DROPPED → t'.candidate_status j = .CAND_DROPPED)) ∧
    (∀ t' c r, tally_election MAX_CANDIDATES fuel tally = .ok (t', c, r) →
      ∀ j, status_moved (tally.candidate_status j) (t'.candidate_status j) ∧
        (tally.candidate_status j = .CAND_DROPPED → t'.candidate_status j = .CAND_DROPPED)) := by
  have key : ∀ s s' : cand_status, status_moved s s' →
      status_moved s s' ∧ (s = .CAND_DROPPED → s' = .CAND_DROPPED) := by
    intro s s' h
    refine ⟨h, fun hd => ?_⟩
    unfold status_moved at h
    rcases h with h | ⟨h, _⟩ | ⟨h, _⟩
    · rw [h, hd]
    · rw [hd] at h; exact absurd h (by decide)
    · rw [hd] at h; exact absurd h (by decide)
  refine ⟨?_, ?_, ?_, ?_, ?_⟩
  · intro t' h j
    apply key
    obtain ⟨_, _, _, _, _, b6⟩ := tally_set_minvote_candidates_frame _ _ _ h
    rcases b6 j with hh | hh
    · exact Or.inl hh
    · exact Or.inr (Or.inl ⟨hh.2.2.1, Or.inl hh.2.2.2⟩)
  · intro t' h j
    apply key
    rcases tally_drop_minvote_candidates_status _ _ _ _ h j with hh | hh
    · exact Or.inl hh
    · exact Or.inr (Or.inr hh)
  · intro X t' h j
    apply key
    obtain ⟨a1, _⟩ := tally_transfer_first_vote_frame _ _ _ _ h
    exact Or.inl (by rw [a1])
  · intro n t' h j
    exact key _ _ (rounds_state_status _ _ _ _ _ h j)
  · intro t' c r h j
    unfold tally_election at h
    obtain ⟨n, hn, _⟩ := election_rounds_state _ _ _ _ _ _ _ _ h
    exact key _ _ (rounds_state_status _ _ _ _ _ hn j)

/-- Witness for C14: in `one_dropped_tally` candidate 1 is Dropped; `tally_election` returns on
that tally and candidate 1 is Dropped in the final tally. -/
theorem dropped_stays_dropped_witness :
    one_dropped_tally.candidate_status 1 = .CAND_DROPPED ∧
    ∃ t' c r, tally_election 8 5 one_dropped_tally = .ok (t', c, r) ∧
      t'.candidate_status 1 = .CAND_DROPPED := by
  have hr : ∃ x, tally_election 8 5 one_dropped_tally = .ok x := ⟨_, rfl⟩
  obtain ⟨⟨t', c, r⟩, ht⟩ := hr
  exact ⟨rfl, t', c, r, ht,
    ((dropped_stays_dropped 8 5 one_dropped_tally).2.2.2.2 t' c r ht 1).2 rfl⟩

/-- C17: Scenario A.  With at least four array cells and at least two units of fuel, the
tally read from the six ballots shows, in the round-1 snapshot, counts 2, 2, 2, 0 and four
Active candidates; round 1 marks candidate 3 (Viktor) alone as MinVotes; in the round-2
snapshot Viktor is Dropped and every list holds the same votes with the same cursors; and
`tally_election` ends in round 2 with condition Tie, candidates 0, 1 and 2 being MinVotes. -/
theorem scenario_a_run (MAX_CANDIDATES : Int) (fuel : Nat) (hmax : 4 ≤ MAX_CANDIDATES)
    (hfuel : 2 ≤ fuel) :
    (scenario_a_snapshot1 MAX_CANDIDATES fuel).map counts4 = .ok [2, 2, 2, 0] ∧
    (scenario_a_snapshot1 MAX_CANDIDATES fuel).map statuses4 =
      .ok [.CAND_ACTIVE, .CAND_ACTIVE, .CAND_ACTIVE, .CAND_ACTIVE] ∧
    (scenario_a_marked1 MAX_CANDIDATES fuel).map statuses4 =
      .ok [.CAND_ACTIVE, .CAND_ACTIVE, .CAND_ACTIVE, .CAND_MINVOTES] ∧
    (scenario_a_marked1 MAX_CANDIDATES fuel).map votes4 =
      .ok [[(6, 0), (1, 0)], [(5, 0), (2, 0)], [(4, 0), (3, 0)], []] ∧
    (scenario_a_snapshot2 MAX_CANDIDATES fuel).map statuses4 =
      .ok [.CAND_ACTIVE, .CAND_ACTIVE, .CAND_ACTIVE, .CAND_DROPPED] ∧
    (scenario_a_snapshot2 MAX_CANDIDATES fuel).map votes4 =
      .ok [[(6, 0), (1, 0)], [(5, 0), (2, 0)], [(4, 0), (3, 0)], []] ∧
    (scenario_a_snapshot2 MAX_CANDIDATES fuel).map counts4 = .ok [2, 2, 2, 0] ∧
    (scenario_a_election MAX_CANDIDATES fuel).map (fun r => (r.2.1, r.2.2, statuses4 r.1)) =
      .ok (.TALLY_TIE, 2, [.CAND_MINVOTES, .CAND_MINVOTES, .CAND_MINVOTES, .CAND_DROPPED]) := by
  obtain ⟨n, rfl⟩ : ∃ n, fuel = n + 2 := ⟨fuel - 2, by omega⟩
  have h0 : (0 : Int) < MAX_CANDIDATES := by omega
  have h1 : (1 : Int) < MAX_CANDIDATES := by omega
  have h2 : (2 : Int) < MAX_CANDIDATES := by omega
  have h3 : (3 : Int) < MAX_CANDIDATES := by omega
  have h4 : ¬ (4 : Int) > MAX_CANDIDATES := by omega
  refine ⟨?_, ?_, ?_, ?_, ?_, ?_, ?_, ?_⟩
  all_goals
    simp [scenario_a_election, scenario_a_snapshot2, scenario_a_marked1, scenario_a_snapshot1,
      bind, Except.bind, Except.map, counts4, statuses4, votes4,
      tally_election, election_rounds, tally_condition, tally_condition_count,
      tally_set_minvote_candidates, minvote_scan, minvote_mark,
      tally_drop_minvote_candidates, drop_loop, drain_votes,
      tally_from_file, read_votes, tally_add_vote, scenario_a_ballots, mk_vote, in_bounds,
      arr_of, arr_set, h0, h1, h2, h3, h4]

/-- Witness for C17 with eight array cells and two units of fuel: the election ends in round
2 with a Tie. -/
theorem scenario_a_run_witness :
    (4 : Int) ≤ 8 ∧
    (scenario_a_election 8 2).map (fun r => (r.2.1, r.2.2, statuses4 r.1)) =
      .ok (.TALLY_TIE, 2, [.CAND_MINVOTES, .CAND_MINVOTES, .CAND_MINVOTES, .CAND_DROPPED]) :=
  ⟨by decide, (scenario_a_run 8 2 (by decide) (by decide)).2.2.2.2.2.2.2⟩

/-- The counting loop of `tally_condition` takes the `default:` branch when a status in its
range is none of Active, MinVotes, Dropped. -/
theorem tally_condition_count_other (MAX_CANDIDATES : Int) (tally : tally_t) (n : Nat)
    (i a m j : Int) (r : Int) (hi : 0 ≤ i) (hj1 : i ≤ j) (hj2 : j < i + n)
    (hjm : j < MAX_CANDIDATES) (hs : tally.candidate_status j = .other r) :
    tally_condition_count MAX_CANDIDATES tally n i a m = .ok none := by
  induction n generalizing i a m with
  | zero => simp at hj2; omega
  | succ n ih =>
    have hb : in_bounds MAX_CANDIDATES i := ⟨hi, by omega⟩
    unfold tally_condition_count
    rw [if_neg (not_not.mpr hb)]
    have hstep : tally.candidate_status i ≠ .other r → i + 1 ≤ j := by
      intro hne
      have : j ≠ i := fun e => hne (e ▸ hs)
      omega
    cases hsi : tally.candidate_status i with
    | CAND_ACTIVE =>
      exact ih (i + 1) _ _ (by omega) (hstep (by rw [hsi]; simp))
        (by push_cast at hj2; omega)
    | CAND_MINVOTES =>
      exact ih (i + 1) _ _ (by omega) (hstep (by rw [hsi]; simp))
        (by push_cast at hj2; omega)
    | CAND_DROPPED =>
      exact ih (i + 1) _ _ (by omega) (hstep (by rw [hsi]; simp))
        (by push_cast at hj2; omega)
    | other r' => rfl

/-- C15: when the status of one of the first `candidate_count` candidates (at an index inside
the array) is none of Active, MinVotes, Dropped, `tally_condition` returns Error, whatever the
other statuses are. -/
theorem tally_condition_bad_status (MAX_CANDIDATES : Int) (tally : tally_t) (j r : Int)
    (hj0 : 0 ≤ j) (hjc : j < tally.candidate_count) (hjm : j < MAX_CANDIDATES)
    (hs : tally.candidate_status j = .other r) :
    tally_condition MAX_CANDIDATES tally = .ok .TALLY_ERROR := by
  unfold tally_condition
  rw [tally_condition_count_other MAX_CANDIDATES tally tally.candidate_count.toNat 0 0 0 j r
    (le_refl _) hj0 (by omega) hjm hs]

/-- Witness for C15: in `bad_status_tally` exactly one candidate is Active, and the condition
is Error, not Winner. -/
theorem tally_condition_bad_status_witness :
    num_with_status bad_status_tally .CAND_ACTIVE = 1 ∧
    tally_condition 8 bad_status_tally = .ok .TALLY_ERROR :=
  ⟨by decide, tally_condition_bad_status 8 bad_status_tally 1 63 (by decide) (by decide)
    (by decide) rfl⟩

/-- The scan of `vote_next_candidate` stops at position `k` with `NO_CANDIDATE` when `k` holds
the marker or a value of at least `MAX_CANDIDATES` and every position from the cursor up to
`k` holds an index of the status table whose status is not Active. -/
theorem vote_next_scan_stops (MAX_CANDIDATES : Int) (status : Int → cand_status)
    (order : Int → Int) (fuel : Nat) (pos k : Int)
    (hpos : 0 ≤ pos) (hk1 : pos ≤ k) (hk2 : k < MAX_CANDIDATES)
    (hfuel : (MAX_CANDIDATES - pos).toNat < fuel)
    (hstop : order k = NO_CANDIDATE ∨ order k ≥ MAX_CANDIDATES)
    (hskip : ∀ j, pos ≤ j → j < k →
      0 ≤ order j ∧ order j < MAX_CANDIDATES ∧ status (order j) ≠ .CAND_ACTIVE) :
    vote_next_scan MAX_CANDIDATES status order fuel pos = .ok (NO_CANDIDATE, k) := by
  induction fuel generalizing pos with
  | zero => omega
  | succ n ih =>
    unfold vote_next_scan
    have h1 : pos < MAX_CANDIDATES := by omega
    rw [if_pos h1, if_neg (not_lt.mpr hpos)]
    dsimp only
    by_cases hpk : pos = k
    · subst hpk
      rw [if_pos hstop]
    · obtain ⟨a, b, c⟩ := hskip pos (le_refl _) (by omega)
      have h2 : ¬ (order pos = NO_CANDIDATE ∨ order pos ≥ MAX_CANDIDATES) := by
        unfold NO_CANDIDATE; omega
      rw [if_neg h2, if_neg (by omega), if_neg c]
      exact ih (pos + 1) (by omega) (by omega) (by omega)
        (fun j hj1 hj2 => hskip j (by omega) hj2)

/-- C16 (amended): `vote_next_candidate` returns `NO_CANDIDATE`, with the cursor left there,
as soon as the scan reaches the marker or a value of at least `MAX_CANDIDATES`, whatever the
later preferences are; the values it passes on the way are indices of the status table
(`0 .. MAX_CANDIDATES - 1`, the candidate count plays no part) whose status is not Active. -/
theorem vote_next_candidate_stops_at_marker_or_max (MAX_CANDIDATES : Int) (vote : vote_t)
    (status : Int → cand_status) (k : Int)
    (hpos : 0 ≤ vote.pos) (hk1 : vote.pos ≤ k) (hk2 : k < MAX_CANDIDATES)
    (hstop : vote.candidate_order k = NO_CANDIDATE ∨
      vote.candidate_order k ≥ MAX_CANDIDATES)
    (hskip : ∀ j, vote.pos ≤ j → j < k →
      0 ≤ vote.candidate_order j ∧ vote.candidate_order j < MAX_CANDIDATES ∧
        status (vote.candidate_order j) ≠ .CAND_ACTIVE) :
    vote_next_candidate MAX_CANDIDATES vote status =
      .ok (NO_CANDIDATE, { vote with pos := k }) := by
  unfold vote_next_candidate
  rw [vote_next_scan_stops MAX_CANDIDATES status vote.candidate_order _ vote.pos k hpos hk1 hk2
    (Nat.lt_succ_self _) hstop hskip]

/-- Witness for C16 (amended): with two candidates and the ballot `2 -1 0`, the value 2 is
looked up in the status table (Dropped) and passed, and the scan stops on the marker at
position 1 although candidate 0 at position 2 is Active. -/
theorem vote_next_candidate_stops_at_marker_or_max_witness :
    two_candidate_status 0 = .CAND_ACTIVE ∧
    vote_next_candidate 8 (mk_vote 1 [2, -1, 0]) two_candidate_status =
      .ok (NO_CANDIDATE, { mk_vote 1 [2, -1, 0] with pos := 1 }) :=
  ⟨rfl, vote_next_candidate_stops_at_marker_or_max 8 (mk_vote 1 [2, -1, 0])
    two_candidate_status 1 (by decide) (by decide) (by decide) (Or.inl rfl)
    (by
      intro j h1 h2
      have h3 : (0 : Int) ≤ j := h1
      have h4 : j = 0 := by omega
      subst h4
      decide)⟩

/-- C16 (counterexample): with two candidates and eight array cells, the ballot `2 0` has the
value 2 at its cursor, which is not a candidate of the election; `vote_next_candidate` reads
the status of cell 2 (Dropped), passes over it and returns candidate 0 with the cursor at
position 1, not `NO_CANDIDATE` with the cursor at position 0. -/
theorem vote_next_candidate_skips_value_beyond_count :
    ∃ v, vote_next_candidate 8 (mk_vote 1 [2, 0]) two_candidate_status = .ok (0, v) ∧
      v.pos = 1 ∧ (mk_vote 1 [2, 0]).candidate_order 0 = 2 :=
  ⟨_, rfl, rfl, rfl⟩

/-- C18 (amended): a MinVotes candidate is never a transfer destination.  When
`tally_transfer_first_vote` returns, every candidate other than the one transferred from
whose status is not Active keeps its vote list and its count; the same holds of the whole
drain loop of `tally_drop_minvote_candidates`. -/
theorem transfer_destination_is_active (MAX_CANDIDATES : Int) (tally : tally_t) (X : Int) :
    (∀ t', tally_transfer_first_vote MAX_CANDIDATES tally X = .ok t' →
      ∀ j, j ≠ X → tally.candidate_status j ≠ .CAND_ACTIVE →
        t'.candidate_votes j = tally.candidate_votes j ∧
        t'.candidate_vote_counts j = tally.candidate_vote_counts j) ∧
    (∀ fuel t', drain_votes MAX_CANDIDATES fuel tally X = .ok t' →
      ∀ j, j ≠ X → tally.candidate_status j ≠ .CAND_ACTIVE →
        t'.candidate_votes j = tally.candidate_votes j ∧
        t'.candidate_vote_counts j = tally.candidate_vote_counts j) := by
  refine ⟨?_, ?_⟩
  · intro t' h j hj hs
    obtain ⟨_, _, a3, a4⟩ := tally_transfer_first_vote_frame _ _ _ _ h
    have h1 := a4 j hj hs
    have h2 := a3 j
    rw [h1] at h2
    exact ⟨h1, by omega⟩
  · intro fuel t' h j hj hs
    obtain ⟨_, _, _, a3, a4⟩ := drain_votes_spec _ _ _ _ _ h
    have h1 := a4 j hj hs
    have h2 := a3 j
    rw [h1] at h2
    exact ⟨h1, by omega⟩

/-- Witness for C18 (amended): in `two_minvotes_tally` candidates 1 and 2 are MinVotes and the
vote of candidate 1 is `1 2 0`; draining candidate 1 leaves the list of candidate 2 as it
was and puts the vote, cursor 2, in front of the list of the Active candidate 0. -/
theorem transfer_destination_is_active_witness :
    two_minvotes_tally.candidate_status 2 = .CAND_MINVOTES ∧
    ∃ t', drain_votes 8 1 two_minvotes_tally 1 = .ok t' ∧
      t'.candidate_votes 2 = two_minvotes_tally.candidate_votes 2 ∧
      (t'.candidate_votes 0).map (fun v => (v.id, v.pos)) = [(3, 2), (2, 0), (1, 0)] := by
  have hr : ∃ t', drain_votes 8 1 two_minvotes_tally 1 = .ok t' := ⟨_, rfl⟩
  obtain ⟨t', ht⟩ := hr
  have h := ((transfer_destination_is_active 8 two_minvotes_tally 1).2 1 t' ht 2
    (by decide) (by decide)).1
  refine ⟨rfl, t', ht, h, ?_⟩
  have e : drain_votes 8 1 two_minvotes_tally 1 = .ok _ := rfl
  rw [e] at ht
  simp only [Except.ok.injEq] at ht
  rw [← ht]
  rfl

/-- C18 (counterexample): there is no tally and no transfer in which the vote list of a
MinVotes candidate other than the one transferred from changes; no ballot ever enters the
list of a candidate that is still MinVotes. -/
theorem no_transfer_into_minvotes :
    ¬ ∃ (MAX_CANDIDATES : Int) (tally t' : tally_t) (X j : Int),
      tally_transfer_first_vote MAX_CANDIDATES tally X = .ok t' ∧ j ≠ X ∧
      tally.candidate_status j = .CAND_MINVOTES ∧
      t'.candidate_votes j ≠ tally.candidate_votes j := by
  rintro ⟨MAX_CANDIDATES, tally, t', X, j, h, hj, hs, hne⟩
  obtain ⟨_, _, _, a4⟩ := tally_transfer_first_vote_frame _ _ _ _ h
  exact hne (a4 j hj (by rw [hs]; decide))

/-- C19 (what the code does): in `truncated_tally` the vote `2 -1 -1` of candidate 2 is put
back by the first `tally_transfer_first_vote` with its cursor on the marker at position 1;
the next `tally_transfer_first_vote`, as issued by the drain loop, moves that cursor on to
position 2. -/
theorem transfer_moves_cursor_past_marker :
    ∃ t1 t2, tally_transfer_first_vote 8 truncated_tally 2 = .ok t1 ∧
      (t1.candidate_votes 2).map (fun v => (v.id, v.pos, v.candidate_order v.pos)) =
        [(5, 1, NO_CANDIDATE)] ∧
      tally_transfer_first_vote 8 t1 2 = .ok t2 ∧
      (t2.candidate_votes 2).map (fun v => (v.id, v.pos)) = [(5, 2)] :=
  ⟨_, _, rfl, rfl, rfl, rfl⟩

/-- Running the scan of `vote_next_candidate` again from where it stopped gives the same
result. -/
theorem vote_next_scan_idempotent (MAX_CANDIDATES : Int) (status : Int → cand_status)
    (order : Int → Int) (fuel : Nat) (pos c p : Int)
    (h : vote_next_scan MAX_CANDIDATES status order fuel pos = .ok (c, p)) (m : Nat) :
    vote_next_scan MAX_CANDIDATES status order (m + 1) p = .ok (c, p) := by
  induction fuel generalizing pos with
  | zero => simp [vote_next_scan] at h
  | succ n ih =>
    unfold vote_next_scan at h
    dsimp only at h
    split_ifs at h with h1 h2 h3 h4 h5
    · simp only [Except.ok.injEq, Prod.mk.injEq] at h
      obtain ⟨hc, hp⟩ := h
      subst hc hp
      unfold vote_next_scan
      dsimp only
      rw [if_pos h1, if_neg h2, if_pos h3]
    · simp only [Except.ok.injEq, Prod.mk.injEq] at h
      obtain ⟨hc, hp⟩ := h
      subst hc hp
      unfold vote_next_scan
      dsimp only
      rw [if_pos h1, if_neg h2, if_neg h3, if_neg h4, if_pos h5]
    · exact ih (pos + 1) h
    · simp only [Except.ok.injEq, Prod.mk.injEq] at h
      obtain ⟨hc, hp⟩ := h
      subst hc hp
      unfold vote_next_scan
      rw [if_neg h1]

/-- C20: `vote_next_candidate` is idempotent for a fixed status table.  It never runs out of
fuel, and when a call returns candidate `c` and leaves the vote as `vote'`, a second call on
`vote'` returns `c` again and leaves `vote'` as it is. -/
theorem vote_next_candidate_idempotent (MAX_CANDIDATES : Int) (vote : vote_t)
    (status : Int → cand_status) :
    vote_next_candidate MAX_CANDIDATES vote status ≠ .error .timeout ∧
    ∀ c vote', vote_next_candidate MAX_CANDIDATES vote status = .ok (c, vote') →
      vote_next_candidate MAX_CANDIDATES vote' status = .ok (c, vote') := by
  refine ⟨vote_next_candidate_no_timeout _ _ _, fun c vote' h => ?_⟩
  unfold vote_next_candidate at h
  split at h
  · simp at h
  · rename_i c' p' hs
    simp only [Except.ok.injEq, Prod.mk.injEq] at h
    obtain ⟨hc, hv⟩ := h
    subst hc hv
    unfold vote_next_candidate
    dsimp only
    rw [vote_next_scan_idempotent _ _ _ _ _ _ _ hs]

/-- Witness for C20 on the example of the source comment: the first call returns candidate 3
with the cursor at position 2, and so does the second. -/
theorem vote_next_candidate_idempotent_witness :
    vote_next_candidate 8 doc_vote doc_status = .ok (3, { doc_vote with pos := 2 }) ∧
    vote_next_candidate 8 { doc_vote with pos := 2 } doc_status =
      .ok (3, { doc_vote with pos := 2 }) :=
  ⟨rfl, (vote_next_candidate_idempotent 8 doc_vote doc_status).2 3 _ rfl⟩

/-- A sum over a finite set in which one term grows by `a` grows by `a`. -/
theorem sum_eq_of_single {M : Type} [AddCommMonoid M] (s : Finset Nat) (F G : Nat → M)
    (x : Nat) (a : M) (hx : x ∈ s) (hG : G x = a + F x)
    (hrest : ∀ j, j ≠ x → G j = F j) :
    ∑ j in s, G j = a + ∑ j in s, F j := by
  rw [← Finset.add_sum_erase s G hx, ← Finset.add_sum_erase s F hx, hG, add_assoc]
  congr 2
  apply Finset.sum_congr rfl
  intro j hj
  simp only [Finset.mem_erase] at hj
  exact hrest j hj.1

/-- A returning `tally_add_vote` whose vote names one of the first `candidate_count`
candidates adds the id of the vote to the ids held by the candidates. -/
theorem tally_add_vote_ids (MAX_CANDIDATES : Int) (tally t' : tally_t) (vote : vote_t)
    (h : tally_add_vote MAX_CANDIDATES tally vote = .ok t')
    (hc : vote.candidate_order vote.pos < tally.candidate_count) :
    (candidate_ballot_ids t').Perm (vote.id :: candidate_ballot_ids tally) := by
  unfold tally_add_vote at h
  dsimp only at h
  split_ifs at h with h1 h2
  simp only [Except.ok.injEq] at h
  subst h
  unfold candidate_ballot_ids
  dsimp only
  have hcc : (((vote.candidate_order vote.pos).toNat : Nat) : Int) =
      vote.candidate_order vote.pos := Int.toNat_of_nonneg h2.1
  apply Multiset.coe_eq_coe.mp
  rw [coe_flatMap_range, ← Multiset.cons_coe, coe_flatMap_range, ← Multiset.singleton_add]
  apply sum_eq_of_single (Finset.range tally.candidate_count.toNat) _ _
    (vote.candidate_order vote.pos).toNat
  · exact Finset.mem_range.mpr (by omega)
  · rw [hcc, arr_set_same, List.map_cons, ← Multiset.cons_coe, ← Multiset.singleton_add]
  · intro j hj
    have hj' : (j : Int) ≠ vote.candidate_order vote.pos := by omega
    rw [arr_set_other _ _ _ _ hj']

/-- The vote-reading loop of `tally_from_file`, when it returns on ballots whose first
preference is below `candidate_count`, adds one to the sum of the list lengths per ballot
and changes neither the statuses, the candidate count nor the invalid count. -/
theorem read_votes_total (MAX_CANDIDATES : Int) (ballots : List (List Int))
    (tally t' : tally_t) (vote_id : Int)
    (h : read_votes MAX_CANDIDATES tally vote_id ballots = .ok t')
    (hfirst : ∀ b ∈ ballots, b.getD 0 NO_CANDIDATE < tally.candidate_count) :
    t'.candidate_status = tally.candidate_status ∧
    t'.candidate_count = tally.candidate_count ∧
    t'.invalid_vote_count = tally.invalid_vote_count ∧
    bucket_total t' = bucket_total tally + ballots.length := by
  induction ballots generalizing tally vote_id with
  | nil =>
    simp only [read_votes, Except.ok.injEq] at h
    subst h
    exact ⟨rfl, rfl, rfl, rfl⟩
  | cons b more ih =>
    unfold read_votes at h
    split at h
    · simp at h
    · rename_i t1 h1
      obtain ⟨a1, a2, a3, _, _⟩ := tally_add_vote_frame _ _ _ _ h1
      have hb : (mk_vote vote_id b).candidate_order (mk_vote vote_id b).pos <
          tally.candidate_count := by
        have := hfirst b (List.mem_cons_self _ _)
        simpa [mk_vote, arr_of] using this
      have hp := tally_add_vote_ids _ _ _ _ h1 hb
      obtain ⟨c1, c2, c3, c4⟩ := ih t1 (vote_id + 1) h
        (fun b' hb' => by rw [a2]; exact hfirst b' (List.mem_cons_of_mem _ hb'))
      refine ⟨c1.trans a1, c2.trans a2, c3.trans a3, ?_⟩
      rw [c4, bucket_total_eq_length t1, hp.length_eq, List.length_cons,
        ← bucket_total_eq_length, List.length_cons]
      omega

/-- C12 (amended): partition completeness in every round, for ballots filed under a
candidate.  When `tally_from_file` returns a tally for `k` ballots whose first preference is
a candidate of the election (an id below `candidate_count`), the list lengths of the
candidates plus `invalid_vote_count` add up to `k` in that tally, after any number of rounds
of the loop of `tally_election` (the end of one round and the start of the next), in the
snapshot taken inside each round after the MinVotes candidates are dropped, and in the final
tally when `tally_election` returns. -/
theorem partition_complete_every_round (MAX_CANDIDATES : Int) (fuel : Nat) (n : Int)
    (ballots : List (List Int)) (tally : tally_t)
    (hfile : tally_from_file MAX_CANDIDATES n ballots = .ok tally)
    (hfirst : ∀ b ∈ ballots, b.getD 0 NO_CANDIDATE < n) :
    (bucket_total tally : Int) + tally.invalid_vote_count = ballots.length ∧
    (∀ r t', rounds_state MAX_CANDIDATES fuel r tally = .ok t' →
      (bucket_total t' : Int) + t'.invalid_vote_count = ballots.length) ∧
    (∀ r t1 t2, rounds_state MAX_CANDIDATES fuel r tally = .ok t1 →
      tally_drop_minvote_candidates MAX_CANDIDATES fuel t1 = .ok t2 →
      (bucket_total t2 : Int) + t2.invalid_vote_count = ballots.length) ∧
    (∀ t' c r, tally_election MAX_CANDIDATES fuel tally = .ok (t', c, r) →
      (bucket_total t' : Int) + t'.invalid_vote_count = ballots.length) := by
  unfold tally_from_file at hfile
  split_ifs at hfile
  obtain ⟨a1, a2, a3, a4⟩ := read_votes_total _ _ _ _ _ hfile hfirst
  dsimp only at a1 a2 a3 a4
  have hk : (bucket_total tally : Int) + tally.invalid_vote_count = ballots.length := by
    rw [a4, a3]
    simp [bucket_total]
  have hout : ∀ j, tally.candidate_count ≤ j →
      tally.candidate_status j ≠ .CAND_ACTIVE := by
    intro j hj
    rw [a1, a2] at *
    have : ¬ (0 ≤ j ∧ j < n) := by omega
    simp [this]
  exact ⟨hk, partition_preserved MAX_CANDIDATES fuel tally _ hout hk⟩

/-- Witness for C12: Scenario A, six ballots; `tally_election` returns and the final tally
still accounts for six ballots. -/
theorem partition_complete_every_round_witness :
    ∃ t t' c r, tally_from_file 8 4 scenario_a_ballots = .ok t ∧
      tally_election 8 2 t = .ok (t', c, r) ∧
      (bucket_total t' : Int) + t'.invalid_vote_count = 6 := by
  refine ⟨_, _, _, _, rfl, rfl, ?_⟩
  exact (partition_complete_every_round 8 2 4 scenario_a_ballots _ rfl (by decide)).2.2.2
    _ _ _ rfl

/-- C21 (what the code does): on the example of the comment of `vote_next_candidate` (cursor
1, preferences `2 0 3 1`, statuses D D D A) the first call returns candidate 3 with the
cursor at position 2, and the second call, finding the Active candidate 3 under the cursor,
returns 3 again and leaves the cursor at position 2; it does not return `NO_CANDIDATE` with
the cursor at position 4. -/
theorem vote_next_candidate_doc_example (MAX_CANDIDATES : Int) (hmax : 4 ≤ MAX_CANDIDATES) :
    vote_next_candidate MAX_CANDIDATES doc_vote doc_status =
      .ok (3, { doc_vote with pos := 2 }) ∧
    vote_next_candidate MAX_CANDIDATES { doc_vote with pos := 2 } doc_status =
      .ok (3, { doc_vote with pos := 2 }) := by
  have hY : doc_status 3 = .CAND_ACTIVE := rfl
  have h1 : vote_next_candidate MAX_CANDIDATES doc_vote doc_status =
      .ok (3, { doc_vote with pos := 2 }) := by
    unfold vote_next_candidate
    rw [vote_next_scan_finds MAX_CANDIDATES doc_status doc_vote.candidate_order _ doc_vote.pos
      2 3 (by decide) (by decide) (by omega) (Nat.lt_succ_self _) rfl (by decide) (by omega) hY
      (by
        intro j hj1 hj2
        have hj3 : (1 : Int) ≤ j := hj1
        have hj4 : j = 1 := by omega
        subst hj4
        exact ⟨by decide, by
          have : doc_vote.candidate_order 1 = 0 := rfl
          rw [this]; omega, by decide⟩)]
  refine ⟨h1, ?_⟩
  unfold vote_next_candidate
  rw [vote_next_scan_finds MAX_CANDIDATES doc_status doc_vote.candidate_order _ 2
    2 3 (by decide) (by decide) (by omega) (Nat.lt_succ_self _) rfl (by decide) (by omega) hY
    (by intro j hj1 hj2; omega)]

/-- Witness for C21 with eight array cells. -/
theorem vote_next_candidate_doc_example_witness :
    (4 : Int) ≤ 8 ∧
    vote_next_candidate 8 { doc_vote with pos := 2 } doc_status =
      .ok (3, { doc_vote with pos := 2 }) :=
  ⟨by decide, (vote_next_candidate_doc_example 8 (by decide)).2⟩

/-- C27: an election with exactly one candidate, Active and with a non-negative vote count,
ends in round 1 with condition Error: `tally_set_minvote_candidates` marks the sole candidate
MinVotes before `tally_condition` counts the Active candidates.  Vote lists and counts are
left as they were. -/
theorem tally_election_single_candidate (MAX_CANDIDATES : Int) (fuel : Nat) (tally : tally_t)
    (hmax : 1 ≤ MAX_CANDIDATES) (hfuel : 1 ≤ fuel)
    (hc : tally.candidate_count = 1) (hs : tally.candidate_status 0 = .CAND_ACTIVE)
    (hv : 0 ≤ tally.candidate_vote_counts 0) :
    ∃ t', tally_election MAX_CANDIDATES fuel tally = .ok (t', .TALLY_ERROR, 1) ∧
      t'.candidate_status 0 = .CAND_MINVOTES ∧
      t'.candidate_votes = tally.candidate_votes ∧
      t'.candidate_vote_counts = tally.candidate_vote_counts := by
  obtain ⟨n, rfl⟩ : ∃ n, fuel = n + 1 := ⟨fuel - 1, by omega⟩
  have h0 : (0 : Int) < MAX_CANDIDATES := by omega
  have hn : tally.candidate_count.toNat = 1 := by rw [hc]; rfl
  have hv' : ¬ tally.candidate_vote_counts 0 = -1 := by omega
  have hdrop : tally_drop_minvote_candidates MAX_CANDIDATES (n + 1) tally = .ok tally := by
    simp [tally_drop_minvote_candidates, drop_loop, in_bounds, hn, h0, hs]
  have hset : tally_set_minvote_candidates MAX_CANDIDATES tally =
      .ok { tally with
        candidate_status := arr_set tally.candidate_status 0 .CAND_MINVOTES } := by
    simp [tally_set_minvote_candidates, minvote_scan, minvote_mark, in_bounds, hn, h0, hs, hc,
      hv']
  have hcond : tally_condition MAX_CANDIDATES { tally with
        candidate_status := arr_set tally.candidate_status 0 .CAND_MINVOTES } =
      .ok .TALLY_ERROR := by
    simp [tally_condition, tally_condition_count, in_bounds, hn, h0, arr_set]
  refine ⟨{ tally with
    candidate_status := arr_set tally.candidate_status 0 .CAND_MINVOTES }, ?_,
    arr_set_same tally.candidate_status 0 .CAND_MINVOTES, rfl, rfl⟩
  unfold tally_election election_rounds
  rw [hdrop]
  dsimp only
  rw [hset]
  dsimp only
  rw [hcond]
  rfl

/-- Witness for C27: one candidate holding two ballots. -/
theorem tally_election_single_candidate_witness :
    single_candidate_tally.candidate_vote_counts 0 = 2 ∧
    ∃ t', tally_election 8 3 single_candidate_tally = .ok (t', .TALLY_ERROR, 1) := by
  obtain ⟨t', h, _⟩ := tally_election_single_candidate 8 3 single_candidate_tally
    (by decide) (by decide) rfl rfl (by decide)
  exact ⟨rfl, t', h⟩

/-- The number of candidates with a given status is the size of the set of their indices. -/
theorem num_with_status_eq_card (tally : tally_t) (s : cand_status) :
    num_with_status tally s =
      ((Finset.range tally.candidate_count.toNat).filter
        (fun (j : Nat) => tally.candidate_status (j : Int) = s)).card := by
  unfold num_with_status
  rw [List.countP_eq_length_filter]
  rfl

/-- C22: Scenario C.  On a tally with at most `MAX_CANDIDATES` candidates in which exactly two
candidates are Active, with equal non-negative counts, and every other candidate is Dropped,
`tally_set_minvote_candidates` followed by `tally_condition` yields Tie, and the MinVotes
candidates are exactly those two. -/
theorem scenario_c_tie (MAX_CANDIDATES : Int) (tally : tally_t) (a b : Int)
    (hcount : tally.candidate_count ≤ MAX_CANDIDATES)
    (ha0 : 0 ≤ a) (hac : a < tally.candidate_count)
    (hb0 : 0 ≤ b) (hbc : b < tally.candidate_count) (hab : a ≠ b)
    (hsa : tally.candidate_status a = .CAND_ACTIVE)
    (hsb : tally.candidate_status b = .CAND_ACTIVE)
    (heq : tally.candidate_vote_counts a = tally.candidate_vote_counts b)
    (hnn : 0 ≤ tally.candidate_vote_counts a)
    (hrest : ∀ j, 0 ≤ j → j < tally.candidate_count → j ≠ a → j ≠ b →
      tally.candidate_status j = .CAND_DROPPED) :
    ∃ t', tally_set_minvote_candidates MAX_CANDIDATES tally = .ok t' ∧
      tally_condition MAX_CANDIDATES t' = .ok .TALLY_TIE ∧
      ∀ j, 0 ≤ j → j < tally.candidate_count →
        (t'.candidate_status j = .CAND_MINVOTES ↔ j = a ∨ j = b) := by
  have hnd : ∀ j, 0 ≤ j → j < tally.candidate_count →
      tally.candidate_status j ≠ .CAND_DROPPED → j = a ∨ j = b := by
    intro j h1 h2 h3
    by_contra hh
    push_neg at hh
    exact h3 (hrest j h1 h2 hh.1 hh.2)
  obtain ⟨t', hset, hc, _, _, _, _, hiff, hkeep, _, _⟩ :=
    tally_set_minvote_candidates_post MAX_CANDIDATES tally hcount
      (fun j h1 h2 h3 => by
        rcases hnd j h1 h2 h3 with h | h
        · rw [h]; exact hnn
        · rw [h, ← heq]; exact hnn)
  have hmin : ∀ i, i = a ∨ i = b → ∀ j, 0 ≤ j → j < tally.candidate_count →
      tally.candidate_status j ≠ .CAND_DROPPED →
      tally.candidate_vote_counts i ≤ tally.candidate_vote_counts j := by
    intro i hi j h1 h2 h3
    rcases hi with hi | hi <;> rcases hnd j h1 h2 h3 with h | h <;> rw [hi, h] <;> omega
  have hMa : t'.candidate_status a = .CAND_MINVOTES :=
    (hiff a ha0 hac hsa).mpr (hmin a (Or.inl rfl))
  have hMb : t'.candidate_status b = .CAND_MINVOTES :=
    (hiff b hb0 hbc hsb).mpr (hmin b (Or.inr rfl))
  have hD : ∀ j, 0 ≤ j → j < tally.candidate_count → j ≠ a → j ≠ b →
      t'.candidate_status j = .CAND_DROPPED := by
    intro j h1 h2 h3 h4
    have hd := hrest j h1 h2 h3 h4
    rw [hkeep j (Or.inl (by rw [hd]; decide)), hd]
  have hst : ∀ j, 0 ≤ j → j < tally.candidate_count →
      (t'.candidate_status j = .CAND_MINVOTES ↔ j = a ∨ j = b) := by
    intro j h1 h2
    constructor
    · intro hM
      by_contra hh
      push_neg at hh
      rw [hD j h1 h2 hh.1 hh.2] at hM
      exact absurd hM (by decide)
    · rintro (h | h)
      · rw [h]; exact hMa
      · rw [h]; exact hMb
  refine ⟨t', hset, ?_, hst⟩
  have hA : num_with_status t' .CAND_ACTIVE = 0 := by
    rw [num_with_status_eq_card, Finset.card_eq_zero, Finset.filter_eq_empty_iff]
    intro j hj hA
    rw [hc, Finset.mem_range] at hj
    by_cases h : (j : Int) = a ∨ (j : Int) = b
    · rw [(hst j (by omega) (by omega)).mpr h] at hA
      exact absurd hA (by decide)
    · push_neg at h
      rw [hD j (by omega) (by omega) h.1 h.2] at hA
      exact absurd hA (by decide)
  have hM : num_with_status t' .CAND_MINVOTES = 2 := by
    rw [num_with_status_eq_card]
    have hset2 : (Finset.range t'.candidate_count.toNat).filter
        (fun (j : Nat) => t'.candidate_status (j : Int) = .CAND_MINVOTES) =
        {a.toNat, b.toNat} := by
      ext j
      simp only [Finset.mem_filter, Finset.mem_range, Finset.mem_insert, Finset.mem_singleton]
      rw [hc]
      constructor
      · rintro ⟨h1, h2⟩
        rcases (hst j (by omega) (by omega)).mp h2 with h | h
        · left; omega
        · right; omega
      · rintro (h | h)
        · have e : (j : Int) = a := by omega
          exact ⟨by omega, by rw [e]; exact hMa⟩
        · have e : (j : Int) = b := by omega
          exact ⟨by omega, by rw [e]; exact hMb⟩
    rw [hset2, Finset.card_pair (by omega)]
  rw [tally_condition_eq MAX_CANDIDATES t' (by rw [hc]; exact hcount)
    (fun j h1 h2 => by
      rw [hc] at h2
      by_cases h : j = a ∨ j = b
      · exact Or.inr (Or.inl ((hst j h1 h2).mpr h))
      · push_neg at h
        exact Or.inr (Or.inr (hD j h1 h2 h.1 h.2))), hA, hM]
  rfl

/-- Witness for C22: `two_tied_tally`, candidates 1 and 2 tied at two votes with the others
Dropped. -/
theorem scenario_c_tie_witness :
    ∃ t', tally_set_minvote_candidates 8 two_tied_tally = .ok t' ∧
      tally_condition 8 t' = .ok .TALLY_TIE ∧
      t'.candidate_status 1 = .CAND_MINVOTES ∧ t'.candidate_status 2 = .CAND_MINVOTES := by
  obtain ⟨t', h1, h2, h3⟩ := scenario_c_tie 8 two_tied_tally 1 2 (by decide) (by decide)
    (by decide) (by decide) (by decide) (by decide) rfl rfl rfl (by decide)
    (by
      intro j h1 h2 h3 h4
      have h5 : j < 4 := h2
      interval_cases j
      · rfl
      · exact absurd rfl h3
      · exact absurd rfl h4
      · rfl)
  exact ⟨t', h1, h2, (h3 1 (by decide) (by decide)).mpr (Or.inl rfl),
    (h3 2 (by decide) (by decide)).mpr (Or.inr rfl)⟩

/-- The drain loop returns at once on an empty list. -/
theorem drain_votes_nil (MAX_CANDIDATES : Int) (fuel : Nat) (tally : tally_t) (i : Int)
    (h : tally.candidate_votes i = []) :
    drain_votes MAX_CANDIDATES fuel tally i = .ok tally := by
  cases fuel <;> simp [drain_votes, h]

/-- The `for` loop of `tally_drop_minvote_candidates` over candidates `i .. i + n - 1`, when
every MinVotes candidate of that range has an empty list: it returns for any fuel, turns
those candidates into Dropped and changes nothing else. -/
theorem drop_loop_empty (MAX_CANDIDATES : Int) (fuel n : Nat) (i : Int) (tally : tally_t)
    (hi : 0 ≤ i) (hmax : n = 0 ∨ i + n ≤ MAX_CANDIDATES)
    (hempty : ∀ j, i ≤ j → j < i + n → tally.candidate_status j = .CAND_MINVOTES →
      tally.candidate_votes j = []) :
    ∃ t', drop_loop MAX_CANDIDATES fuel n i tally = .ok t' ∧
      t'.candidate_votes = tally.candidate_votes ∧
      t'.candidate_vote_counts = tally.candidate_vote_counts ∧
      t'.candidate_count = tally.candidate_count ∧
      t'.invalid_vote_count = tally.invalid_vote_count ∧
      t'.invalid_votes = tally.invalid_votes ∧
      ∀ j, t'.candidate_status j =
        if i ≤ j ∧ j < i + n ∧ tally.candidate_status j = .CAND_MINVOTES
        then .CAND_DROPPED else tally.candidate_status j := by
  induction n generalizing i tally with
  | zero =>
    refine ⟨tally, rfl, rfl, rfl, rfl, rfl, rfl, fun j => ?_⟩
    rw [if_neg]
    intro h
    have := h.1
    have := h.2.1
    simp at this
    omega
  | succ n ih =>
    have hmax' : i + ((n + 1 : Nat) : Int) ≤ MAX_CANDIDATES := by
      rcases hmax with h | h
      · omega
      · exact h
    have hb : in_bounds MAX_CANDIDATES i := ⟨hi, by push_cast at hmax'; omega⟩
    unfold drop_loop
    rw [if_neg (not_not.mpr hb)]
    by_cases hm : tally.candidate_status i = .CAND_MINVOTES
    · rw [if_pos hm, drain_votes_nil _ _ _ _ (hempty i (le_refl _) (by push_cast; omega) hm)]
      dsimp only
      obtain ⟨t', hr, a1, a2, a3, a4, a5, a6⟩ := ih (i + 1)
        { tally with candidate_status := arr_set tally.candidate_status i .CAND_DROPPED }
        (by omega) (Or.inr (by push_cast at hmax' ⊢; omega))
        (fun j h1 h2 h3 => by
          dsimp only at h3 ⊢
          rw [arr_set_other _ _ _ _ (by omega)] at h3
          exact hempty j (by omega) (by push_cast; omega) h3)
      refine ⟨t', hr, a1, a2, a3, a4, a5, fun j => ?_⟩
      rw [a6 j]
      dsimp only
      by_cases hji : j = i
      · subst hji
        rw [if_neg (fun h => by have := h.1; omega), arr_set_same,
          if_pos ⟨le_refl _, by push_cast; omega, hm⟩]
      · rw [arr_set_other _ _ _ _ hji]
        by_cases hc : i + 1 ≤ j ∧ j < i + 1 + (n : Int) ∧
            tally.candidate_status j = .CAND_MINVOTES
        · rw [if_pos hc, if_pos ⟨by omega, by push_cast; omega, hc.2.2⟩]
        · rw [if_neg hc, if_neg (fun h => hc ⟨by omega, by
            have := h.2.1; push_cast at this; omega, h.2.2⟩)]
    · rw [if_neg hm]
      obtain ⟨t', hr, a1, a2, a3, a4, a5, a6⟩ := ih (i + 1) tally (by omega)
        (Or.inr (by push_cast at hmax' ⊢; omega))
        (fun j h1 h2 h3 => hempty j (by omega) (by push_cast; omega) h3)
      refine ⟨t', hr, a1, a2, a3, a4, a5, fun j => ?_⟩
      rw [a6 j]
      by_cases hc : i + 1 ≤ j ∧ j < i + 1 + (n : Int) ∧
          tally.candidate_status j = .CAND_MINVOTES
      · rw [if_pos hc, if_pos ⟨by omega, by push_cast; omega, hc.2.2⟩]
      · rw [if_neg hc, if_neg]
        intro h
        by_cases hji : j = i
        · rw [hji] at h; exact hm h.2.2
        · exact hc ⟨by omega, by have := h.2.1; push_cast at this; omega, h.2.2⟩

/-- C23 (amended): Scenario D.  On a tally with at most `MAX_CANDIDATES` candidates and
non-negative vote counts in which no candidate is MinVotes yet, every candidate with count 0
has an empty list, and the Active candidate `X` has count 0, `tally_set_minvote_candidates`
marks `X` MinVotes, and the following `tally_drop_minvote_candidates` returns for any fuel,
sets `X` to Dropped and moves no ballot: vote lists (so cursors too), counts and the invalid
list are what they were. -/
theorem scenario_d_zero_votes (MAX_CANDIDATES : Int) (fuel : Nat) (tally : tally_t) (X : Int)
    (hcount : tally.candidate_count ≤ MAX_CANDIDATES)
    (hnn : ∀ j, 0 ≤ j → j < tally.candidate_count → 0 ≤ tally.candidate_vote_counts j)
    (hzero : ∀ j, 0 ≤ j → j < tally.candidate_count → tally.candidate_vote_counts j = 0 →
      tally.candidate_votes j = [])
    (hnoM : ∀ j, 0 ≤ j → j < tally.candidate_count →
      tally.candidate_status j ≠ .CAND_MINVOTES)
    (hX0 : 0 ≤ X) (hXc : X < tally.candidate_count)
    (hXa : tally.candidate_status X = .CAND_ACTIVE)
    (hXv : tally.candidate_vote_counts X = 0) :
    ∃ t1 t2, tally_set_minvote_candidates MAX_CANDIDATES tally = .ok t1 ∧
      t1.candidate_status X = .CAND_MINVOTES ∧
      tally_drop_minvote_candidates MAX_CANDIDATES fuel t1 = .ok t2 ∧
      t2.candidate_status X = .CAND_DROPPED ∧
      t2.candidate_votes = t1.candidate_votes ∧
      t2.candidate_vote_counts = t1.candidate_vote_counts ∧
      t2.invalid_vote_count = t1.invalid_vote_count ∧
      t2.invalid_votes = t1.invalid_votes ∧
      t1.candidate_votes = tally.candidate_votes ∧
      t1.candidate_vote_counts = tally.candidate_vote_counts := by
  obtain ⟨t1, hset, hc, hcounts, hvotes, _, _, hiff, hkeep, _, _⟩ :=
    tally_set_minvote_candidates_post MAX_CANDIDATES tally hcount
      (fun j h1 h2 _ => hnn j h1 h2)
  have hXM : t1.candidate_status X = .CAND_MINVOTES :=
    (hiff X hX0 hXc hXa).mpr (fun j h1 h2 _ => by rw [hXv]; exact hnn j h1 h2)
  have hempty : ∀ j, 0 ≤ j → j < 0 + (t1.candidate_count.toNat : Int) →
      t1.candidate_status j = .CAND_MINVOTES → t1.candidate_votes j = [] := by
    intro j h1 h2 h3
    rw [hc] at h2
    have h2' : j < tally.candidate_count := by omega
    rw [hvotes]
    apply hzero j h1 h2'
    by_cases hA : tally.candidate_status j = .CAND_ACTIVE
    · have hle := (hiff j h1 h2' hA).mp h3 X hX0 hXc (by rw [hXa]; decide)
      have := hnn j h1 h2'
      omega
    · rw [hkeep j (Or.inl hA)] at h3
      exact absurd h3 (hnoM j h1 h2')
  obtain ⟨t2, hdrop, b1, b2, _, b4, b5, b6⟩ := drop_loop_empty MAX_CANDIDATES fuel
    t1.candidate_count.toNat 0 t1 (le_refl _) (Or.inr (by rw [hc]; omega)) hempty
  refine ⟨t1, t2, hset, hXM, hdrop, ?_, b1, b2, b4, b5, hvotes, hcounts⟩
  rw [b6 X, if_pos ⟨hX0, by rw [hc]; omega, hXM⟩]

/-- Witness for C23 (amended): in `zero_votes_tally` candidate 2 is Active without votes; it
is marked MinVotes and then Dropped, and the lists of candidates 0 and 1 stay as they
were. -/
theorem scenario_d_zero_votes_witness :
    zero_votes_tally.candidate_vote_counts 2 = 0 ∧
    ∃ t1 t2, tally_set_minvote_candidates 8 zero_votes_tally = .ok t1 ∧
      tally_drop_minvote_candidates 8 0 t1 = .ok t2 ∧
      t2.candidate_status 2 = .CAND_DROPPED ∧
      t2.candidate_votes = zero_votes_tally.candidate_votes := by
  obtain ⟨t1, t2, h1, _, h3, h4, h5, _, _, _, h9, _⟩ :=
    scenario_d_zero_votes 8 0 zero_votes_tally 2 (by decide)
      (by intro j h1 h2; have h3 : j < 3 := h2; interval_cases j <;> decide)
      (by
        intro j h1 h2
        have h3 : j < 3 := h2
        interval_cases j
        · intro h; exact absurd h (by decide)
        · intro h; exact absurd h (by decide)
        · intro _; rfl)
      (by intro j h1 h2; have h3 : j < 3 := h2; interval_cases j <;> decide)
      (by decide) (by decide) rfl rfl
  exact ⟨rfl, t1, t2, h1, h3, h4, h5.trans h9⟩

/-- C23 (counterexample): in `stale_minvotes_zero_tally` all counts are non-negative and the
Active candidate 2 has count 0 and an empty list; `tally_set_minvote_candidates` marks it
MinVotes, but the following `tally_drop_minvote_candidates` also drains candidate 0, who was
MinVotes already, and moves vote 1 to the front of the list of candidate 1. -/
theorem scenario_d_stale_minvotes_moves_ballot :
    stale_minvotes_zero_tally.candidate_status 2 = .CAND_ACTIVE ∧
    stale_minvotes_zero_tally.candidate_vote_counts 2 = 0 ∧
    stale_minvotes_zero_tally.candidate_votes 2 = [] ∧
    ∃ t1 t2, tally_set_minvote_candidates 8 stale_minvotes_zero_tally = .ok t1 ∧
      t1.candidate_status 2 = .CAND_MINVOTES ∧
      (t1.candidate_votes 1).map (fun v => (v.id, v.pos)) = [(2, 0)] ∧
      tally_drop_minvote_candidates 8 1 t1 = .ok t2 ∧
      (t2.candidate_votes 1).map (fun v => (v.id, v.pos)) = [(1, 1), (2, 0)] ∧
      t2.candidate_vote_counts 1 = 2 :=
  ⟨rfl, rfl, rfl, _, _, rfl, rfl, rfl, rfl, rfl, rfl⟩

/-- When the counting loop of `tally_condition` runs to its end, every index it visited was
inside the array and every status it read was Active, MinVotes or Dropped. -/
theorem tally_condition_count_inv (MAX_CANDIDATES : Int) (tally : tally_t) (n : Nat)
    (i a m : Int) (p : Int × Int) (hi : 0 ≤ i)
    (h : tally_condition_count MAX_CANDIDATES tally n i a m = .ok (some p)) :
    (n = 0 ∨ i + n ≤ MAX_CANDIDATES) ∧
    ∀ j, i ≤ j → j < i + n →
      tally.candidate_status j = .CAND_ACTIVE ∨
      tally.candidate_status j = .CAND_MINVOTES ∨
      tally.candidate_status j = .CAND_DROPPED := by
  induction n generalizing i a m with
  | zero => exact ⟨Or.inl rfl, fun j h1 h2 => by simp at h2; omega⟩
  | succ n ih =>
    unfold tally_condition_count at h
    split_ifs at h with hb
    have key : ∀ a' m', tally_condition_count MAX_CANDIDATES tally n (i + 1) a' m' =
        .ok (some p) →
        (tally.candidate_status i = .CAND_ACTIVE ∨
          tally.candidate_status i = .CAND_MINVOTES ∨
          tally.candidate_status i = .CAND_DROPPED) →
        (n + 1 = 0 ∨ i + ((n + 1 : Nat) : Int) ≤ MAX_CANDIDATES) ∧
        ∀ j, i ≤ j → j < i + ((n + 1 : Nat) : Int) →
          tally.candidate_status j = .CAND_ACTIVE ∨
          tally.candidate_status j = .CAND_MINVOTES ∨
          tally.candidate_status j = .CAND_DROPPED := by
      intro a' m' h' hsi
      obtain ⟨b1, b2⟩ := ih (i + 1) a' m' (by omega) h'
      refine ⟨Or.inr ?_, fun j h1 h2 => ?_⟩
      · have := hb.2
        rcases b1 with b1 | b1
        · subst b1; push_cast; omega
        · push_cast; omega
      · by_cases hji : j = i
        · rw [hji]; exact hsi
        · exact b2 j (by omega) (by push_cast at h2; omega)
    split at h
    · rename_i hs
      exact key _ _ h (Or.inl hs)
    · rename_i hs
      exact key _ _ h (Or.inr (Or.inl hs))
    · rename_i hs
      exact key _ _ h (Or.inr (Or.inr hs))
    · simp at h

/-- When `tally_condition` returns something other than Error, the candidates fit in the
array and their statuses are all Active, MinVotes or Dropped. -/
theorem tally_condition_inv (MAX_CANDIDATES : Int) (tally : tally_t) (c : tally_cond)
    (h : tally_condition MAX_CANDIDATES tally = .ok c) (hc : c ≠ .TALLY_ERROR) :
    tally.candidate_count ≤ MAX_CANDIDATES ∧
    ∀ j, 0 ≤ j → j < tally.candidate_count →
      tally.candidate_status j = .CAND_ACTIVE ∨
      tally.candidate_status j = .CAND_MINVOTES ∨
      tally.candidate_status j = .CAND_DROPPED := by
  unfold tally_condition at h
  split at h
  · simp at h
  · simp only [Except.ok.injEq] at h
    exact absurd h.symm hc
  · rename_i a m hcnt
    obtain ⟨b1, b2⟩ := tally_condition_count_inv _ _ _ _ _ _ _ (le_refl _) hcnt
    refine ⟨?_, fun j h1 h2 => b2 j h1 (by omega)⟩
    rcases b1 with b1 | b1
    · exfalso
      rw [b1] at hcnt
      simp only [tally_condition_count, Except.ok.injEq, Option.some.injEq,
        Prod.mk.injEq] at hcnt
      obtain ⟨ha, hm⟩ := hcnt
      subst ha hm
      simp at h
      exact hc h.symm
    · omega

/-- Count consistency is kept by `tally_drop_minvote_candidates` and by
`tally_set_minvote_candidates`, hence by any number of rounds. -/
theorem rounds_state_consistent (MAX_CANDIDATES : Int) (fuel n : Nat) (tally t' : tally_t)
    (h : rounds_state MAX_CANDIDATES fuel n tally = .ok t')
    (hcons : count_consistent tally) : count_consistent t' := by
  induction n generalizing tally with
  | zero =>
    simp only [rounds_state, Except.ok.injEq] at h
    subst h
    exact hcons
  | succ n ih =>
    unfold rounds_state at h
    split at h
    · simp at h
    · rename_i t1 h1
      split at h
      · simp at h
      · rename_i t2 h2
        unfold tally_drop_minvote_candidates at h1
        obtain ⟨a1, a2, _⟩ := drop_loop_spec _ _ _ _ _ _ h1
        obtain ⟨b1, b2, b3, _⟩ := tally_set_minvote_candidates_frame _ _ _ h2
        apply ih t2 h
        intro j hj1 hj2
        rw [b1, a1] at hj2
        have h3 := hcons j hj1 hj2
        have h4 := a2 j
        rw [b2, b3]
        omega

/-- A returning `tally_election` has a last round: some number of whole rounds, then a drop,
a marking and the condition it returns. -/
theorem election_rounds_last (MAX_CANDIDATES : Int) (fuel k round : Nat)
    (tally t' : tally_t) (c : tally_cond) (r : Nat)
    (h : election_rounds MAX_CANDIDATES fuel k round tally = .ok (t', c, r)) :
    ∃ n t0 t1, rounds_state MAX_CANDIDATES fuel n tally = .ok t0 ∧
      tally_drop_minvote_candidates MAX_CANDIDATES fuel t0 = .ok t1 ∧
      tally_set_minvote_candidates MAX_CANDIDATES t1 = .ok t' ∧
      tally_condition MAX_CANDIDATES t' = .ok c ∧ r = round + n := by
  induction k generalizing round tally with
  | zero => simp [election_rounds] at h
  | succ k ih =>
    unfold election_rounds at h
    split at h
    · simp at h
    · rename_i t1 h1
      split at h
      · simp at h
      · rename_i t2 h2
        split at h
        · simp at h
        · rename_i cond h3
          split_ifs at h with hc
          · simp only [Except.ok.injEq, Prod.mk.injEq] at h
            obtain ⟨e1, e2, e3⟩ := h
            subst e1 e2 e3
            exact ⟨0, tally, t1, rfl, h1, h2, h3, rfl⟩
          · obtain ⟨n, t0, ta, hn, b1, b2, b3, b4⟩ := ih (round + 1) t2 h
            refine ⟨n + 1, t0, ta, ?_, b1, b2, b3, by omega⟩
            unfold rounds_state
            rw [h1]
            dsimp only
            rw [h2]
            exact hn

/-- When `tally_condition` returns Winner, exactly one of the candidates is Active. -/
theorem tally_condition_winner_unique (MAX_CANDIDATES : Int) (tally : tally_t)
    (h : tally_condition MAX_CANDIDATES tally = .ok .TALLY_WINNER) :
    ∃ w, 0 ≤ w ∧ w < tally.candidate_count ∧ tally.candidate_status w = .CAND_ACTIVE ∧
      ∀ j, 0 ≤ j → j < tally.candidate_count →
        tally.candidate_status j = .CAND_ACTIVE → j = w := by
  obtain ⟨hcount, hst⟩ := tally_condition_inv _ _ _ h (by decide)
  have heq := tally_condition_eq MAX_CANDIDATES tally hcount hst
  rw [h] at heq
  have hA : num_with_status tally .CAND_ACTIVE = 1 := by
    by_contra hne
    rw [if_neg hne] at heq
    split_ifs at heq <;> simp at heq
  rw [num_with_status_eq_card, Finset.card_eq_one] at hA
  obtain ⟨a, ha⟩ := hA
  have hmem : a ∈ (Finset.range tally.candidate_count.toNat).filter
      (fun (j : Nat) => tally.candidate_status (j : Int) = .CAND_ACTIVE) := by
    rw [ha]; exact Finset.mem_singleton_self a
  simp only [Finset.mem_filter, Finset.mem_range] at hmem
  refine ⟨(a : Int), by omega, by omega, hmem.2, fun j h1 h2 h3 => ?_⟩
  have hj : j.toNat ∈ (Finset.range tally.candidate_count.toNat).filter
      (fun (j : Nat) => tally.candidate_status (j : Int) = .CAND_ACTIVE) := by
    simp only [Finset.mem_filter, Finset.mem_range]
    refine ⟨by omega, ?_⟩
    rw [Int.toNat_of_nonneg h1]
    exact h3
  rw [ha, Finset.mem_singleton] at hj
  omega

/-- C25: when `tally_election`, started on a count-consistent tally, ends with condition
Winner, exactly one candidate `w` is Active in the final tally, and every other candidate
that is not Dropped is MinVotes, holds the least count among the non-Dropped candidates, and
holds strictly fewer votes than `w`. -/
theorem winner_has_most_votes (MAX_CANDIDATES : Int) (fuel : Nat) (tally t' : tally_t)
    (r : Nat) (hcons : count_consistent tally)
    (h : tally_election MAX_CANDIDATES fuel tally = .ok (t', .TALLY_WINNER, r)) :
    ∃ w, 0 ≤ w ∧ w < t'.candidate_count ∧ t'.candidate_status w = .CAND_ACTIVE ∧
      (∀ j, 0 ≤ j → j < t'.candidate_count →
        t'.candidate_status j = .CAND_ACTIVE → j = w) ∧
      ∀ j, 0 ≤ j → j < t'.candidate_count → j ≠ w →
        t'.candidate_status j ≠ .CAND_DROPPED →
        t'.candidate_status j = .CAND_MINVOTES ∧
        t'.candidate_vote_counts j < t'.candidate_vote_counts w ∧
        ∀ i, 0 ≤ i → i < t'.candidate_count → t'.candidate_status i ≠ .CAND_DROPPED →
          t'.candidate_vote_counts j ≤ t'.candidate_vote_counts i := by
  unfold tally_election at h
  obtain ⟨n, t0, t1, hn, hdrop, hset, hcond, _⟩ := election_rounds_last _ _ _ _ _ _ _ _ h
  have hcons0 := rounds_state_consistent _ _ _ _ _ hn hcons
  unfold tally_drop_minvote_candidates at hdrop
  obtain ⟨d1, d2, d3, d4, _⟩ := drop_loop_spec _ _ _ _ _ _ hdrop
  have hcons1 : count_consistent t1 := by
    intro j hj1 hj2
    rw [d1] at hj2
    have h3 := hcons0 j hj1 hj2
    have h4 := d2 j
    omega
  have hnoM : ∀ j, 0 ≤ j → j < t1.candidate_count →
      t1.candidate_status j ≠ .CAND_MINVOTES := by
    intro j hj1 hj2
    rw [d1] at hj2
    by_cases hm : t0.candidate_status j = .CAND_MINVOTES
    · rw [(d3 j (by omega) (by omega) hm).1]; decide
    · rw [d4 j (fun hh => hm hh.2.2)]; exact hm
  obtain ⟨hcount', hst'⟩ := tally_condition_inv _ _ _ hcond (by decide)
  obtain ⟨f1, _⟩ := tally_set_minvote_candidates_frame _ _ _ hset
  obtain ⟨t2, hset2, hc, hcounts, _, _, _, hiff, hkeep, hor, _⟩ :=
    tally_set_minvote_candidates_post MAX_CANDIDATES t1 (by rw [← f1]; exact hcount')
      (fun j h1 h2 _ => by rw [hcons1 j h1 h2]; omega)
  rw [hset] at hset2
  simp only [Except.ok.injEq] at hset2
  subst hset2
  obtain ⟨w, hw0, hwc, hwa, huniq⟩ := tally_condition_winner_unique _ _ hcond
  refine ⟨w, hw0, hwc, hwa, huniq, fun j hj1 hj2 hjw hjd => ?_⟩
  rw [hc] at hj2 hwc
  have hjM : t'.candidate_status j = .CAND_MINVOTES := by
    rcases hst' j hj1 (by rw [hc]; exact hj2) with hh | hh | hh
    · exact absurd (huniq j hj1 (by rw [hc]; exact hj2) hh) hjw
    · exact hh
    · exact absurd hh hjd
  have hjA1 : t1.candidate_status j = .CAND_ACTIVE := by
    by_contra hna
    rw [hkeep j (Or.inl hna)] at hjM
    exact hnoM j hj1 hj2 hjM
  have hwA1 : t1.candidate_status w = .CAND_ACTIVE := by
    rcases hor w with hh | hh
    · rw [hwa] at hh; exact absurd hh (by decide)
    · rw [← hh]; exact hwa
  have hjmin := (hiff j hj1 hj2 hjA1).mp hjM
  have hwnot : ¬ ∀ i, 0 ≤ i → i < t1.candidate_count →
      t1.candidate_status i ≠ .CAND_DROPPED →
      t1.candidate_vote_counts w ≤ t1.candidate_vote_counts i := by
    intro hall
    have := (hiff w hw0 hwc hwA1).mpr hall
    rw [hwa] at this
    exact absurd this (by decide)
  push_neg at hwnot
  obtain ⟨i, hi0, hic, hid, hlt⟩ := hwnot
  have hji := hjmin i hi0 hic hid
  refine ⟨hjM, by rw [hcounts]; omega, fun i' hi0' hic' hid' => ?_⟩
  rw [hcounts]
  rw [hc] at hic'
  apply hjmin i' hi0' hic'
  intro hd
  apply hid'
  rw [hkeep i' (Or.inl (by rw [hd]; decide)), hd]

/-- Witness for C25: on `drop_example_tally` the election ends in round 1 with Winner; the
winner, candidate 0, holds four votes and candidate 2, MinVotes, holds one. -/
theorem winner_has_most_votes_witness :
    ∃ t', tally_election 8 5 drop_example_tally = .ok (t', .TALLY_WINNER, 1) ∧
      ∃ w, t'.candidate_status w = .CAND_ACTIVE ∧
        ∀ j, 0 ≤ j → j < t'.candidate_count → j ≠ w →
          t'.candidate_status j ≠ .CAND_DROPPED →
          t'.candidate_vote_counts j < t'.candidate_vote_counts w := by
  have hcons : count_consistent drop_example_tally := by
    intro j h1 h2
    have h3 : j < 3 := h2
    interval_cases j <;> rfl
  have hr : ∃ t', tally_election 8 5 drop_example_tally = .ok (t', .TALLY_WINNER, 1) :=
    ⟨_, rfl⟩
  obtain ⟨t', ht⟩ := hr
  obtain ⟨w, _, _, hwa, _, hrest⟩ := winner_has_most_votes 8 5 drop_example_tally t' 1 hcons ht
  exact ⟨t', ht, w, hwa, fun j h1 h2 h3 h4 => (hrest j h1 h2 h3 h4).2.1⟩

/-- The scan of `vote_next_candidate` finds an Active candidate when one lies ahead at
position `qa` and every cell from the cursor to `qa` holds an index of the status table: it
stops at the first such position. -/
theorem vote_next_scan_reaches (MAX_CANDIDATES : Int) (status : Int → cand_status)
    (order : Int → Int) (fuel : Nat) (pos qa : Int)
    (hpos : 0 ≤ pos) (hq1 : pos ≤ qa) (hq2 : qa < MAX_CANDIDATES)
    (hfuel : (MAX_CANDIDATES - pos).toNat < fuel)
    (hqa : status (order qa) = .CAND_ACTIVE)
    (hvalid : ∀ q, pos ≤ q → q ≤ qa → 0 ≤ order q ∧ order q < MAX_CANDIDATES) :
    ∃ k, pos ≤ k ∧ k ≤ qa ∧
      vote_next_scan MAX_CANDIDATES status order fuel pos = .ok (order k, k) ∧
      status (order k) = .CAND_ACTIVE ∧
      ∀ q, pos ≤ q → q < k → status (order q) ≠ .CAND_ACTIVE := by
  induction fuel generalizing pos with
  | zero => omega
  | succ n ih =>
    obtain ⟨hv0, hv1⟩ := hvalid pos (le_refl _) hq1
    have h1 : pos < MAX_CANDIDATES := by omega
    have h2 : ¬ (order pos = NO_CANDIDATE ∨ order pos ≥ MAX_CANDIDATES) := by
      unfold NO_CANDIDATE; omega
    by_cases ha : status (order pos) = .CAND_ACTIVE
    · refine ⟨pos, le_refl _, hq1, ?_, ha, fun q h3 h4 => by omega⟩
      unfold vote_next_scan
      rw [if_pos h1, if_neg (not_lt.mpr hpos)]
      dsimp only
      rw [if_neg h2, if_neg (by omega), if_pos ha]
    · have hne : pos ≠ qa := fun e => ha (e ▸ hqa)
      obtain ⟨k, b1, b2, b3, b4, b5⟩ := ih (pos + 1) (by omega) (by omega) (by omega)
        (fun q h3 h4 => hvalid q (by omega) h4)
      refine ⟨k, by omega, b2, ?_, b4, fun q h3 h4 => ?_⟩
      · unfold vote_next_scan
        rw [if_pos h1, if_neg (not_lt.mpr hpos)]
        dsimp only
        rw [if_neg h2, if_neg (by omega), if_neg ha]
        exact b3
      · by_cases hqp : q = pos
        · rw [hqp]; exact ha
        · exact b5 q (by omega) h4

/-- A vote list keeps ranking all the candidates when no status becomes Active. -/
theorem ranked_mono (N : Int) (status status' : Int → cand_status) (j : Int) (v : vote_t)
    (h : ranked N status j v)
    (hs : ∀ c, status' c = .CAND_ACTIVE → status c = .CAND_ACTIVE) :
    ranked N status' j v := by
  obtain ⟨a1, a2, a3, a4, a5, a6⟩ := h
  exact ⟨a1, a2, a3, a4, a5, fun q h1 h2 hh => a6 q h1 h2 (hs _ hh)⟩

/-- Transferring the first vote of a candidate `X` that is not Active, in a well-ranked tally
with an Active candidate, succeeds: the vote leaves the list of `X` for an Active candidate
and the tally stays well ranked. -/
theorem tally_transfer_first_vote_ranked (MAX_CANDIDATES : Int) (tally : tally_t)
    (X a : Int) (v : vote_t) (rest : List vote_t)
    (hmax : tally.candidate_count ≤ MAX_CANDIDATES) (hwr : well_ranked tally)
    (hX0 : 0 ≤ X) (hXc : X < tally.candidate_count)
    (hXs : tally.candidate_status X ≠ .CAND_ACTIVE)
    (hb : tally.candidate_votes X = v :: rest)
    (ha0 : 0 ≤ a) (hac : a < tally.candidate_count)
    (haA : tally.candidate_status a = .CAND_ACTIVE) :
    ∃ t', tally_transfer_first_vote MAX_CANDIDATES tally X = .ok t' ∧ well_ranked t' ∧
      t'.candidate_votes X = rest ∧ t'.candidate_status = tally.candidate_status ∧
      t'.candidate_count = tally.candidate_count := by
  obtain ⟨r1, r2, r3, r4, r5, r6⟩ := hwr X hX0 hXc v (by rw [hb]; exact List.mem_cons_self _ _)
  obtain ⟨qa, hq0, hqN, hqa⟩ := r5 a ha0 hac
  have hqpos : v.pos < qa := by
    by_contra hh
    have hle : qa ≤ v.pos := by omega
    rcases lt_or_eq_of_le hle with h | h
    · exact r6 qa hq0 h (by rw [hqa]; exact haA)
    · rw [h, r3] at hqa
      rw [hqa] at hXs
      exact hXs haA
  obtain ⟨k, k1, k2, _, k4, k5⟩ := vote_next_scan_reaches MAX_CANDIDATES
    tally.candidate_status v.candidate_order ((MAX_CANDIDATES - (v.pos + 1)).toNat + 1)
    (v.pos + 1) qa (by omega) (by omega) (by omega) (Nat.lt_succ_self _)
    (by rw [hqa]; exact haA)
    (fun q h1 h2 => by
      obtain ⟨c1, c2⟩ := r4 q (by omega) (by omega)
      exact ⟨c1, by omega⟩)
  obtain ⟨hY0, hYN⟩ := r4 k (by omega) (by omega)
  have hYX : v.candidate_order k ≠ X := fun e => hXs (e ▸ k4)
  obtain ⟨t', ht, b1, _, b3, b4, b5, b6, _, _⟩ :=
    tally_transfer_first_vote_moved MAX_CANDIDATES tally X (v.candidate_order k) k v rest
      hX0 hXc (by omega) hb r1 (by omega) (by omega) rfl hY0 (by omega) k4
      (fun q h1 h2 => by
        obtain ⟨c1, c2⟩ := r4 q (by omega) (by omega)
        exact ⟨c1, by omega, k5 q (by omega) h2⟩)
  rw [if_neg hYX] at b1
  refine ⟨t', ht, ?_, (b3 hYX).1, b5, b6⟩
  intro j hj0 hjc v0 hv0
  rw [b6] at hjc ⊢
  rw [b5]
  by_cases hjY : j = v.candidate_order k
  · rw [hjY, b1] at hv0
    rcases List.mem_cons.mp hv0 with h | h
    · rw [h, hjY]
      refine ⟨by dsimp only; omega, by dsimp only; omega, rfl, r4, r5, fun q h1 h2 => ?_⟩
      dsimp only at h2 ⊢
      rcases lt_trichotomy q v.pos with h3 | h3 | h3
      · exact r6 q h1 h3
      · rw [h3, r3]; exact hXs
      · exact k5 q (by omega) h2
    · rw [hjY]
      exact hwr _ hY0 hYN v0 h
  · by_cases hjX : j = X
    · rw [hjX, (b3 hYX).1] at hv0
      rw [hjX]
      exact hwr X hX0 hXc v0 (by rw [hb]; exact List.mem_cons_of_mem _ hv0)
    · rw [(b4 j hjX hjY).1] at hv0
      exact hwr j hj0 hjc v0 hv0

/-- Draining a candidate `X` that is not Active, in a well-ranked tally with an Active
candidate, returns as soon as the fuel covers the length of its list; the list is then
empty, and statuses and the candidate count are unchanged. -/
theorem drain_votes_ranked (MAX_CANDIDATES : Int) (fuel : Nat) (tally : tally_t) (X a : Int)
    (hmax : tally.candidate_count ≤ MAX_CANDIDATES) (hwr : well_ranked tally)
    (hX0 : 0 ≤ X) (hXc : X < tally.candidate_count)
    (hXs : tally.candidate_status X ≠ .CAND_ACTIVE)
    (ha0 : 0 ≤ a) (hac : a < tally.candidate_count)
    (haA : tally.candidate_status a = .CAND_ACTIVE)
    (hfuel : (tally.candidate_votes X).length ≤ fuel) :
    ∃ t', drain_votes MAX_CANDIDATES fuel tally X = .ok t' ∧ well_ranked t' ∧
      t'.candidate_status = tally.candidate_status ∧
      t'.candidate_count = tally.candidate_count := by
  induction fuel generalizing tally with
  | zero =>
    have hnil : tally.candidate_votes X = [] := List.length_eq_zero.mp (by omega)
    exact ⟨tally, drain_votes_nil _ _ _ _ hnil, hwr, rfl, rfl⟩
  | succ n ih =>
    cases hb : tally.candidate_votes X with
    | nil => exact ⟨tally, drain_votes_nil _ _ _ _ hb, hwr, rfl, rfl⟩
    | cons v rest =>
      obtain ⟨t1, ht, c1, c2, c3, c4⟩ := tally_transfer_first_vote_ranked MAX_CANDIDATES tally
        X a v rest hmax hwr hX0 hXc hXs hb ha0 hac haA
      obtain ⟨t', ht', d1, d2, d3⟩ := ih t1 (by rw [c4]; exact hmax) c1
        (by rw [c4]; exact hXc) (by rw [c3]; exact hXs) (by rw [c4]; exact hac)
        (by rw [c3]; exact haA)
        (by rw [c2]; rw [hb] at hfuel; simp at hfuel; omega)
      refine ⟨t', ?_, d1, d2.trans c3, d3.trans c4⟩
      unfold drain_votes
      rw [hb]
      dsimp only
      rw [ht]
      exact ht'

/-- The `for` loop of `tally_drop_minvote_candidates` returns on a well-ranked tally with an
Active candidate when the fuel covers the list of every MinVotes candidate, and the tally it
returns is well ranked. -/
theorem drop_loop_ranked (MAX_CANDIDATES : Int) (fuel n : Nat) (i : Int) (tally : tally_t)
    (a : Int) (hi : 0 ≤ i) (hin : i + n ≤ tally.candidate_count)
    (hmax : tally.candidate_count ≤ MAX_CANDIDATES) (hwr : well_ranked tally)
    (ha0 : 0 ≤ a) (hac : a < tally.candidate_count)
    (haA : tally.candidate_status a = .CAND_ACTIVE)
    (hfuel : ∀ j, 0 ≤ j → j < tally.candidate_count →
      tally.candidate_status j = .CAND_MINVOTES → (tally.candidate_votes j).length ≤ fuel) :
    ∃ t', drop_loop MAX_CANDIDATES fuel n i tally = .ok t' ∧ well_ranked t' := by
  induction n generalizing i tally with
  | zero => exact ⟨tally, rfl, hwr⟩
  | succ n ih =>
    have hic : i < tally.candidate_count := by push_cast at hin; omega
    have hb : in_bounds MAX_CANDIDATES i := ⟨hi, by omega⟩
    unfold drop_loop
    rw [if_neg (not_not.mpr hb)]
    by_cases hm : tally.candidate_status i = .CAND_MINVOTES
    · rw [if_pos hm]
      obtain ⟨t1, hd, c1, c2, c3⟩ := drain_votes_ranked MAX_CANDIDATES fuel tally i a hmax hwr
        hi hic (by rw [hm]; decide) ha0 hac haA (hfuel i hi hic hm)
      obtain ⟨_, _, _, _, d5⟩ := drain_votes_spec _ _ _ _ _ hd
      rw [hd]
      dsimp only
      have hai : a ≠ i := fun e => by rw [e, hm] at haA; exact absurd haA (by decide)
      apply ih (i + 1)
        { t1 with candidate_status := arr_set t1.candidate_status i .CAND_DROPPED }
        (by omega) (by dsimp only; rw [c3]; push_cast at hin ⊢; omega)
        (by dsimp only; rw [c3]; exact hmax)
      · intro j hj0 hjc v0 hv0
        dsimp only at hjc hv0 ⊢
        apply ranked_mono _ t1.candidate_status _ _ _ (c1 j hj0 hjc v0 hv0)
        intro c hc
        by_cases hci : c = i
        · rw [hci, arr_set_same] at hc
          exact absurd hc (by decide)
        · rw [arr_set_other _ _ _ _ hci] at hc
          exact hc
      · dsimp only; rw [c3]; exact hac
      · dsimp only; rw [arr_set_other _ _ _ _ hai, c2]; exact haA
      · intro j hj0 hjc hjm
        dsimp only at hjc hjm ⊢
        rw [c3] at hjc
        have hji : j ≠ i := by
          intro e
          rw [e, arr_set_same] at hjm
          exact absurd hjm (by decide)
        rw [arr_set_other _ _ _ _ hji, c2] at hjm
        rw [d5 j hji (by rw [hjm]; decide)]
        exact hfuel j hj0 hjc hjm
    · rw [if_neg hm]
      exact ih (i + 1) tally (by omega) (by push_cast at hin ⊢; omega) hmax hwr hac haA hfuel

/-- The list of a candidate is no longer than the sum of all the lists. -/
theorem length_le_bucket_total (tally : tally_t) (j : Int) (hj0 : 0 ≤ j)
    (hjc : j < tally.candidate_count) :
    (tally.candidate_votes j).length ≤ bucket_total tally := by
  unfold bucket_total
  apply List.single_le_sum (fun _ _ => Nat.zero_le _)
  rw [List.mem_map]
  exact ⟨j.toNat, List.mem_range.mpr (by omega), by rw [Int.toNat_of_nonneg hj0]⟩

/-- After a returning `tally_drop_minvote_candidates` on a count-consistent tally with valid
statuses: same candidate count, still count-consistent with valid statuses, no candidate is
MinVotes, and the Active candidates are the same. -/
theorem tally_drop_minvote_candidates_facts (MAX_CANDIDATES : Int) (fuel : Nat)
    (tally t1 : tally_t) (hcons : count_consistent tally) (hvalid : valid_statuses tally)
    (hdrop : tally_drop_minvote_candidates MAX_CANDIDATES fuel tally = .ok t1) :
    t1.candidate_count = tally.candidate_count ∧ count_consistent t1 ∧ valid_statuses t1 ∧
    (∀ j, 0 ≤ j → j < t1.candidate_count → t1.candidate_status j ≠ .CAND_MINVOTES) ∧
    (∀ j, t1.candidate_status j = .CAND_ACTIVE ↔ tally.candidate_status j = .CAND_ACTIVE) := by
  unfold tally_drop_minvote_candidates at hdrop
  obtain ⟨d1, d2, d3, d4, _⟩ := drop_loop_spec _ _ _ _ _ _ hdrop
  have hst : ∀ j, (0 ≤ j ∧ j < tally.candidate_count ∧
      tally.candidate_status j = .CAND_MINVOTES ∧ t1.candidate_status j = .CAND_DROPPED) ∨
      (¬ (0 ≤ j ∧ j < tally.candidate_count ∧ tally.candidate_status j = .CAND_MINVOTES) ∧
        t1.candidate_status j = tally.candidate_status j) := by
    intro j
    by_cases hm : 0 ≤ j ∧ j < tally.candidate_count ∧
        tally.candidate_status j = .CAND_MINVOTES
    · exact Or.inl ⟨hm.1, hm.2.1, hm.2.2, (d3 j hm.1 (by omega) hm.2.2).1⟩
    · exact Or.inr ⟨hm, d4 j (fun hh => hm ⟨hh.1, by omega, hh.2.2⟩)⟩
  refine ⟨d1, ?_, ?_, ?_, ?_⟩
  · intro j hj1 hj2
    rw [d1] at hj2
    have h3 := hcons j hj1 hj2
    have h4 := d2 j
    omega
  · intro j hj1 hj2
    rw [d1] at hj2
    rcases hst j with h | h
    · exact Or.inr (Or.inr h.2.2.2)
    · rw [h.2]; exact hvalid j hj1 hj2
  · intro j hj1 hj2
    rw [d1] at hj2
    rcases hst j with h | h
    · rw [h.2.2.2]; decide
    · rw [h.2]; exact fun hm => h.1 ⟨hj1, hj2, hm⟩
  · intro j
    rcases hst j with h | h
    · rw [h.2.2.2, h.2.2.1]
      constructor <;> intro hh <;> exact absurd hh (by decide)
    · rw [h.2]

/-- On a count-consistent tally within the array, with valid statuses, no MinVotes candidate
and at least one Active candidate, `tally_set_minvote_candidates` returns and marks at least
one Active candidate: strictly fewer candidates are Active afterwards.  Nothing but statuses
changes, no status becomes Active, and a candidate that was Active is Active or MinVotes. -/
theorem tally_set_minvote_candidates_marks (MAX_CANDIDATES : Int) (tally : tally_t) (a : Int)
    (hmax : tally.candidate_count ≤ MAX_CANDIDATES)
    (hcons : count_consistent tally) (hvalid : valid_statuses tally)
    (hnoM : ∀ j, 0 ≤ j → j < tally.candidate_count →
      tally.candidate_status j ≠ .CAND_MINVOTES)
    (ha0 : 0 ≤ a) (hac : a < tally.candidate_count)
    (haA : tally.candidate_status a = .CAND_ACTIVE) :
    ∃ t2, tally_set_minvote_candidates MAX_CANDIDATES tally = .ok t2 ∧
      num_with_status t2 .CAND_ACTIVE < num_with_status tally .CAND_ACTIVE := by
  obtain ⟨t2, hset, hc, _, _, _, _, hiff, _, hor, _⟩ :=
    tally_set_minvote_candidates_post MAX_CANDIDATES tally hmax
      (fun j h1 h2 _ => by rw [hcons j h1 h2]; omega)
  refine ⟨t2, hset, ?_⟩
  rw [num_with_status_eq_card, num_with_status_eq_card, hc]
  have hne : ((Finset.range tally.candidate_count.toNat).filter
      (fun (j : Nat) => tally.candidate_status (j : Int) = .CAND_ACTIVE)).Nonempty :=
    ⟨a.toNat, by
      simp only [Finset.mem_filter, Finset.mem_range]
      exact ⟨by omega, by rw [Int.toNat_of_nonneg ha0]; exact haA⟩⟩
  obtain ⟨j0, hj0, hmin⟩ := Finset.exists_min_image _
    (fun (j : Nat) => tally.candidate_vote_counts (j : Int)) hne
  simp only [Finset.mem_filter, Finset.mem_range] at hj0
  have hj0M : t2.candidate_status (j0 : Int) = .CAND_MINVOTES := by
    apply (hiff j0 (by omega) (by omega) hj0.2).mpr
    intro i hi0 hic hid
    have hiA : tally.candidate_status i = .CAND_ACTIVE := by
      rcases hvalid i hi0 hic with h | h | h
      · exact h
      · exact absurd h (hnoM i hi0 hic)
      · exact absurd h hid
    have := hmin i.toNat (by
      simp only [Finset.mem_filter, Finset.mem_range]
      exact ⟨by omega, by rw [Int.toNat_of_nonneg hi0]; exact hiA⟩)
    rw [Int.toNat_of_nonneg hi0] at this
    exact this
  apply Finset.card_lt_card
  rw [Finset.ssubset_iff_of_subset]
  · refine ⟨j0, ?_, ?_⟩
    · simp only [Finset.mem_filter, Finset.mem_range]
      exact hj0
    · simp only [Finset.mem_filter, Finset.mem_range, not_and]
      intro _
      rw [hj0M]
      decide
  · intro j hj
    simp only [Finset.mem_filter, Finset.mem_range] at hj ⊢
    refine ⟨hj.1, ?_⟩
    rcases hor (j : Int) with h | h
    · rw [hj.2] at h; exact absurd h (by decide)
    · rw [← h]; exact hj.2

/-- One round body on a count-consistent tally within the array whose statuses are valid and
which has at least two Active candidates: once the drop step has returned, the marking step
and `tally_condition` return, the condition is not Error, strictly fewer candidates are
Active, a Continue leaves at least two Active candidates, and the tally keeps its candidate
count, its count consistency and valid statuses; the marking step changes no vote list and
makes no candidate Active. -/
theorem round_body_safe (MAX_CANDIDATES : Int) (fuel : Nat) (tally t1 : tally_t)
    (hmax : tally.candidate_count ≤ MAX_CANDIDATES)
    (hcons : count_consistent tally) (hvalid : valid_statuses tally)
    (h2 : 2 ≤ num_with_status tally .CAND_ACTIVE)
    (hdrop : tally_drop_minvote_candidates MAX_CANDIDATES fuel tally = .ok t1) :
    ∃ t2 c, tally_set_minvote_candidates MAX_CANDIDATES t1 = .ok t2 ∧
      tally_condition MAX_CANDIDATES t2 = .ok c ∧ c ≠ .TALLY_ERROR ∧
      num_with_status t2 .CAND_ACTIVE < num_with_status tally .CAND_ACTIVE ∧
      (c = .TALLY_CONTINUE → 2 ≤ num_with_status t2 .CAND_ACTIVE) ∧
      t2.candidate_count = tally.candidate_count ∧ count_consistent t2 ∧ valid_statuses t2 ∧
      t2.candidate_votes = t1.candidate_votes ∧
      (∀ j, t2.candidate_status j = .CAND_ACTIVE → t1.candidate_status j = .CAND_ACTIVE) := by
  obtain ⟨d1, dcons, dvalid, dnoM, dA⟩ :=
    tally_drop_minvote_candidates_facts _ _ _ _ hcons hvalid hdrop
  have hnum1 : num_with_status t1 .CAND_ACTIVE = num_with_status tally .CAND_ACTIVE := by
    rw [num_with_status_eq_card, num_with_status_eq_card, d1]
    congr 1
    apply Finset.filter_congr
    intro j _
    exact dA j
  have hpos : 0 < ((Finset.range t1.candidate_count.toNat).filter
      (fun (j : Nat) => t1.candidate_status (j : Int) = .CAND_ACTIVE)).card := by
    rw [← num_with_status_eq_card, hnum1]; omega
  obtain ⟨a, ha⟩ := Finset.card_pos.mp hpos
  simp only [Finset.mem_filter, Finset.mem_range] at ha
  obtain ⟨t2, hset, hlt⟩ := tally_set_minvote_candidates_marks MAX_CANDIDATES t1 (a : Int)
    (by rw [d1]; exact hmax) dcons dvalid dnoM (by omega) (by omega) ha.2
  obtain ⟨f1, f2, f3, _, _, f6⟩ := tally_set_minvote_candidates_frame _ _ _ hset
  have hcons2 : count_consistent t2 := by
    intro j hj1 hj2
    rw [f2, f3]
    exact dcons j hj1 (by rw [← f1]; exact hj2)
  have hvalid2 : valid_statuses t2 := by
    intro j hj1 hj2
    rcases f6 j with h | h
    · rw [h]; exact dvalid j hj1 (by rw [← f1]; exact hj2)
    · exact Or.inr (Or.inl h.2.2.2)
  have hA2 : ∀ j, t2.candidate_status j = .CAND_ACTIVE →
      t1.candidate_status j = .CAND_ACTIVE := by
    intro j hj
    rcases f6 j with h | h
    · rw [← h]; exact hj
    · rw [h.2.2.2] at hj; exact absurd hj (by decide)
  have hcond := tally_condition_eq MAX_CANDIDATES t2 (by rw [f1, d1]; exact hmax) hvalid2
  have hM : num_with_status t2 .CAND_ACTIVE = 0 → 2 ≤ num_with_status t2 .CAND_MINVOTES := by
    intro h0
    rw [num_with_status_eq_card] at h0
    rw [← hnum1, num_with_status_eq_card] at h2
    rw [num_with_status_eq_card, f1]
    refine le_trans h2 (Finset.card_le_card ?_)
    intro j hj
    simp only [Finset.mem_filter, Finset.mem_range] at hj ⊢
    refine ⟨hj.1, ?_⟩
    rcases f6 (j : Int) with h | h
    · exfalso
      have hmem : j ∈ (Finset.range t2.candidate_count.toNat).filter
          (fun (j : Nat) => t2.candidate_status (j : Int) = .CAND_ACTIVE) := by
        simp only [Finset.mem_filter, Finset.mem_range]
        exact ⟨by rw [f1]; exact hj.1, by rw [h]; exact hj.2⟩
      rw [Finset.card_eq_zero.mp h0] at hmem
      exact absurd hmem (Finset.not_mem_empty _)
    · exact h.2.2.2
  refine ⟨t2, _, hset, hcond, ?_, by rw [← hnum1]; exact hlt, ?_, by rw [f1, d1], hcons2,
    hvalid2, f3, hA2⟩
  · split_ifs with h1 h3 h4
    · decide
    · decide
    · decide
    · exact absurd (hM (by omega)) h4
  · split_ifs with h1 h3 h4
    · intro h; exact absurd h (by decide)
    · intro _; exact h3
    · intro h; exact absurd h (by decide)
    · intro h; exact absurd h (by decide)

/-- One round body, without any assumption on the number of Active candidates: when the drop
step and the marking step return on a count-consistent tally with valid statuses, the result
has the same candidate count, is count-consistent with valid statuses, no candidate became
Active, and if some candidate is still Active then strictly fewer are than before. -/
theorem round_body_valid (MAX_CANDIDATES : Int) (fuel : Nat) (tally t1 t2 : tally_t)
    (hmax : tally.candidate_count ≤ MAX_CANDIDATES)
    (hcons : count_consistent tally) (hvalid : valid_statuses tally)
    (hdrop : tally_drop_minvote_candidates MAX_CANDIDATES fuel tally = .ok t1)
    (hset : tally_set_minvote_candidates MAX_CANDIDATES t1 = .ok t2) :
    t2.candidate_count = tally.candidate_count ∧ count_consistent t2 ∧ valid_statuses t2 ∧
    (∀ j, t2.candidate_status j = .CAND_ACTIVE → tally.candidate_status j = .CAND_ACTIVE) ∧
    (1 ≤ num_with_status t2 .CAND_ACTIVE →
      num_with_status t2 .CAND_ACTIVE < num_with_status tally .CAND_ACTIVE) := by
  obtain ⟨d1, dcons, dvalid, dnoM, dA⟩ :=
    tally_drop_minvote_candidates_facts _ _ _ _ hcons hvalid hdrop
  obtain ⟨f1, f2, f3, _, _, f6⟩ := tally_set_minvote_candidates_frame _ _ _ hset
  have hA2 : ∀ j, t2.candidate_status j = .CAND_ACTIVE →
      t1.candidate_status j = .CAND_ACTIVE := by
    intro j hj
    rcases f6 j with h | h
    · rw [← h]; exact hj
    · rw [h.2.2.2] at hj; exact absurd hj (by decide)
  refine ⟨by rw [f1, d1], ?_, ?_, fun j hj => (dA j).mp (hA2 j hj), ?_⟩
  · intro j hj1 hj2
    rw [f2, f3]
    exact dcons j hj1 (by rw [← f1]; exact hj2)
  · intro j hj1 hj2
    rcases f6 j with h | h
    · rw [h]; exact dvalid j hj1 (by rw [← f1]; exact hj2)
    · exact Or.inr (Or.inl h.2.2.2)
  · intro h1
    have hnum1 : num_with_status t1 .CAND_ACTIVE = num_with_status tally .CAND_ACTIVE := by
      rw [num_with_status_eq_card, num_with_status_eq_card, d1]
      congr 1
      apply Finset.filter_congr
      intro j _
      exact dA j
    rw [num_with_status_eq_card] at h1
    obtain ⟨a, ha⟩ := Finset.card_pos.mp h1
    simp only [Finset.mem_filter, Finset.mem_range] at ha
    obtain ⟨t2', hset', hlt⟩ := tally_set_minvote_candidates_marks MAX_CANDIDATES t1 (a : Int)
      (by rw [d1]; exact hmax) dcons dvalid dnoM (by omega) (by rw [← f1]; omega)
      (hA2 _ ha.2)
    rw [hset] at hset'
    simp only [Except.ok.injEq] at hset'
    subst hset'
    rw [← hnum1]
    exact hlt

/-- The drop step returns on a tally of full rankings that has an Active candidate, when the
drain fuel covers all the ballots: the result is again a tally of full rankings, holds as
many ballots, and has no Active status beyond the candidate count. -/
theorem round_body_live (MAX_CANDIDATES : Int) (fuel : Nat) (tally : tally_t) (a : Int)
    (hmax : tally.candidate_count ≤ MAX_CANDIDATES) (hwr : well_ranked tally)
    (hout : ∀ j, tally.candidate_count ≤ j → tally.candidate_status j ≠ .CAND_ACTIVE)
    (hfuel : bucket_total tally ≤ fuel)
    (ha0 : 0 ≤ a) (hac : a < tally.candidate_count)
    (haA : tally.candidate_status a = .CAND_ACTIVE) :
    ∃ t1, tally_drop_minvote_candidates MAX_CANDIDATES fuel tally = .ok t1 ∧
      well_ranked t1 ∧ bucket_total t1 = bucket_total tally ∧
      (∀ j, t1.candidate_count ≤ j → t1.candidate_status j ≠ .CAND_ACTIVE) := by
  obtain ⟨t1, h1, hwr1⟩ := drop_loop_ranked MAX_CANDIDATES fuel tally.candidate_count.toNat 0
    tally a (le_refl 0) (by omega) hmax hwr ha0 hac haA
    (fun j hj0 hjc _ => le_trans (length_le_bucket_total tally j hj0 hjc) hfuel)
  obtain ⟨p1, _, _, p4⟩ := drop_loop_ids _ _ _ _ _ _ h1 hout
  obtain ⟨d1, _⟩ := drop_loop_spec _ _ _ _ _ _ h1
  refine ⟨t1, h1, hwr1, ?_, ?_⟩
  · rw [bucket_total_eq_length, bucket_total_eq_length]
    exact p1.length_eq
  · intro j hj hA
    exact hout j (by rw [← d1]; exact hj) (p4 j hA)

/-- The marking step keeps a tally of full rankings one, with as many ballots and no Active
status beyond the candidate count. -/
theorem tally_set_minvote_candidates_ranked (MAX_CANDIDATES : Int) (t1 t2 : tally_t)
    (hset : tally_set_minvote_candidates MAX_CANDIDATES t1 = .ok t2)
    (hwr : well_ranked t1)
    (hout : ∀ j, t1.candidate_count ≤ j → t1.candidate_status j ≠ .CAND_ACTIVE) :
    well_ranked t2 ∧ bucket_total t2 = bucket_total t1 ∧
    (∀ j, t2.candidate_count ≤ j → t2.candidate_status j ≠ .CAND_ACTIVE) := by
  obtain ⟨f1, _, f3, _, _, f6⟩ := tally_set_minvote_candidates_frame _ _ _ hset
  have hA2 : ∀ j, t2.candidate_status j = .CAND_ACTIVE →
      t1.candidate_status j = .CAND_ACTIVE := by
    intro j hj
    rcases f6 j with h | h
    · rw [← h]; exact hj
    · rw [h.2.2.2] at hj; exact absurd hj (by decide)
  refine ⟨?_, ?_, ?_⟩
  · intro j hj1 hj2 v hv
    rw [f1]
    rw [f3] at hv
    exact ranked_mono _ _ _ _ _ (hwr j hj1 (by rw [← f1]; exact hj2) v hv) hA2
  · unfold bucket_total
    rw [f1, f3]
  · intro j hj hA
    exact hout j (by rw [← f1]; exact hj) (hA2 j hA)

/-- Safety of the round loop: started on a count-consistent tally within the array, with valid
statuses and at least two Active candidates, the loop of `tally_election` can only end with
Winner or Tie, and the number of rounds it has run is at most the number of Active candidates
at the start minus one. -/
theorem election_rounds_safe (MAX_CANDIDATES : Int) (fuel k round : Nat)
    (tally t' : tally_t) (c : tally_cond) (r : Nat)
    (hmax : tally.candidate_count ≤ MAX_CANDIDATES)
    (hcons : count_consistent tally) (hvalid : valid_statuses tally)
    (h2 : 2 ≤ num_with_status tally .CAND_ACTIVE)
    (h : election_rounds MAX_CANDIDATES fuel k round tally = .ok (t', c, r)) :
    (c = .TALLY_WINNER ∨ c = .TALLY_TIE) ∧
    r + 2 ≤ round + num_with_status tally .CAND_ACTIVE := by
  induction k generalizing round tally with
  | zero => simp [election_rounds] at h
  | succ k ih =>
    unfold election_rounds at h
    split at h
    · simp at h
    · rename_i t1 hdrop
      obtain ⟨t2, c2, hset, hcond, hne, hlt, hcont, hc2, hcons2, hvalid2, _, _⟩ :=
        round_body_safe _ _ _ _ hmax hcons hvalid h2 hdrop
      rw [hset] at h
      dsimp only at h
      rw [hcond] at h
      dsimp only at h
      split_ifs at h with hc
      · simp only [Except.ok.injEq, Prod.mk.injEq] at h
        obtain ⟨_, h3, h4⟩ := h
        subst h3 h4
        refine ⟨?_, by omega⟩
        cases c2
        · exact absurd rfl hne
        · exact Or.inl rfl
        · exact Or.inr rfl
        · exact absurd rfl hc
      · have hc3 : c2 = .TALLY_CONTINUE := by
          by_contra hh
          exact hc hh
        have := ih (round + 1) t2 (by rw [hc2]; exact hmax) hcons2 hvalid2 (hcont hc3) h
        exact ⟨this.1, by omega⟩

/-- Liveness of the round loop: started on a tally of full rankings that is count-consistent,
within the array, with valid statuses and at least two Active candidates, the loop of
`tally_election` returns when the round bound is at least the number of Active candidates
minus one and the drain fuel covers all the ballots. -/
theorem election_rounds_returns (MAX_CANDIDATES : Int) (fuel k round : Nat) (tally : tally_t)
    (hmax : tally.candidate_count ≤ MAX_CANDIDATES)
    (hcons : count_consistent tally) (hvalid : valid_statuses tally)
    (h2 : 2 ≤ num_with_status tally .CAND_ACTIVE)
    (hwr : well_ranked tally)
    (hout : ∀ j, tally.candidate_count ≤ j → tally.candidate_status j ≠ .CAND_ACTIVE)
    (hfuel : bucket_total tally ≤ fuel)
    (hk : num_with_status tally .CAND_ACTIVE ≤ k + 1) :
    ∃ res, election_rounds MAX_CANDIDATES fuel k round tally = .ok res := by
  induction k generalizing round tally with
  | zero => omega
  | succ k ih =>
    have hpos : 0 < ((Finset.range tally.candidate_count.toNat).filter
        (fun (j : Nat) => tally.candidate_status (j : Int) = .CAND_ACTIVE)).card := by
      rw [← num_with_status_eq_card]; omega
    obtain ⟨a, ha⟩ := Finset.card_pos.mp hpos
    simp only [Finset.mem_filter, Finset.mem_range] at ha
    obtain ⟨t1, hdrop, hwr1, hb1, hout1⟩ := round_body_live MAX_CANDIDATES fuel tally (a : Int)
      hmax hwr hout hfuel (by omega) (by omega) ha.2
    obtain ⟨t2, c2, hset, hcond, hne, hlt, hcont, hc2, hcons2, hvalid2, _, _⟩ :=
      round_body_safe _ _ _ _ hmax hcons hvalid h2 hdrop
    obtain ⟨hwr2, hb2, hout2⟩ := tally_set_minvote_candidates_ranked _ _ _ hset hwr1 hout1
    unfold election_rounds
    rw [hdrop]
    dsimp only
    rw [hset]
    dsimp only
    rw [hcond]
    dsimp only
    split_ifs with hc
    · exact ⟨_, rfl⟩
    · have hc3 : c2 = .TALLY_CONTINUE := by
        by_contra hh
        exact hc hh
      exact ih (round + 1) t2 (by rw [hc2]; exact hmax) hcons2 hvalid2 (hcont hc3) hwr2 hout2
        (by rw [hb2, hb1]; exact hfuel) (by omega)

/-- A ballot that lists each of the `N` candidates exactly once, read with the cursor at 0,
is a full ranking filed under its first preference. -/
theorem ranked_mk_vote (N : Nat) (status : Int → cand_status) (id : Int) (b : List Int)
    (hN : 0 < N) (hperm : b.Perm ((List.range N).map (fun (j : Nat) => (j : Int)))) :
    ranked (N : Int) status (b.getD 0 NO_CANDIDATE) (mk_vote id b) := by
  have hlen : b.length = N := by
    rw [hperm.length_eq, List.length_map, List.length_range]
  have hmem : ∀ x, x ∈ b ↔ 0 ≤ x ∧ x < (N : Int) := by
    intro x
    rw [hperm.mem_iff, List.mem_map]
    constructor
    · rintro ⟨j, hj, rfl⟩
      rw [List.mem_range] at hj
      omega
    · intro hx
      exact ⟨x.toNat, by rw [List.mem_range]; omega, by omega⟩
  have hget : ∀ q : Int, 0 ≤ q → q < (N : Int) →
      (mk_vote id b).candidate_order q ∈ b := by
    intro q hq0 hqN
    have hq : q.toNat < b.length := by omega
    simp only [mk_vote, arr_of, if_neg (not_lt.mpr hq0)]
    rw [List.getD_eq_getElem _ _ hq]
    exact List.getElem_mem _
  refine ⟨le_refl 0, by simp [mk_vote]; omega, by simp [mk_vote, arr_of], ?_, ?_, ?_⟩
  · intro q hq0 hqN
    exact (hmem _).mp (hget q hq0 hqN)
  · intro c hc0 hcN
    obtain ⟨i, hi, hic⟩ := List.mem_iff_getElem.mp ((hmem c).mpr ⟨hc0, hcN⟩)
    refine ⟨(i : Int), by omega, by omega, ?_⟩
    simp only [mk_vote, arr_of]
    rw [if_neg (by omega), Int.toNat_ofNat, List.getD_eq_getElem _ _ hi]
    exact hic
  · intro q hq0 hq
    simp only [mk_vote] at hq
    omega

/-- Adding a full ranking filed under the candidate at its cursor keeps a count-consistent
tally of full rankings one. -/
theorem tally_add_vote_ranked (MAX_CANDIDATES : Int) (tally t' : tally_t) (vote : vote_t)
    (h : tally_add_vote MAX_CANDIDATES tally vote = .ok t')
    (hcons : count_consistent tally) (hwr : well_ranked tally)
    (hr : ranked tally.candidate_count tally.candidate_status
      (vote.candidate_order vote.pos) vote) :
    count_consistent t' ∧ well_ranked t' := by
  unfold tally_add_vote at h
  dsimp only at h
  split_ifs at h with h1 h2
  simp only [Except.ok.injEq] at h
  subst h
  constructor
  · intro j hj1 hj2
    dsimp only at hj2 ⊢
    by_cases hjc : j = vote.candidate_order vote.pos
    · subst hjc
      rw [arr_set_same, arr_set_same, hcons _ hj1 hj2, List.length_cons]
      omega
    · rw [arr_set_other _ _ _ _ hjc, arr_set_other _ _ _ _ hjc]
      exact hcons j hj1 hj2
  · intro j hj1 hj2 v hv
    dsimp only at hj2 hv ⊢
    by_cases hjc : j = vote.candidate_order vote.pos
    · subst hjc
      rw [arr_set_same] at hv
      rcases List.mem_cons.mp hv with hv | hv
      · subst hv; exact hr
      · exact hwr _ hj1 hj2 v hv
    · rw [arr_set_other _ _ _ _ hjc] at hv
      exact hwr j hj1 hj2 v hv

/-- The vote-reading loop of `tally_from_file` on ballots that each list every one of the `N`
candidates exactly once keeps a count-consistent tally of full rankings one. -/
theorem read_votes_ranked (MAX_CANDIDATES : Int) (N : Nat) (ballots : List (List Int))
    (tally t' : tally_t) (vote_id : Int)
    (h : read_votes MAX_CANDIDATES tally vote_id ballots = .ok t')
    (hN : tally.candidate_count = (N : Int)) (hpos : 0 < N)
    (hperm : ∀ b ∈ ballots, b.Perm ((List.range N).map (fun (j : Nat) => (j : Int))))
    (hcons : count_consistent tally) (hwr : well_ranked tally) :
    count_consistent t' ∧ well_ranked t' := by
  induction ballots generalizing tally vote_id with
  | nil =>
    simp only [read_votes, Except.ok.injEq] at h
    subst h
    exact ⟨hcons, hwr⟩
  | cons b more ih =>
    unfold read_votes at h
    split at h
    · simp at h
    · rename_i t1 h1
      obtain ⟨a1, a2, _⟩ := tally_add_vote_frame _ _ _ _ h1
      have hr := ranked_mk_vote N tally.candidate_status vote_id b hpos
        (hperm b (List.mem_cons_self _ _))
      have hr2 : ranked tally.candidate_count tally.candidate_status
          ((mk_vote vote_id b).candidate_order (mk_vote vote_id b).pos)
          (mk_vote vote_id b) := by
        rw [hN]
        have he : (mk_vote vote_id b).candidate_order (mk_vote vote_id b).pos =
            b.getD 0 NO_CANDIDATE := by simp [mk_vote, arr_of]
        rw [he]
        exact hr
      obtain ⟨c1, c2⟩ := tally_add_vote_ranked _ _ _ _ h1 hcons hwr hr2
      exact ih t1 (vote_id + 1) h (by rw [a2]; exact hN)
        (fun b' hb' => hperm b' (List.mem_cons_of_mem _ hb')) c1 c2

/-- The tally `tally_from_file` builds for `N ≥ 1` candidates from ballots that each list
every candidate exactly once: `N` candidates within the array, all Active, count-consistent,
every ballot a full ranking filed under its first preference, no Active status beyond the
candidate count, and one list entry per ballot. -/
theorem tally_from_file_full_rankings (MAX_CANDIDATES : Int) (N : Nat)
    (ballots : List (List Int)) (t0 : tally_t) (hpos : 0 < N)
    (hfile : tally_from_file MAX_CANDIDATES (N : Int) ballots = .ok t0)
    (hperm : ∀ b ∈ ballots, b.Perm ((List.range N).map (fun (j : Nat) => (j : Int)))) :
    t0.candidate_count = (N : Int) ∧ t0.candidate_count ≤ MAX_CANDIDATES ∧
    count_consistent t0 ∧ valid_statuses t0 ∧ well_ranked t0 ∧
    (∀ j, t0.candidate_count ≤ j → t0.candidate_status j ≠ .CAND_ACTIVE) ∧
    num_with_status t0 .CAND_ACTIVE = N ∧ bucket_total t0 = ballots.length := by
  unfold tally_from_file at hfile
  split_ifs at hfile with hgt
  have hfirst : ∀ b ∈ ballots, b.getD 0 NO_CANDIDATE < (N : Int) := by
    intro b hb
    exact (ranked_mk_vote N (fun _ => .CAND_ACTIVE) 0 b hpos (hperm b hb)).2.2.2.1 0
      (le_refl 0) (by omega) |>.2 |> fun h => by simpa [mk_vote, arr_of] using h
  obtain ⟨s1, s2, _, s4⟩ := read_votes_total _ _ _ _ _ hfile hfirst
  obtain ⟨r1, r2⟩ := read_votes_ranked _ N _ _ _ _ hfile rfl hpos hperm
    (fun j _ _ => rfl) (fun j _ _ v hv => absurd hv (List.not_mem_nil v))
  dsimp only at s1 s2
  have hst : ∀ j : Int, t0.candidate_status j =
      if 0 ≤ j ∧ j < (N : Int) then .CAND_ACTIVE else .CAND_DROPPED := by
    intro j; rw [s1]
  refine ⟨s2, by rw [s2]; omega, r1, ?_, r2, ?_, ?_, ?_⟩
  · intro j hj1 hj2
    rw [s2] at hj2
    rw [hst, if_pos ⟨hj1, hj2⟩]
    exact Or.inl rfl
  · intro j hj
    rw [s2] at hj
    rw [hst, if_neg (by omega)]
    decide
  · rw [num_with_status_eq_card, s2, Int.toNat_ofNat, Finset.filter_true_of_mem,
      Finset.card_range]
    intro j hj
    rw [Finset.mem_range] at hj
    rw [hst, if_pos ⟨by omega, by omega⟩]
  · rw [s4]
    simp [bucket_total]

/-- Any number of round bodies keeps a count-consistent tally within the array, with valid
statuses, such a tally with the same candidate count. -/
theorem rounds_state_valid (MAX_CANDIDATES : Int) (fuel n : Nat) (tally t' : tally_t)
    (h : rounds_state MAX_CANDIDATES fuel n tally = .ok t')
    (hmax : tally.candidate_count ≤ MAX_CANDIDATES)
    (hcons : count_consistent tally) (hvalid : valid_statuses tally) :
    t'.candidate_count = tally.candidate_count ∧ count_consistent t' ∧ valid_statuses t' := by
  induction n generalizing tally with
  | zero =>
    simp only [rounds_state, Except.ok.injEq] at h
    subst h
    exact ⟨rfl, hcons, hvalid⟩
  | succ n ih =>
    unfold rounds_state at h
    split at h
    · simp at h
    · rename_i t1 hdrop
      split at h
      · simp at h
      · rename_i t2 hset
        obtain ⟨v1, v2, v3, _⟩ := round_body_valid _ _ _ _ _ hmax hcons hvalid hdrop hset
        obtain ⟨i1, i2, i3⟩ := ih t2 h (by rw [v1]; exact hmax) v2 v3
        exact ⟨i1.trans v1, i2, i3⟩

/-- C24: termination on full rankings.  Let `tally_from_file` build the tally of an election
with `N ≥ 2` candidates (all Active) from ballots that each rank every candidate exactly
once, every vote placed by `tally_add_vote` with its cursor at 0.  Then `tally_election`
returns once the fuel covers `N - 1` rounds and all the ballots, every returning run ends in
a round numbered at most `max 1 (N - 1)`, and every round body whose condition is Continue
leaves strictly fewer Active candidates than the round before it. -/
theorem tally_election_full_rankings_terminates (MAX_CANDIDATES : Int) (fuel N : Nat)
    (ballots : List (List Int)) (t0 : tally_t) (hN : 2 ≤ N)
    (hfile : tally_from_file MAX_CANDIDATES (N : Int) ballots = .ok t0)
    (hperm : ∀ b ∈ ballots, b.Perm ((List.range N).map (fun (j : Nat) => (j : Int))))
    (hrounds : N ≤ fuel + 1) (hdrain : ballots.length ≤ fuel) :
    (∃ t' c r, tally_election MAX_CANDIDATES fuel t0 = .ok (t', c, r) ∧
      r ≤ max 1 (N - 1)) ∧
    (∀ fuel' t' c r, tally_election MAX_CANDIDATES fuel' t0 = .ok (t', c, r) →
      r ≤ max 1 (N - 1)) ∧
    (∀ fuel' n t1 t2, rounds_state MAX_CANDIDATES fuel' n t0 = .ok t1 →
      rounds_state MAX_CANDIDATES fuel' 1 t1 = .ok t2 →
      tally_condition MAX_CANDIDATES t2 = .ok .TALLY_CONTINUE →
      num_with_status t2 .CAND_ACTIVE < num_with_status t1 .CAND_ACTIVE) := by
  obtain ⟨hc, hmax, hcons, hvalid, hwr, hout, hnum, hb⟩ :=
    tally_from_file_full_rankings MAX_CANDIDATES N ballots t0 (by omega) hfile hperm
  have hsafe : ∀ fuel' t' c r, tally_election MAX_CANDIDATES fuel' t0 = .ok (t', c, r) →
      r ≤ max 1 (N - 1) := by
    intro fuel' t' c r h
    have := (election_rounds_safe MAX_CANDIDATES fuel' fuel' 1 t0 t' c r hmax hcons hvalid
      (by omega) h).2
    rw [hnum] at this
    exact le_trans (by omega) (le_max_right 1 (N - 1))
  refine ⟨?_, hsafe, ?_⟩
  · obtain ⟨⟨t', c, r⟩, hres⟩ := election_rounds_returns MAX_CANDIDATES fuel fuel 1 t0 hmax
      hcons hvalid (by omega) hwr hout (by omega) (by omega)
    exact ⟨t', c, r, hres, hsafe fuel t' c r hres⟩
  · intro fuel' n t1 t2 h1 h2 hcond
    obtain ⟨v1, v2, v3⟩ := rounds_state_valid _ _ _ _ _ h1 hmax hcons hvalid
    unfold rounds_state at h2
    split at h2
    · simp at h2
    · rename_i t1' hdrop
      split at h2
      · simp at h2
      · rename_i t2' hset
        simp only [rounds_state, Except.ok.injEq] at h2
        subst h2
        obtain ⟨w1, w2, w3, _, w5⟩ := round_body_valid _ _ _ _ _ (by rw [v1]; exact hmax)
          v2 v3 hdrop hset
        apply w5
        rw [tally_condition_eq MAX_CANDIDATES t2' (by rw [w1, v1]; exact hmax) w3] at hcond
        simp only [Except.ok.injEq] at hcond
        split_ifs at hcond with g1 g2 g3
        omega

/-- Witness for C24: Scenario A, four candidates and six ballots that each rank all four;
the hypotheses hold with fuel 6 and the election ends within three rounds. -/
theorem tally_election_full_rankings_terminates_witness :
    ∃ t0, tally_from_file 8 4 scenario_a_ballots = .ok t0 ∧
      (∃ t' c r, tally_election 8 6 t0 = .ok (t', c, r) ∧ r ≤ max 1 (4 - 1)) ∧
      (∀ fuel' t' c r, tally_election 8 fuel' t0 = .ok (t', c, r) → r ≤ max 1 (4 - 1)) ∧
      (∀ fuel' n t1 t2, rounds_state 8 fuel' n t0 = .ok t1 →
        rounds_state 8 fuel' 1 t1 = .ok t2 →
        tally_condition 8 t2 = .ok .TALLY_CONTINUE →
        num_with_status t2 .CAND_ACTIVE < num_with_status t1 .CAND_ACTIVE) :=
  ⟨_, rfl, tally_election_full_rankings_terminates 8 6 4 scenario_a_ballots _ (by decide) rfl
    (by decide) (by decide) (by decide)⟩

/-- C26: no Error on full rankings.  Let `tally_from_file` build the tally of an election with
`N ≥ 2` candidates (all Active) from ballots that each rank every candidate exactly once.
Then `tally_election` returns once the fuel covers `N - 1` rounds and all the ballots, and
the terminal condition of every returning run is Winner or Tie, never Error. -/
theorem tally_election_full_rankings_no_error (MAX_CANDIDATES : Int) (fuel N : Nat)
    (ballots : List (List Int)) (t0 : tally_t) (hN : 2 ≤ N)
    (hfile : tally_from_file MAX_CANDIDATES (N : Int) ballots = .ok t0)
    (hperm : ∀ b ∈ ballots, b.Perm ((List.range N).map (fun (j : Nat) => (j : Int))))
    (hrounds : N ≤ fuel + 1) (hdrain : ballots.length ≤ fuel) :
    (∃ t' c r, tally_election MAX_CANDIDATES fuel t0 = .ok (t', c, r) ∧
      (c = .TALLY_WINNER ∨ c = .TALLY_TIE)) ∧
    (∀ fuel' t' c r, tally_election MAX_CANDIDATES fuel' t0 = .ok (t', c, r) →
      c ≠ .TALLY_ERROR ∧ (c = .TALLY_WINNER ∨ c = .TALLY_TIE)) := by
  obtain ⟨hc, hmax, hcons, hvalid, hwr, hout, hnum, hb⟩ :=
    tally_from_file_full_rankings MAX_CANDIDATES N ballots t0 (by omega) hfile hperm
  have hsafe : ∀ fuel' t' c r, tally_election MAX_CANDIDATES fuel' t0 = .ok (t', c, r) →
      c = .TALLY_WINNER ∨ c = .TALLY_TIE := by
    intro fuel' t' c r h
    exact (election_rounds_safe MAX_CANDIDATES fuel' fuel' 1 t0 t' c r hmax hcons hvalid
      (by omega) h).1
  constructor
  · obtain ⟨⟨t', c, r⟩, hres⟩ := election_rounds_returns MAX_CANDIDATES fuel fuel 1 t0 hmax
      hcons hvalid (by omega) hwr hout (by omega) (by omega)
    exact ⟨t', c, r, hres, hsafe fuel t' c r hres⟩
  · intro fuel' t' c r h
    have := hsafe fuel' t' c r h
    refine ⟨?_, this⟩
    rcases this with h1 | h1 <;> rw [h1] <;> decide

/-- Witness for C26: Scenario A, four candidates and six ballots that each rank all four;
with fuel 6 the election returns with Winner or Tie. -/
theorem tally_election_full_rankings_no_error_witness :
    ∃ t0, tally_from_file 8 4 scenario_a_ballots = .ok t0 ∧
      (∃ t' c r, tally_election 8 6 t0 = .ok (t', c, r) ∧
        (c = .TALLY_WINNER ∨ c = .TALLY_TIE)) ∧
      (∀ fuel' t' c r, tally_election 8 fuel' t0 = .ok (t', c, r) →
        c ≠ .TALLY_ERROR ∧ (c = .TALLY_WINNER ∨ c = .TALLY_TIE)) :=
  ⟨_, rfl, tally_election_full_rankings_no_error 8 6 4 scenario_a_ballots _ (by decide) rfl
    (by decide) (by decide) (by decide)⟩

/-- C12 (counterexample): the two-candidate file with the ballots `2 0` and `0 1` loads, and
`tally_add_vote` files the first ballot under cell 2, which is no candidate: of the two
ballots the lists of the candidates hold one and the invalid count is 0, when the tally is
built and still when `tally_election` has returned (Winner, round 1). -/
theorem partition_misses_ballot_beyond_count :
    beyond_count_ballots.length = 2 ∧
    ∃ t t' r, tally_from_file 8 2 beyond_count_ballots = .ok t ∧
      (bucket_total t : Int) + t.invalid_vote_count = 1 ∧
      (t.candidate_votes 2).map (fun v => v.id) = [1] ∧
      tally_election 8 2 t = .ok (t', .TALLY_WINNER, r) ∧
      (bucket_total t' : Int) + t'.invalid_vote_count = 1 :=
  ⟨rfl, _, _, _, rfl, rfl, rfl, rfl, rfl⟩

end RCV
